import Mathlib

/-!
Keychain "create transaction" form: focus navigation and list mutators.

A shallow embedding of `tui/keychaincreatetransactionui/model.go`.

* Go `int` values (`activeTab`, `focusInput`, list indices) are `Int`.
* Byte slices are `List Nat` (each element below 256).
* A Go `panic` (explicit `panic(err)`, an index or a slice bound out of range)
  is the result `none`.
* The external collaborators (crypto primitives, ledger client, the behaviour of
  a focused text widget on a key press) are the fields of `Env`.
-/

namespace KeychainCreateTransactionUI

/-! ## Go standard library helpers used by the form -/

/-- Value of one hexadecimal digit (`encoding/hex`, both letter cases), `none` for any
other character. -/
def fromHexChar (c : Char) : Option Nat :=
  if 48 ≤ c.toNat ∧ c.toNat ≤ 57 then some (c.toNat - 48)
  else if 97 ≤ c.toNat ∧ c.toNat ≤ 102 then some (c.toNat - 87)
  else if 65 ≤ c.toNat ∧ c.toNat ≤ 70 then some (c.toNat - 55)
  else none

/-- Pairwise decoding of hexadecimal digits; an odd number of digits or a character that
is not a hexadecimal digit is an error. -/
def hexDecodeChars : List Char → Option (List Nat)
  | [] => some []
  | [_] => none
  | p :: q :: rest =>
    match fromHexChar p, fromHexChar q, hexDecodeChars rest with
    | some a, some b, some r => some ((a * 16 + b) :: r)
    | _, _, _ => none

/-- Go `hex.DecodeString`: `none` stands for a non-nil `err`. -/
def hexDecodeString (s : String) : Option (List Nat) :=
  hexDecodeChars s.data

/-- Value of one decimal digit, `none` for any other character. -/
def decimalDigit (c : Char) : Option Nat :=
  if 48 ≤ c.toNat ∧ c.toNat ≤ 57 then some (c.toNat - 48) else none

/-- Left-to-right accumulation of decimal digits. -/
def parseDigits : List Char → Nat → Option Nat
  | [], acc => some acc
  | c :: rest, acc =>
    match decimalDigit c with
    | some d => parseDigits rest (acc * 10 + d)
    | none => none

/-- Go `strconv.ParseUint(s, 10, 64)`: a non-empty run of decimal digits (no sign, no
underscore) whose value fits in 64 bits; `none` stands for a non-nil `err`. -/
def ParseUint (s : String) : Option Nat :=
  match s.data with
  | [] => none
  | cs =>
    match parseDigits cs 0 with
    | some n => if n < 2 ^ 64 then some n else none
    | none => none

/-- Go `strconv.Atoi` with a 64-bit `int`: an optional sign followed by a non-empty run of
decimal digits, in the range of `int`; `none` stands for a non-nil `err`. -/
def Atoi (s : String) : Option Int :=
  match s.data with
  | [] => none
  | c :: rest =>
    if c = '-' then
      match rest with
      | [] => none
      | _ =>
        match parseDigits rest 0 with
        | some n => if n ≤ 2 ^ 63 then some (-(n : Int)) else none
        | none => none
    else if c = '+' then
      match rest with
      | [] => none
      | _ =>
        match parseDigits rest 0 with
        | some n => if n < 2 ^ 63 then some (n : Int) else none
        | none => none
    else
      match parseDigits (c :: rest) 0 with
      | some n => if n < 2 ^ 63 then some (n : Int) else none
      | none => none

/-- Go `append(s[:i], s[i+1:]...)`: the slice without its element at index `i`.  Slicing
panics when `i < 0` or `i + 1 > len(s)`. -/
def sliceDelete {α : Type} (s : List α) (i : Int) : Option (List α) :=
  if 0 ≤ i ∧ i + 1 ≤ (s.length : Int) then
    some (s.take i.toNat ++ s.drop (i.toNat + 1))
  else none

/-- Go indexing `s[i]` of a slice with an `int` index; out of range panics. -/
def sliceIndex {α : Type} (s : List α) (i : Int) : Option α :=
  if 0 ≤ i then s[i.toNat]? else none

/-! ## Text widgets -/

/-- The sanitizer of the `textinput` widget, character by character: the replacement
character U+FFFD is dropped, a carriage return, a newline and a tab become one space, every
other control character (U+0000..U+001F, U+007F..U+009F) is dropped, and every other
character is kept. -/
def sanitizeChars : List Char → List Char
  | [] => []
  | c :: rest =>
    if c.toNat = 65533 then sanitizeChars rest
    else if c.toNat = 13 ∨ c.toNat = 10 then ' ' :: sanitizeChars rest
    else if c.toNat = 9 then ' ' :: sanitizeChars rest
    else if c.toNat < 32 ∨ (127 ≤ c.toNat ∧ c.toNat ≤ 159) then sanitizeChars rest
    else c :: sanitizeChars rest

/-- The text a `textinput` keeps of a string handed to `SetValue`. -/
def sanitize (s : String) : String := String.mk (sanitizeChars s.data)

/-- The part of a `textinput.Model` / `textarea.Model` the form depends on: the text it
holds and whether it has the keyboard focus. -/
structure TextInput where
  value : String
  focus : Bool
  deriving DecidableEq, Repr

namespace TextInput

/-- Widget constructor `textinput.New()`: empty and not focused. -/
def New : TextInput := { value := "", focus := false }

/-- Widget method `SetValue`: the widget stores the sanitized text. -/
def SetValue (t : TextInput) (s : String) : TextInput := { t with value := sanitize s }

/-- Widget method `Focus`. -/
def Focus (t : TextInput) : TextInput := { t with focus := true }

/-- Widget method `Blur`. -/
def Blur (t : TextInput) : TextInput := { t with focus := false }

end TextInput

/-- Read `inputs[i].Value()`; an index out of range panics. -/
def inputValue (inputs : List TextInput) (i : Nat) : Option String :=
  (inputs[i]?).map (fun t => t.value)

/-- Perform `inputs[i].SetValue(s)`; an index out of range panics. -/
def inputSetValue (inputs : List TextInput) (i : Nat) (s : String) : Option (List TextInput) :=
  match inputs[i]? with
  | some t => some (inputs.set i (t.SetValue s))
  | none => none

/-! ## Transaction under construction (`archethic.TransactionBuilder`) -/

/-- The transaction kinds offered by the form (`archethic.TransactionType`). -/
inductive TransactionType where
  | KeychainAccessType | KeychainType | TransferType | HostingType | TokenType
  | DataType | ContractType | CodeProposalType | CodeApprovalType
  deriving DecidableEq, Repr

structure UcoTransfer where
  To : List Nat
  Amount : Nat
  deriving DecidableEq, Repr

structure TokenTransfer where
  To : List Nat
  TokenAddress : List Nat
  Amount : Nat
  TokenId : Int
  deriving DecidableEq, Repr

structure AuthorizedKey where
  PublicKey : List Nat
  EncryptedSecretKey : List Nat
  deriving DecidableEq, Repr

structure Ownership where
  Secret : List Nat
  AuthorizedKeys : List AuthorizedKey
  deriving DecidableEq, Repr

structure UcoLedger where
  Transfers : List UcoTransfer
  deriving DecidableEq, Repr

structure TokenLedger where
  Transfers : List TokenTransfer
  deriving DecidableEq, Repr

structure Ledger where
  Uco : UcoLedger
  Token : TokenLedger
  deriving DecidableEq, Repr

structure TransactionData where
  Ledger : Ledger
  Recipients : List (List Nat)
  Ownerships : List Ownership
  deriving DecidableEq, Repr

structure TransactionBuilder where
  TxType : TransactionType
  Version : Nat
  Data : TransactionData
  /-- Everything `BuildTransaction` and `OriginSign` write (address, keys, signatures),
  kept as one list of bytes. -/
  Sealed : List Nat
  deriving DecidableEq, Repr

/-- The filter of `AddOwnership` over the records: a record whose public key is among the
keys `seen` so far is dropped, every other record is kept and its key counts as seen. -/
def dedupAuthorizedKeys : List AuthorizedKey → List (List Nat) → List AuthorizedKey
  | [], _ => []
  | k :: rest, seen =>
    if k.PublicKey ∈ seen then dedupAuthorizedKeys rest seen
    else k :: dedupAuthorizedKeys rest (k.PublicKey :: seen)

namespace TransactionBuilder

/-- Library constructor `archethic.NewTransaction(txType)`: an empty draft of version 1. -/
def NewTransaction (t : TransactionType) : TransactionBuilder :=
  { TxType := t, Version := 1,
    Data := { Ledger := { Uco := { Transfers := [] }, Token := { Transfers := [] } },
              Recipients := [], Ownerships := [] },
    Sealed := [] }

/-- Library method `AddUcoTransfer(to, amount)`: append to `Data.Ledger.Uco.Transfers`. -/
def AddUcoTransfer (t : TransactionBuilder) (toAddr : List Nat) (amount : Nat) :
    TransactionBuilder :=
  { t with Data.Ledger.Uco.Transfers :=
      t.Data.Ledger.Uco.Transfers ++ [{ To := toAddr, Amount := amount }] }

/-- Library method `AddTokenTransfer(to, tokenAddress, amount, tokenId)`: append to
`Data.Ledger.Token.Transfers`. -/
def AddTokenTransfer (t : TransactionBuilder) (toAddr tokenAddress : List Nat) (amount : Nat)
    (tokenId : Int) : TransactionBuilder :=
  { t with Data.Ledger.Token.Transfers :=
      t.Data.Ledger.Token.Transfers ++
        [{ To := toAddr, TokenAddress := tokenAddress, Amount := amount, TokenId := tokenId }] }

/-- Library method `AddRecipient(address)`: append to `Data.Recipients`. -/
def AddRecipient (t : TransactionBuilder) (address : List Nat) : TransactionBuilder :=
  { t with Data.Recipients := t.Data.Recipients ++ [address] }

/-- Library method `AddOwnership(secret, authorizedKeys)`: of the records with the same
public key only the first is kept, and one ownership with the secret and the kept records is
appended to `Data.Ownerships`. -/
def AddOwnership (t : TransactionBuilder) (secret : List Nat)
    (authorizedKeys : List AuthorizedKey) : TransactionBuilder :=
  { t with Data.Ownerships :=
      t.Data.Ownerships ++
        [{ Secret := secret, AuthorizedKeys := dedupAuthorizedKeys authorizedKeys [] }] }

end TransactionBuilder

/-! ## External collaborators -/

/-- The keychain object returned by the ledger client (`archethic.Keychain`). -/
structure Keychain where
  Version : Nat
  DeriveAddress : String → Nat → List Nat
  BuildTransaction : TransactionBuilder → String → Nat → TransactionBuilder

/-- What the transaction sender reports to the handlers registered with `AddOnSent` and
`AddOnError`. -/
inductive SenderEvent where
  | Sent
  | Error (sender message : String)
  deriving DecidableEq, Repr

/-- Everything the form consumes from outside its own package.  A call that panics (it does
not return) is the value `none`. -/
structure Env where
  /-- Library function `archethic.AesEncrypt(data, key)`; it panics on a key it cannot
  use. -/
  AesEncrypt : List Nat → List Nat → Option (List Nat)
  /-- Library function `archethic.EcEncrypt(data, publicKey)`; it panics on bytes that are
  not a public key. -/
  EcEncrypt : List Nat → List Nat → Option (List Nat)
  /-- Library function `archethic.MaybeConvertToHex(seed)`. -/
  MaybeConvertToHex : String → List Nat
  /-- Library function `archethic.GetKeychain(seed, client)`, the client given by its url. -/
  GetKeychain : List Nat → String → Option Keychain
  /-- The lookup behind the client method `GetLastTransactionIndex(address)`, the client
  given by its url: the index found, or `none` when the lookup fails.  The method itself has
  no error result: see `lastTransactionIndex`. -/
  GetLastTransactionIndex : String → String → Option Int
  /-- Client method `GetStorageNoncePublicKey()`, the client given by its url. -/
  GetStorageNoncePublicKey : String → String
  /-- Transaction method `OriginSign(privateKey)`. -/
  OriginSign : TransactionBuilder → List Nat → TransactionBuilder
  /-- Sender method `SendTransaction(tx, confirmations, timeout)`, the client given by its
  url: the reports it delivers to the registered handlers before it returns, in their order
  (none when it reports nothing until then). -/
  SendTransaction : String → TransactionBuilder → Nat → Nat → List SenderEvent
  /-- New text of a focused `textinput` after it handled the key press. -/
  inputKey : String → String → String
  /-- New text of a focused `textarea` after it handled the key press. -/
  areaKey : String → String → String

/-- The value the client method `GetLastTransactionIndex(address)` returns to its caller:
the index found, and 0 when the lookup fails. -/
def lastTransactionIndex (env : Env) (url address : String) : Int :=
  (env.GetLastTransactionIndex url address).getD 0

/-- The feedback text after the handlers of the submit workflow ran on the reports of the
sender: `AddOnSent` writes "Transaction sent", `AddOnError` writes "Transaction error"
followed by the sender and the message. -/
def senderFeedback (feedback : String) : List SenderEvent → String
  | [] => feedback
  | SenderEvent.Sent :: rest => senderFeedback "Transaction sent" rest
  | SenderEvent.Error sender message :: rest =>
    senderFeedback ("Transaction error" ++ sender ++ message) rest

/-- Calls that leave the form, in the order they are made, and the commands `Update` returns
to the runtime. -/
inductive Effect where
  | BackMsg
  | Quit
  | NewAPIClient (url : String)
  | GetKeychain (seed : List Nat)
  | GetLastTransactionIndex (address : String)
  | BuildTransaction (serviceName : String) (index : Nat)
  | SendTransaction (tx : TransactionBuilder) (retries timeout : Nat)
  | GetStorageNoncePublicKey
  deriving DecidableEq, Repr

/-! ## The form state -/

/-- The render functions of the six tabs (`RenderFunc` values), by name. -/
inductive RenderFunc where
  | main | ucoTransfer | tokenTransfer | recipients | ownerships | content
  deriving DecidableEq, Repr

structure Model where
  Tabs : List String
  TabContent : List RenderFunc
  activeTab : Int
  focusInput : Int
  mainInputs : List TextInput
  contentTextAreaInputs : List TextInput
  ucoInputs : List TextInput
  tokenInputs : List TextInput
  recipientsInput : TextInput
  ownershipsInputs : List TextInput
  transaction : TransactionBuilder
  secretKey : List Nat
  authorizedKeys : List String
  storageNouncePublicKey : String
  url : String
  serviceName : String
  serviceMode : Bool
  feedback : String
  deriving DecidableEq, Repr

/-- Initial message of the form. -/
structure CreateTransactionMsg where
  ServiceName : String
  Seed : String
  Url : String
  deriving DecidableEq, Repr

/-- The messages `Update` distinguishes: the initial message and a key press, given by the
name the runtime prints for it (`msg.String()`). -/
inductive Msg where
  | CreateTransaction (p : CreateTransactionMsg)
  | Key (keypress : String)
  deriving DecidableEq, Repr

def urlType : List String := ["Local", "Testnet", "Mainnet", "Custom"]

/-- The map `urls`; a key that is absent gives the empty string. -/
def urls (u : String) : String :=
  if u = "Local" then "http://localhost:4000"
  else if u = "Testnet" then "https://testnet.archethic.net"
  else if u = "Mainnet" then "https://mainnet.archethic.net"
  else ""

def transactionTypesList : List String :=
  ["Keychain Access", "Keychain", "Transfer", "Hosting", "Token", "Data", "Contract",
   "Code Proposal", "Code Approval"]

/-- The map `transactionTypes`; a key that is absent gives the zero value, which the model
does not distinguish from the first kind. -/
def transactionTypes (t : String) : TransactionType :=
  if t = "Keychain Access" then .KeychainAccessType
  else if t = "Keychain" then .KeychainType
  else if t = "Transfer" then .TransferType
  else if t = "Hosting" then .HostingType
  else if t = "Token" then .TokenType
  else if t = "Data" then .DataType
  else if t = "Contract" then .ContractType
  else if t = "Code Proposal" then .CodeProposalType
  else if t = "Code Approval" then .CodeApprovalType
  else .KeychainAccessType

/-- The constructor `New()`; the 32 random bytes of the session key are the argument. -/
def New (key : List Nat) : Model :=
  { Tabs := ["Main", "UCO Transfers", "Token Transfers", "Recipients", "Ownerships", "Content"]
    TabContent := [.main, .ucoTransfer, .tokenTransfer, .recipients, .ownerships, .content]
    activeTab := 0
    focusInput := 0
    mainInputs := List.replicate 3 TextInput.New
    contentTextAreaInputs := List.replicate 2 TextInput.New
    ucoInputs := List.replicate 2 TextInput.New
    tokenInputs := List.replicate 4 TextInput.New
    recipientsInput := TextInput.New
    ownershipsInputs := List.replicate 2 TextInput.New
    transaction := TransactionBuilder.NewTransaction .KeychainAccessType
    secretKey := key
    authorizedKeys := []
    storageNouncePublicKey := ""
    url := ""
    serviceName := ""
    serviceMode := false
    feedback := "" }

def max (a b : Int) : Int := if a > b then a else b

def min (a b : Int) : Int := if a < b then a else b

/-! ## Focus navigation -/

def getFocusIndex (m : Model) (keypress : String) : Model :=
  let m : Model :=
    if keypress = "up" then { m with focusInput := m.focusInput - 1 }
    else { m with focusInput := m.focusInput + 1 }
  if m.activeTab = 0 then
    if m.serviceMode then
      if m.focusInput > 15 then { m with focusInput := 6 }
      else if m.focusInput < 6 then { m with focusInput := 15 }
      else m
    else
      if m.focusInput > 15 then { m with focusInput := 0 }
      else if m.focusInput < 0 then { m with focusInput := 15 }
      else m
  else if m.activeTab = 1 then
    if m.focusInput >
        (m.ucoInputs.length : Int) + (m.transaction.Data.Ledger.Uco.Transfers.length : Int) then
      { m with focusInput := 0 }
    else if m.focusInput < 0 then
      { m with focusInput :=
          (m.ucoInputs.length : Int) + (m.transaction.Data.Ledger.Uco.Transfers.length : Int) }
    else m
  else if m.activeTab = 2 then
    if m.focusInput >
        (m.tokenInputs.length : Int) + (m.transaction.Data.Ledger.Token.Transfers.length : Int) then
      { m with focusInput := 0 }
    else if m.focusInput < 0 then
      { m with focusInput :=
          (m.tokenInputs.length : Int) + (m.transaction.Data.Ledger.Token.Transfers.length : Int) }
    else m
  else if m.activeTab = 3 then
    if m.focusInput > 1 + 1 + (m.transaction.Data.Recipients.length : Int) then
      { m with focusInput := 0 }
    else if m.focusInput < 0 then
      { m with focusInput := 1 + 1 + (m.transaction.Data.Recipients.length : Int) }
    else m
  else if m.activeTab = 4 then
    if m.focusInput >
        (m.ownershipsInputs.length : Int) + (m.authorizedKeys.length : Int) +
          (m.transaction.Data.Ownerships.length : Int) + 2 then
      { m with focusInput := 0 }
    else if m.focusInput < 0 then
      { m with focusInput :=
          (m.ownershipsInputs.length : Int) + (m.authorizedKeys.length : Int) +
            (m.transaction.Data.Ownerships.length : Int) + 2 }
    else m
  else if m.activeTab = 5 then
    if m.focusInput > (m.contentTextAreaInputs.length : Int) then { m with focusInput := 0 }
    else if m.focusInput < 0 then
      { m with focusInput := (m.contentTextAreaInputs.length : Int) }
    else m
  else m

/-- The loop of `updateFocus` over one group of widgets, from index `i` on: the widget
whose index equals `target` is focused, every other one is blurred. -/
def focusLoop : List TextInput → Nat → Int → List TextInput
  | [], _, _ => []
  | t :: rest, i, target =>
    (if (i : Int) = target then t.Focus else t.Blur) :: focusLoop rest (i + 1) target

def updateFocus (m : Model) : Model :=
  if m.activeTab = 0 then { m with mainInputs := focusLoop m.mainInputs 0 (m.focusInput - 4) }
  else if m.activeTab = 1 then { m with ucoInputs := focusLoop m.ucoInputs 0 m.focusInput }
  else if m.activeTab = 2 then { m with tokenInputs := focusLoop m.tokenInputs 0 m.focusInput }
  else if m.activeTab = 3 then
    if m.focusInput = 0 then { m with recipientsInput := m.recipientsInput.Focus }
    else { m with recipientsInput := m.recipientsInput.Blur }
  else if m.activeTab = 4 then
    { m with ownershipsInputs := focusLoop m.ownershipsInputs 0 m.focusInput }
  else if m.activeTab = 5 then
    { m with contentTextAreaInputs := focusLoop m.contentTextAreaInputs 0 m.focusInput }
  else m

/-- Widget method `Update(msg)`: a widget without the focus ignores the message, a focused
one handles a key press (`onKey` is the widget kind's reaction); the initial message of the
form is not a message of the widget. -/
def widgetUpdate (onKey : String → String → String) (msg : Msg) (t : TextInput) : TextInput :=
  if t.focus then
    match msg with
    | .Key keypress => { t with value := onKey keypress t.value }
    | .CreateTransaction _ => t
  else t

def updateInputs (env : Env) (m : Model) (msg : Msg) : Model :=
  if m.activeTab = 0 then
    { m with mainInputs := m.mainInputs.map (widgetUpdate env.inputKey msg) }
  else if m.activeTab = 1 then
    { m with ucoInputs := m.ucoInputs.map (widgetUpdate env.inputKey msg) }
  else if m.activeTab = 2 then
    { m with tokenInputs := m.tokenInputs.map (widgetUpdate env.inputKey msg) }
  else if m.activeTab = 3 then
    { m with recipientsInput := widgetUpdate env.inputKey msg m.recipientsInput }
  else if m.activeTab = 4 then
    { m with ownershipsInputs := m.ownershipsInputs.map (widgetUpdate env.inputKey msg) }
  else if m.activeTab = 5 then
    { m with contentTextAreaInputs :=
        m.contentTextAreaInputs.map (widgetUpdate env.areaKey msg) }
  else m

/-! ## List mutators -/

def addUcoTransfer (m : Model) : Option Model := do
  let toHex ← inputValue m.ucoInputs 0
  let toAddr ← hexDecodeString toHex
  let amountStr ← inputValue m.ucoInputs 1
  let amount ← ParseUint amountStr
  let m : Model := { m with transaction := m.transaction.AddUcoTransfer toAddr amount }
  let inputs ← inputSetValue m.ucoInputs 0 ""
  let inputs ← inputSetValue inputs 1 ""
  pure { m with ucoInputs := inputs }

def deleteUcoTransfer (m : Model) : Option Model := do
  let focusIndex : Int := m.focusInput - (m.ucoInputs.length : Int) - 1
  let transfers ← sliceDelete m.transaction.Data.Ledger.Uco.Transfers focusIndex
  pure { m with transaction.Data.Ledger.Uco.Transfers := transfers,
                focusInput := m.focusInput - 1 }

def addTokenTransfer (m : Model) : Option Model := do
  let toHex ← inputValue m.tokenInputs 0
  let toAddr ← hexDecodeString toHex
  let amountStr ← inputValue m.tokenInputs 1
  let amount ← ParseUint amountStr
  let tokenAddressHex ← inputValue m.tokenInputs 2
  let tokenAddress ← hexDecodeString tokenAddressHex
  let tokenIdStr ← inputValue m.tokenInputs 3
  let tokenId ← Atoi tokenIdStr
  let m : Model :=
    { m with transaction := m.transaction.AddTokenTransfer toAddr tokenAddress amount tokenId }
  let inputs ← inputSetValue m.tokenInputs 0 ""
  let inputs ← inputSetValue inputs 1 ""
  let inputs ← inputSetValue inputs 2 ""
  let inputs ← inputSetValue inputs 3 ""
  pure { m with tokenInputs := inputs }

def deleteTokenTransfer (m : Model) : Option Model := do
  let focusIndex : Int := m.focusInput - (m.tokenInputs.length : Int) - 1
  let transfers ← sliceDelete m.transaction.Data.Ledger.Token.Transfers focusIndex
  pure { m with transaction.Data.Ledger.Token.Transfers := transfers,
                focusInput := m.focusInput - 1 }

def addRecipient (m : Model) : Option Model := do
  let recipientHex := m.recipientsInput.value
  let recipient ← hexDecodeString recipientHex
  pure { m with transaction := m.transaction.AddRecipient recipient,
                recipientsInput := m.recipientsInput.SetValue "" }

def deleteRecipient (m : Model) : Option Model := do
  let focusIndex : Int := m.focusInput - 1 - 1
  let recipients ← sliceDelete m.transaction.Data.Recipients focusIndex
  pure { m with transaction.Data.Recipients := recipients,
                focusInput := m.focusInput - 1 }

def addAuthorizedKey (m : Model) : Option Model := do
  let authorizedKey ← inputValue m.ownershipsInputs 1
  let m : Model := { m with authorizedKeys := m.authorizedKeys ++ [authorizedKey] }
  let inputs ← inputSetValue m.ownershipsInputs 1 ""
  pure { m with ownershipsInputs := inputs }

def deleteAuthorizedKey (m : Model) : Option Model := do
  let focusIndex : Int := m.focusInput - (m.ownershipsInputs.length : Int)
  let keys ← sliceDelete m.authorizedKeys focusIndex
  pure { m with authorizedKeys := keys, focusInput := m.focusInput - 1 }

/-- The bytes of a string, Go `[]byte(s)`: the UTF-8 encoding of its characters. -/
def stringBytes (s : String) : List Nat :=
  (s.data.flatMap String.utf8EncodeChar).map (fun b => b.toNat)

/-- The body of the loop of `addOwnership` for one pending key: the key is decoded (a key
that is not hexadecimal panics) and paired with the session key encrypted for it (the
encryption panics on bytes that are not a public key). -/
def keyRecord (env : Env) (secretKey : List Nat) (key : String) : Option AuthorizedKey :=
  match hexDecodeString key with
  | none => none
  | some keyByte =>
    match env.EcEncrypt secretKey keyByte with
    | none => none
    | some encrypted => some { PublicKey := keyByte, EncryptedSecretKey := encrypted }

/-- The loop of `addOwnership` over the pending keys, in their order. -/
def authorizedKeysLoop (env : Env) (secretKey : List Nat) :
    List String → Option (List AuthorizedKey)
  | [] => some []
  | key :: rest =>
    match keyRecord env secretKey key, authorizedKeysLoop env secretKey rest with
    | some record, some r => some (record :: r)
    | _, _ => none

def addOwnership (env : Env) (m : Model) : Option Model := do
  let secret ← inputValue m.ownershipsInputs 0
  let pending ← inputValue m.ownershipsInputs 1
  let m ← if pending ≠ "" then addAuthorizedKey m else some m
  let cipher ← env.AesEncrypt (stringBytes secret) m.secretKey
  let authorizedKeys ← authorizedKeysLoop env m.secretKey m.authorizedKeys
  let m : Model :=
    { m with transaction := m.transaction.AddOwnership cipher authorizedKeys,
             authorizedKeys := [] }
  let inputs ← inputSetValue m.ownershipsInputs 0 ""
  let inputs ← inputSetValue inputs 1 ""
  pure { m with ownershipsInputs := inputs }

def deleteOwnership (m : Model) : Option Model := do
  let focusIndex : Int :=
    m.focusInput - (m.ownershipsInputs.length : Int) - (m.authorizedKeys.length : Int) - 3
  let ownerships ← sliceDelete m.transaction.Data.Ownerships focusIndex
  pure { m with transaction.Data.Ownerships := ownerships,
                focusInput := m.focusInput - 1 }

def loadStorageNouncePublicKey (env : Env) (m : Model) : Option (Model × List Effect) := do
  let (m, effects) : Model × List Effect :=
    if m.storageNouncePublicKey = "" then
      ({ m with storageNouncePublicKey := env.GetStorageNoncePublicKey m.url },
       [Effect.NewAPIClient m.url, Effect.GetStorageNoncePublicKey])
    else (m, [])
  let inputs ← inputSetValue m.ownershipsInputs 1 m.storageNouncePublicKey
  pure ({ m with ownershipsInputs := inputs }, effects)

/-! ## The event handler -/

/-- One lowercase hexadecimal digit. -/
def hexDigit (n : Nat) : Char :=
  if n < 10 then Char.ofNat (48 + n) else Char.ofNat (87 + n)

def hexEncodeChars : List Nat → List Char
  | [] => []
  | b :: rest => hexDigit (b / 16 % 16) :: hexDigit (b % 16) :: hexEncodeChars rest

/-- Go `hex.EncodeToString`. -/
def hexEncodeToString (b : List Nat) : String := String.mk (hexEncodeChars b)

/-- The origin private key embedded in the source (the decoding error is discarded
there). -/
def originPrivateKey : List Nat :=
  (hexDecodeString
    "01019280BDB84B8F8AEDBA205FE3552689964A5626EE2C60AA10E3BF22A91A036009").getD []

/-- The branch of `Update` for the key `enter`.  On the submit control the index is the
value `GetLastTransactionIndex` returns, converted to `uint8`, and the feedback text is
written by the handlers registered with the sender, on what the sender reports while
`SendTransaction` runs. -/
def updateEnter (env : Env) (m : Model) : Option (Model × List Effect) :=
  if m.activeTab = 0 then
    if m.focusInput < 4 then do
      let u ← sliceIndex urlType m.focusInput
      let inputs ← inputSetValue m.mainInputs 0 (urls u)
      pure ({ m with mainInputs := inputs, url := u, focusInput := 4 }, [])
    else if m.focusInput > 5 ∧ m.focusInput < 15 then do
      let t ← sliceIndex transactionTypesList (m.focusInput - 6)
      pure ({ m with transaction.TxType := transactionTypes t, focusInput := 15 }, [])
    else if m.focusInput = 15 then do
      let seedStr ← inputValue m.mainInputs 1
      let seed := env.MaybeConvertToHex seedStr
      let keychain ← env.GetKeychain seed m.url
      let tx : TransactionBuilder := { m.transaction with Version := keychain.Version % 2 ^ 32 }
      let genesisAddress := keychain.DeriveAddress m.serviceName 0
      let index := lastTransactionIndex env m.url (hexEncodeToString genesisAddress)
      let index8 : Nat := (index % 256).toNat
      let tx := keychain.BuildTransaction tx m.serviceName index8
      let tx := env.OriginSign tx originPrivateKey
      let feedback := senderFeedback m.feedback (env.SendTransaction m.url tx 1 1000)
      pure ({ m with transaction := tx, feedback := feedback },
        [Effect.NewAPIClient m.url, Effect.GetKeychain seed,
         Effect.GetLastTransactionIndex (hexEncodeToString genesisAddress),
         Effect.BuildTransaction m.serviceName index8, Effect.SendTransaction tx 1 1000])
    else some (m, [])
  else if m.activeTab = 1 then
    if m.focusInput = (m.ucoInputs.length : Int) then (addUcoTransfer m).map (fun r => (r, []))
    else some (m, [])
  else if m.activeTab = 2 then
    if m.focusInput = (m.tokenInputs.length : Int) then
      (addTokenTransfer m).map (fun r => (r, []))
    else some (m, [])
  else if m.activeTab = 3 then
    if m.focusInput = 1 ∨ m.focusInput = 0 then (addRecipient m).map (fun r => (r, []))
    else some (m, [])
  else if m.activeTab = 4 then
    if m.focusInput = (m.ownershipsInputs.length : Int) + (m.authorizedKeys.length : Int) then
      (addAuthorizedKey m).map (fun r => (r, []))
    else if m.focusInput =
        (m.ownershipsInputs.length : Int) + (m.authorizedKeys.length : Int) + 1 then
      loadStorageNouncePublicKey env m
    else if m.focusInput =
        (m.ownershipsInputs.length : Int) + (m.authorizedKeys.length : Int) + 2 then
      (addOwnership env m).map (fun r => (r, []))
    else some (m, [])
  else some (m, [])

/-- The branch of `Update` for the key `d`. -/
def updateDelete (m : Model) : Option Model :=
  if m.activeTab = 1 then
    if m.focusInput > (m.ucoInputs.length : Int) then deleteUcoTransfer m else some m
  else if m.activeTab = 2 then
    if m.focusInput > (m.tokenInputs.length : Int) then deleteTokenTransfer m else some m
  else if m.activeTab = 3 then
    if m.focusInput > 1 then deleteRecipient m else some m
  else if m.activeTab = 4 then
    if m.focusInput > (m.ownershipsInputs.length : Int) - 1 ∧
        m.focusInput < (m.ownershipsInputs.length : Int) + (m.authorizedKeys.length : Int) then
      deleteAuthorizedKey m
    else if m.focusInput >
        (m.ownershipsInputs.length : Int) + (m.authorizedKeys.length : Int) + 2 then
      deleteOwnership m
    else some m
  else some m

/-- The tail of `Update` shared by every message that does not return early: the focus is
recomputed, then the widgets of the active tab receive the message. -/
def finish (env : Env) (m : Model) (msg : Msg) (effects : List Effect) :
    Option (Model × List Effect) :=
  some (updateInputs env (updateFocus m) msg, effects)

/-- The method `Model.Update`: the new state together with the calls made and commands
returned, or `none` when the handler panics. -/
def Update (env : Env) (m : Model) (msg : Msg) : Option (Model × List Effect) :=
  match msg with
  | .CreateTransaction initParams => do
    let inputs ← inputSetValue m.mainInputs 1 initParams.Seed
    let inputs ← inputSetValue inputs 0 initParams.Url
    let m : Model :=
      { m with mainInputs := inputs, url := initParams.Url,
               serviceName := initParams.ServiceName,
               serviceMode := decide (initParams.ServiceName ≠ "") }
    let m : Model := if m.serviceMode then { m with focusInput := 6 } else m
    finish env m msg []
  | .Key keypress =>
    if keypress = "esc" then some (m, [Effect.BackMsg])
    else if keypress = "ctrl+c" then some (m, [Effect.Quit])
    else if keypress = "right" ∨ keypress = "tab" then
      some ({ m with activeTab := min (m.activeTab + 1) ((m.Tabs.length : Int) - 1),
                     focusInput := 0 }, [])
    else if keypress = "left" ∨ keypress = "shift+tab" then
      some ({ m with activeTab := max (m.activeTab - 1) 0, focusInput := 0 }, [])
    else if keypress = "up" ∨ keypress = "down" then
      finish env (getFocusIndex m keypress) msg []
    else if keypress = "enter" then
      match updateEnter env m with
      | some (m, effects) => finish env m msg effects
      | none => none
    else if keypress = "d" then
      match updateDelete m with
      | some m => finish env m msg []
      | none => none
    else finish env m msg []

/-- Feed a sequence of messages to `Update`, from the left; `none` as soon as one of them
panics. -/
def run (env : Env) : Model → List Msg → Option Model
  | m, [] => some m
  | m, msg :: rest =>
    match Update env m msg with
    | some (m, _) => run env m rest
    | none => none

/-- Press the same key `n` times. -/
def press (env : Env) (keypress : String) : Nat → Model → Option Model
  | 0, m => some m
  | n + 1, m =>
    match Update env m (.Key keypress) with
    | some (m, _) => press env keypress n m
    | none => none

/-- A sample public key in hexadecimal: curve byte 00 (Ed25519), origin byte 01, and the
32 bytes of the public key of the first test vector of RFC 8032. -/
def keyA : String := "0001d75a980182b10ab7d54bfed3c964073a0ee172f3daa62325af021a68f707511a"

/-- The key `keyA` written with capital letters. -/
def keyAUpper : String := "0001D75A980182B10AB7D54BFED3C964073A0EE172F3DAA62325AF021A68F707511A"

/-- A second sample public key: the public key of the second test vector of RFC 8032. -/
def keyB : String := "00013d4017c3e843895a92b70aa74d1b7ebc9c982ccf2ec4968cc0cd55f12af4660c"

/-- A sample environment: a focused widget appends a key that is a single character to its
text and ignores every other key; the ledger client serves one fixed storage nonce public
key and fails at every other call; the sender reports nothing before it returns; the
symmetric encryption returns the data followed by the key; the asymmetric encryption accepts
a public key of 34 bytes whose curve byte is 0 (2 + 32 bytes, Ed25519) and returns the key
followed by the data, and panics on any other bytes. -/
def sampleEnv : Env :=
  { AesEncrypt := fun data key => some (data ++ key)
    EcEncrypt := fun data publicKey =>
      if publicKey.length = 34 ∧ publicKey.head? = some 0 then some (publicKey ++ data)
      else none
    MaybeConvertToHex := fun s => stringBytes s
    GetKeychain := fun _ _ => none
    GetLastTransactionIndex := fun _ _ => none
    GetStorageNoncePublicKey := fun _ => "00017877bcf4122095926a49489009649603ab129822a19ef9d573b8fd714911ed7f"
    OriginSign := fun tx _ => tx
    SendTransaction := fun _ _ _ _ => []
    inputKey := fun keypress value =>
      if keypress.length = 1 then String.mk (value.data ++ keypress.data) else value
    areaKey := fun keypress value =>
      if keypress.length = 1 then String.mk (value.data ++ keypress.data) else value }

/-! ## Vocabulary of the navigation properties -/

/-- The wraparound rule every branch of `getFocusIndex` applies to the moved cursor. -/
def wrap (lo hi x : Int) : Int := if x > hi then lo else if x < lo then hi else x

/-- First position of the wrap range of the active tab. -/
def wrapLow (m : Model) : Int := if m.activeTab = 0 ∧ m.serviceMode = true then 6 else 0

/-- Last position of the wrap range of the active tab: the bound `getFocusIndex` compares the
cursor with. -/
def wrapHigh (m : Model) : Int :=
  if m.activeTab = 0 then 15
  else if m.activeTab = 1 then
    (m.ucoInputs.length : Int) + (m.transaction.Data.Ledger.Uco.Transfers.length : Int)
  else if m.activeTab = 2 then
    (m.tokenInputs.length : Int) + (m.transaction.Data.Ledger.Token.Transfers.length : Int)
  else if m.activeTab = 3 then 1 + 1 + (m.transaction.Data.Recipients.length : Int)
  else if m.activeTab = 4 then
    (m.ownershipsInputs.length : Int) + (m.authorizedKeys.length : Int) +
      (m.transaction.Data.Ownerships.length : Int) + 2
  else (m.contentTextAreaInputs.length : Int)

/-- The cursor after the first statement of `getFocusIndex`. -/
def moved (keypress : String) (c : Int) : Int := if keypress = "up" then c - 1 else c + 1

/-- Number of positions the `up`/`down` navigation of the active tab cycles through. -/
def VirtualSpace (m : Model) : Int := wrapHigh m - wrapLow m + 1

/-- Key presses: open the Ownerships tab, twice load the storage nonce public key and add
it as a pending authorized key, then move to the commit button and press `enter`. -/
def commitOwnershipKeys : List Msg :=
  [.Key "tab", .Key "tab", .Key "tab", .Key "tab",
   .Key "down", .Key "down", .Key "down", .Key "enter", .Key "up", .Key "enter",
   .Key "down", .Key "down", .Key "enter", .Key "up", .Key "enter",
   .Key "down", .Key "down", .Key "down", .Key "enter"]

/-- What the focus and widget passes at the end of `Update` leave alone: everything except
the widgets themselves, and the number of widgets in each group. -/
structure Frame (a b : Model) : Prop where
  Tabs : b.Tabs = a.Tabs
  activeTab : b.activeTab = a.activeTab
  focusInput : b.focusInput = a.focusInput
  transaction : b.transaction = a.transaction
  secretKey : b.secretKey = a.secretKey
  authorizedKeys : b.authorizedKeys = a.authorizedKeys
  storageNouncePublicKey : b.storageNouncePublicKey = a.storageNouncePublicKey
  url : b.url = a.url
  serviceName : b.serviceName = a.serviceName
  serviceMode : b.serviceMode = a.serviceMode
  feedback : b.feedback = a.feedback
  mainInputs : b.mainInputs.length = a.mainInputs.length
  contentTextAreaInputs : b.contentTextAreaInputs.length = a.contentTextAreaInputs.length
  ucoInputs : b.ucoInputs.length = a.ucoInputs.length
  tokenInputs : b.tokenInputs.length = a.tokenInputs.length
  ownershipsInputs : b.ownershipsInputs.length = a.ownershipsInputs.length
  TabContent : b.TabContent = a.TabContent

/-- A state on the UcoTransfers tab with two committed transfers and the cursor on the
second of them (position 4, the last one). -/
def ucoSample : Model :=
  { New [] with
    activeTab := 1, focusInput := 4,
    transaction.Data.Ledger.Uco.Transfers :=
      [{ To := [170], Amount := 5 }, { To := [187], Amount := 7 }] }

/-- The form as the initial message leaves it when a service name is supplied, moved to
the submit control (position 15). -/
def serviceSample : Model :=
  { New [] with serviceName := "svc", serviceMode := true, focusInput := 15 }

/-- Messages: the initial message with a service name, then one press of `left`. -/
def serviceLeftKeys : List Msg :=
  [.CreateTransaction { ServiceName := "svc", Seed := "seed", Url := "" }, .Key "left"]

/-- Key presses: open the Recipients tab and press `down` twice. -/
def recipientsDownKeys : List Msg :=
  [.Key "tab", .Key "tab", .Key "tab", .Key "down", .Key "down"]

/-- Key presses: open the Content tab and press `down` twice. -/
def contentDownKeys : List Msg :=
  [.Key "tab", .Key "tab", .Key "tab", .Key "tab", .Key "tab", .Key "down", .Key "down"]

/-- A state on the UcoTransfers tab with the transfers (AA, 5) and (BB, 7) committed and the
cursor on the first committed position (position 3). -/
def ucoDeleteSample : Model :=
  { New [] with
    activeTab := 1, focusInput := 3,
    transaction.Data.Ledger.Uco.Transfers :=
      [{ To := [170], Amount := 5 }, { To := [187], Amount := 7 }] }

/-- A state on the TokenTransfers tab with two committed transfers and the cursor on the
second one (position 6). -/
def tokenDeleteSample : Model :=
  { New [] with
    activeTab := 2, focusInput := 6,
    transaction.Data.Ledger.Token.Transfers :=
      [{ To := [170], TokenAddress := [1], Amount := 5, TokenId := 0 },
       { To := [187], TokenAddress := [2], Amount := 7, TokenId := 1 }] }

/-- A state on the Recipients tab with two committed recipients and the cursor on the first
one (position 2). -/
def recipientsDeleteSample : Model :=
  { New [] with
    activeTab := 3, focusInput := 2, transaction.Data.Recipients := [[170], [187]] }

/-- A state on the Ownerships tab with two pending keys and the cursor on the second one
(position 3). -/
def pendingKeyDeleteSample : Model :=
  { New [] with activeTab := 4, focusInput := 3, authorizedKeys := ["aa", "bb"] }

/-- A state on the Ownerships tab with one pending key, two committed ownerships and the
cursor on the first committed ownership (position 6). -/
def ownershipDeleteSample : Model :=
  { New [] with
    activeTab := 4, focusInput := 6, authorizedKeys := ["aa"],
    transaction.Data.Ownerships :=
      [{ Secret := [1], AuthorizedKeys := [] }, { Secret := [2], AuthorizedKeys := [] }] }

/-- A state whose input buffers all validate: UCO transfer (AA, 5), token transfer
(AA, 5, token BB, id -3), recipient CC. -/
def validBuffersSample : Model :=
  { New [] with
    ucoInputs := [{ value := "AA", focus := false }, { value := "5", focus := false }],
    tokenInputs :=
      [{ value := "AA", focus := false }, { value := "5", focus := false },
       { value := "BB", focus := false }, { value := "-3", focus := false }],
    recipientsInput := { value := "CC", focus := false } }

/-- Key presses: open the UcoTransfers tab, move to the Add button and press `enter`
with both buffers left empty. -/
def emptyUcoAddKeys : List Msg :=
  [.Key "tab", .Key "down", .Key "down", .Key "enter"]

/-- A state with one committed entry in each of the three simple lists and input buffers
that all validate. -/
def roundTripSample : Model :=
  { validBuffersSample with
    transaction.Data.Ledger.Uco.Transfers := [{ To := [1], Amount := 9 }],
    transaction.Data.Ledger.Token.Transfers :=
      [{ To := [1], TokenAddress := [2], Amount := 9, TokenId := 4 }],
    transaction.Data.Recipients := [[1]] }

/-- The pending keys `addOwnership` turns into records: the pending list, followed by the
text of the authorization-key buffer when that text is not empty. -/
def keysAtCommit (m : Model) (keyBuffer : String) : List String :=
  if keyBuffer ≠ "" then m.authorizedKeys ++ [keyBuffer] else m.authorizedKeys

/-- A session key of 32 bytes. -/
def sampleSecretKey : List Nat := List.replicate 32 7

/-- The bytes of `keyA`. -/
def keyABytes : List Nat :=
  [0, 1, 215, 90, 152, 1, 130, 177, 10, 183, 213, 75, 254, 211, 201, 100, 7, 58, 14, 225, 114,
   243, 218, 166, 35, 37, 175, 2, 26, 104, 247, 7, 81, 26]

/-- The bytes of `keyB`. -/
def keyBBytes : List Nat :=
  [0, 1, 61, 64, 23, 195, 232, 67, 137, 90, 146, 183, 10, 167, 77, 27, 126, 188, 156, 152, 44,
   207, 46, 196, 150, 140, 192, 205, 85, 241, 42, 244, 102, 12]

/-- A state on the Ownerships tab with the secret "s", one pending key `keyA` and the
authorization-key buffer holding `keyB`; the cursor is on the commit button. -/
def commitSample : Model :=
  { New sampleSecretKey with
    activeTab := 4, focusInput := 5, authorizedKeys := [keyA],
    ownershipsInputs := [{ value := "s", focus := false }, { value := keyB, focus := false }] }

/-- The state `commitSample` with a key buffer that is not hexadecimal. -/
def badKeySample : Model :=
  { commitSample with
    ownershipsInputs := [{ value := "s", focus := false }, { value := "zz", focus := false }] }

/-- The state `commitSample` with a key buffer that is hexadecimal but not a public key. -/
def notAKeySample : Model :=
  { commitSample with
    ownershipsInputs := [{ value := "s", focus := false }, { value := "aa", focus := false }] }

/-- The state `commitSample` with the pending keys `keyA` and `keyB` and the key buffer
holding `keyA` again. -/
def duplicateBufferSample : Model :=
  { commitSample with
    focusInput := 6, authorizedKeys := [keyA, keyB],
    ownershipsInputs := [{ value := "s", focus := false }, { value := keyA, focus := false }] }

/-- A state on the Ownerships tab with the pending key "aa", which is hexadecimal but not a
public key, and an empty authorization-key buffer. -/
def notAKeyPendingSample : Model :=
  { New sampleSecretKey with
    activeTab := 4, focusInput := 5, authorizedKeys := ["aa"],
    ownershipsInputs := [{ value := "s", focus := false }, { value := "", focus := false }] }

/-- A state on the Ownerships tab with the pending keys `keyA`, `keyB` and `keyA` in capital
letters, and an empty authorization-key buffer. -/
def repeatedKeySample : Model :=
  { New sampleSecretKey with
    activeTab := 4, focusInput := 7, authorizedKeys := [keyA, keyB, keyAUpper],
    ownershipsInputs := [{ value := "s", focus := false }, { value := "", focus := false }] }

/-- Key presses: open the Ownerships tab, move to the control "Add authorization key" and
press `enter` with the authorization-key buffer left empty. -/
def emptyKeyAddKeys : List Msg :=
  [.Key "tab", .Key "tab", .Key "tab", .Key "tab", .Key "down", .Key "down", .Key "enter"]

/-- What no message changes except the keys that switch the tab: the tab table and the
session key; and, for every other message, the active tab. -/
structure Static (a b : Model) : Prop where
  Tabs : b.Tabs = a.Tabs
  TabContent : b.TabContent = a.TabContent
  activeTab : b.activeTab = a.activeTab
  secretKey : b.secretKey = a.secretKey


/-- The lookup `m.TabContent[m.activeTab]` of `View`; `none` is an index out of range. -/
def activeTabContent (m : Model) : Option RenderFunc := sliceIndex m.TabContent m.activeTab

/-- The active tab is an index of the 6 entries of `Tabs` and `TabContent`. -/
def ValidTab (m : Model) : Prop :=
  0 ≤ m.activeTab ∧ m.activeTab < 6 ∧ m.Tabs.length = 6 ∧ m.TabContent.length = 6

/-- A state on the last tab with some content in lists and buffers. -/
def lastTabSample : Model :=
  { roundTripSample with activeTab := 5, focusInput := 2, authorizedKeys := ["aa"] }

/-- A sample keychain: version 1, the derived address is the index, and the built
transaction records the index it was built at. -/
def sampleKeychain : Keychain :=
  { Version := 1
    DeriveAddress := fun _ index => [index]
    BuildTransaction := fun tx _ index => { tx with Sealed := [index] } }

/-- The sample environment with a ledger client that serves `sampleKeychain` and answers
every last-index lookup with `index`. -/
def ledgerEnv (index : Int) : Env :=
  { sampleEnv with
    GetKeychain := fun _ _ => some sampleKeychain
    GetLastTransactionIndex := fun _ _ => some index }

/-- The sample environment with a ledger client that serves `sampleKeychain`, fails at
every last-index lookup and reports every transaction as sent. -/
def failingIndexEnv : Env :=
  { sampleEnv with
    GetKeychain := fun _ _ => some sampleKeychain
    GetLastTransactionIndex := fun _ _ => none
    SendTransaction := fun _ _ _ _ => [SenderEvent.Sent] }

/-- The initial form with the cursor on the submit control of the Main tab. -/
def submitSample : Model := { New [] with focusInput := 15 }

/-- Key presses on the initial form: select the preset "Testnet". -/
def testnetKeys : List Msg := [.Key "down", .Key "enter"]

/-- Key presses on the initial form: select the preset "Testnet", then the preset
"Custom". -/
def testnetCustomKeys : List Msg := [.Key "down", .Key "enter", .Key "up", .Key "enter"]

/-- Key presses on the initial form: select the preset "Testnet", then move down to the
submit control. -/
def testnetSubmitKeys : List Msg :=
  [.Key "down", .Key "enter", .Key "down", .Key "down", .Key "down", .Key "down", .Key "down",
   .Key "down", .Key "down", .Key "down", .Key "down", .Key "down", .Key "down"]

/-- The loops of the renderers over a list of `n` entries: entry `i` is drawn with the
focused style when `m.focusInput == startCount+i`. -/
def highlightLoop (n : Nat) (startCount focusInput : Int) : List Bool :=
  (List.range n).map fun (i : Nat) => decide (focusInput = startCount + (i : Int))

/-- What the renderer `ownerships` draws with the focused style: per pending key, for the
three buttons, and per committed ownership. -/
structure OwnershipsView where
  authorizedKeys : List Bool
  buttonAddAuthKey : Bool
  buttonLoadStorageNouncePK : Bool
  button : Bool
  ownerships : List Bool
  deriving DecidableEq, Repr

/-- The focus decisions of the renderer `ownerships`. -/
def ownerships (m : Model) : OwnershipsView :=
  { authorizedKeys :=
      highlightLoop m.authorizedKeys.length (m.ownershipsInputs.length : Int) m.focusInput
    buttonAddAuthKey :=
      decide (m.focusInput = (m.ownershipsInputs.length : Int) + (m.authorizedKeys.length : Int))
    buttonLoadStorageNouncePK :=
      decide (m.focusInput =
        (m.ownershipsInputs.length : Int) + (m.authorizedKeys.length : Int) + 1)
    button :=
      decide (m.focusInput =
        (m.ownershipsInputs.length : Int) + (m.authorizedKeys.length : Int) + 2)
    ownerships :=
      highlightLoop m.transaction.Data.Ownerships.length
        ((m.ownershipsInputs.length : Int) + (m.authorizedKeys.length : Int) + 3) m.focusInput }

/-- A state on the Ownerships tab with 2 pending keys, 2 committed ownerships and the
cursor on the second committed ownership (position 8, the last one). -/
def ownershipsSample : Model :=
  { New [7] with
    activeTab := 4, focusInput := 8, authorizedKeys := ["aa", "bb"],
    transaction.Data.Ownerships :=
      [{ Secret := [1], AuthorizedKeys := [] }, { Secret := [2], AuthorizedKeys := [] }] }

/-- The value a 64-bit Go `int` holds after an arithmetic result `x`: two's complement
wrap-around. -/
def toInt64 (x : Int) : Int := (x + 2 ^ 63) % 2 ^ 64 - 2 ^ 63

/-- The Ownerships tab right after a commit that emptied two pending keys: one committed
ownership, navigation range 0..5, and the cursor left at 6. -/
def staleHighSample : Model :=
  { New [7] with
    activeTab := 4, focusInput := 6,
    transaction.Data.Ownerships := [{ Secret := [1], AuthorizedKeys := [] }] }

/-- The Main tab in service mode with the cursor inside the endpoint region. -/
def staleLowSample : Model :=
  { New [7] with serviceName := "svc", serviceMode := true, focusInput := 0 }

/-- Key presses: open the Recipients tab, type "CC" into the recipient field and press
`enter` with the cursor still on that field (position 0). -/
def recipientFieldEnterKeys : List Msg :=
  [.Key "tab", .Key "tab", .Key "tab", .Key "C", .Key "C", .Key "enter"]

/-- What the renderers `ucoTransfer`, `tokenTransfer` and `recipients` draw with the focused
style: the Add button, and per committed entry. -/
structure ListView where
  button : Bool
  entries : List Bool
  deriving DecidableEq, Repr

/-- The focus decisions of the renderer `ucoTransfer`. -/
def ucoTransfer (m : Model) : ListView :=
  { button := decide (m.focusInput = (m.ucoInputs.length : Int))
    entries :=
      highlightLoop m.transaction.Data.Ledger.Uco.Transfers.length
        ((m.ucoInputs.length : Int) + 1) m.focusInput }

/-- The focus decisions of the renderer `tokenTransfer`. -/
def tokenTransfer (m : Model) : ListView :=
  { button := decide (m.focusInput = (m.tokenInputs.length : Int))
    entries :=
      highlightLoop m.transaction.Data.Ledger.Token.Transfers.length
        ((m.tokenInputs.length : Int) + 1) m.focusInput }

/-- The focus decisions of the renderer `recipients`. -/
def recipients (m : Model) : ListView :=
  { button := decide (m.focusInput = 1)
    entries := highlightLoop m.transaction.Data.Recipients.length (1 + 1) m.focusInput }

/-- The renderer highlights entry `i` and no other entry. -/
def HighlightsOnly (entries : List Bool) (i : Nat) : Prop :=
  entries[i]? = some true ∧ ∀ j, entries[j]? = some true → j = i

/-- A state on the Recipients tab with the recipients AA, BB, CC and the cursor on the
second one (position 3). -/
def recipientsHighlightSample : Model :=
  { New [] with
    activeTab := 3, focusInput := 3, transaction.Data.Recipients := [[170], [187], [204]] }

/-! ## The sanitizer on the strings the form writes -/

@[simp] theorem sanitize_empty : sanitize "" = "" := by decide

@[simp] theorem sanitize_urls (u : String) : sanitize (urls u) = urls u := by
  unfold urls
  split_ifs <;> decide

@[simp] theorem sanitize_testnet :
    sanitize "https://testnet.archethic.net" = "https://testnet.archethic.net" := by decide

/-- A string of hexadecimal digits is kept as it is. -/
theorem sanitizeChars_hex (cs : List Char) (h : ∀ c ∈ cs, (fromHexChar c).isSome = true) :
    sanitizeChars cs = cs := by
  induction cs with
  | nil => rfl
  | cons c rest ih =>
    have hc := h c (List.mem_cons_self c rest)
    have hr := ih (fun d hd => h d (List.mem_cons_of_mem c hd))
    have hc2 : (48 ≤ c.toNat ∧ c.toNat ≤ 57) ∨ (97 ≤ c.toNat ∧ c.toNat ≤ 102) ∨
        (65 ≤ c.toNat ∧ c.toNat ≤ 70) := by
      unfold fromHexChar at hc
      split_ifs at hc with h1 h2 h3
      · exact Or.inl h1
      · exact Or.inr (Or.inl h2)
      · exact Or.inr (Or.inr h3)
      · simp at hc
    unfold sanitizeChars
    rw [if_neg (by omega), if_neg (by omega), if_neg (by omega), if_neg (by omega), hr]

/-! ## Navigation lemmas -/

theorem getFocusIndex_eq (m : Model) (keypress : String)
    (h0 : 0 ≤ m.activeTab) (h5 : m.activeTab ≤ 5) :
    getFocusIndex m keypress =
      { m with focusInput := wrap (wrapLow m) (wrapHigh m) (moved keypress m.focusInput) } := by
  obtain ⟨Tabs, TabContent, activeTab, focusInput, mainInputs, contentTextAreaInputs, ucoInputs, tokenInputs,
    recipientsInput, ownershipsInputs, transaction, secretKey, authorizedKeys,
    storageNouncePublicKey, url, serviceName, serviceMode, feedback⟩ := m
  simp only at h0 h5
  have hcases : activeTab = 0 ∨ activeTab = 1 ∨ activeTab = 2 ∨ activeTab = 3 ∨ activeTab = 4 ∨
      activeTab = 5 := by omega
  by_cases hk : keypress = "up"
  · rcases hcases with h | h | h | h | h | h <;> subst h <;>
      cases serviceMode <;>
      simp [getFocusIndex, wrap, wrapLow, wrapHigh, moved, hk] <;> split_ifs <;> simp_all
  · rcases hcases with h | h | h | h | h | h <;> subst h <;>
      cases serviceMode <;>
      simp [getFocusIndex, wrap, wrapLow, wrapHigh, moved, hk] <;> split_ifs <;> simp_all

theorem wrap_step (lo hi c d : Int) (hd : d = 1 ∨ d = -1) (h1 : lo ≤ c) (h2 : c ≤ hi) :
    wrap lo hi (c + d) = lo + (c + d - lo) % (hi - lo + 1) := by
  have hN : 0 < hi - lo + 1 := by omega
  unfold wrap
  rcases hd with rfl | rfl
  · by_cases hc : c = hi
    · subst hc
      have : c + 1 - lo = c - lo + 1 := by ring
      rw [if_pos (by omega), this, Int.emod_self]; simp
    · rw [if_neg (by omega), if_neg (by omega), Int.emod_eq_of_lt (by omega) (by omega)]; ring
  · by_cases hc : c = lo
    · subst hc
      have e : c + -1 - c = -1 := by ring
      have e2 : (-1 : Int) % (hi - c + 1) = hi - c := by
        rw [← Int.add_emod_self, Int.emod_eq_of_lt (by omega) (by omega)]; ring
      rw [if_neg (by omega), if_pos (by omega), e, e2]; ring
    · rw [if_neg (by omega), if_neg (by omega), Int.emod_eq_of_lt (by omega) (by omega)]; ring

theorem wrap_mem (lo hi x : Int) (h : lo ≤ hi) : lo ≤ wrap lo hi x ∧ wrap lo hi x ≤ hi := by
  unfold wrap; split_ifs <;> omega

theorem moved_eq (keypress : String) (c : Int) :
    moved keypress c = c + (if keypress = "up" then -1 else 1) := by
  unfold moved; split_ifs <;> ring

/-- Iterating the navigation step `k` times from a cursor inside the wrap range moves the
cursor `k` steps around the cycle and changes nothing else. -/
theorem iterate_getFocusIndex (m : Model) (keypress : String)
    (h0 : 0 ≤ m.activeTab) (h5 : m.activeTab ≤ 5) (k : Nat) :
    ∀ c : Int, wrapLow m ≤ c → c ≤ wrapHigh m →
      (fun x => getFocusIndex x keypress)^[k] { m with focusInput := c } =
        { m with focusInput :=
            wrapLow m +
              (c - wrapLow m + (k : Int) * (if keypress = "up" then -1 else 1)) %
                (wrapHigh m - wrapLow m + 1) } := by
  induction k with
  | zero =>
    intro c h1 h2
    simp only [Function.iterate_zero, id_eq, Nat.cast_zero, zero_mul, add_zero]
    rw [Int.emod_eq_of_lt (by omega) (by omega)]
    congr 1; ring
  | succ k ih =>
    intro c h1 h2
    have hd : (if keypress = "up" then (-1 : Int) else 1) = 1 ∨
        (if keypress = "up" then (-1 : Int) else 1) = -1 := by split_ifs <;> simp
    have hN : 0 < wrapHigh m - wrapLow m + 1 := by omega
    have hg := getFocusIndex_eq { m with focusInput := c } keypress h0 h5
    rw [Function.iterate_succ_apply, hg]
    have hw : wrapLow { m with focusInput := c } = wrapLow m := rfl
    have hh : wrapHigh { m with focusInput := c } = wrapHigh m := rfl
    simp only [hw, hh, moved_eq]
    rw [wrap_step _ _ _ _ hd h1 h2]
    have hr := ih (wrapLow m + (c + (if keypress = "up" then (-1 : Int) else 1) - wrapLow m) %
      (wrapHigh m - wrapLow m + 1))
      (by have := Int.emod_nonneg (c + (if keypress = "up" then (-1 : Int) else 1) - wrapLow m)
            (ne_of_gt hN); omega)
      (by have := Int.emod_lt_of_pos (c + (if keypress = "up" then (-1 : Int) else 1) - wrapLow m)
            hN; omega)
    rw [hr]
    congr 1
    have e1 : wrapLow m + (c + (if keypress = "up" then (-1 : Int) else 1) - wrapLow m) %
        (wrapHigh m - wrapLow m + 1) - wrapLow m =
        (c + (if keypress = "up" then (-1 : Int) else 1) - wrapLow m) %
        (wrapHigh m - wrapLow m + 1) := by ring
    rw [e1, Int.emod_add_emod]
    congr 2
    push_cast; ring

/-- Closure under wraparound: as many steps in one direction as the wrap range has positions
bring the state back. -/
theorem iterate_getFocusIndex_cycle (m : Model) (keypress : String)
    (h0 : 0 ≤ m.activeTab) (h5 : m.activeTab ≤ 5)
    (h1 : wrapLow m ≤ m.focusInput) (h2 : m.focusInput ≤ wrapHigh m) :
    (fun x => getFocusIndex x keypress)^[(wrapHigh m - wrapLow m + 1).toNat] m = m := by
  have h := iterate_getFocusIndex m keypress h0 h5 (wrapHigh m - wrapLow m + 1).toNat
    m.focusInput h1 h2
  have hm : ({ m with focusInput := m.focusInput } : Model) = m := rfl
  rw [hm] at h
  rw [h, Int.toNat_of_nonneg (by omega), Int.add_mul_emod_self_left,
    Int.emod_eq_of_lt (by omega) (by omega)]
  have : wrapLow m + (m.focusInput - wrapLow m) = m.focusInput := by ring
  rw [this]

theorem focusLoop_length (l : List TextInput) (i : Nat) (t : Int) :
    (focusLoop l i t).length = l.length := by
  induction l generalizing i with
  | nil => rfl
  | cons x xs ih => simp [focusLoop, ih]

theorem updateFocus_frame (m : Model) : Frame m (updateFocus m) := by
  unfold updateFocus
  split_ifs <;> constructor <;> simp [focusLoop_length]

theorem updateInputs_frame (env : Env) (m : Model) (msg : Msg) :
    Frame m (updateInputs env m msg) := by
  unfold updateInputs
  split_ifs <;> constructor <;> simp

theorem Frame.trans {a b c : Model} (h1 : Frame a b) (h2 : Frame b c) : Frame a c := by
  constructor
  · rw [h2.Tabs, h1.Tabs]
  · rw [h2.activeTab, h1.activeTab]
  · rw [h2.focusInput, h1.focusInput]
  · rw [h2.transaction, h1.transaction]
  · rw [h2.secretKey, h1.secretKey]
  · rw [h2.authorizedKeys, h1.authorizedKeys]
  · rw [h2.storageNouncePublicKey, h1.storageNouncePublicKey]
  · rw [h2.url, h1.url]
  · rw [h2.serviceName, h1.serviceName]
  · rw [h2.serviceMode, h1.serviceMode]
  · rw [h2.feedback, h1.feedback]
  · rw [h2.mainInputs, h1.mainInputs]
  · rw [h2.contentTextAreaInputs, h1.contentTextAreaInputs]
  · rw [h2.ucoInputs, h1.ucoInputs]
  · rw [h2.tokenInputs, h1.tokenInputs]
  · rw [h2.ownershipsInputs, h1.ownershipsInputs]
  · rw [h2.TabContent, h1.TabContent]

theorem finish_frame (env : Env) (m : Model) (msg : Msg) (e : List Effect) :
    ∃ r, finish env m msg e = some (r, e) ∧ Frame m r :=
  ⟨_, rfl, (updateFocus_frame m).trans (updateInputs_frame env _ msg)⟩

theorem Frame.wrapLow {a b : Model} (h : Frame a b) : wrapLow b = wrapLow a := by
  unfold KeychainCreateTransactionUI.wrapLow; rw [h.activeTab, h.serviceMode]

theorem Frame.wrapHigh {a b : Model} (h : Frame a b) : wrapHigh b = wrapHigh a := by
  unfold KeychainCreateTransactionUI.wrapHigh
  rw [h.activeTab, h.transaction, h.ucoInputs, h.tokenInputs, h.ownershipsInputs,
    h.authorizedKeys, h.contentTextAreaInputs]

theorem Update_nav (env : Env) (m : Model) (keypress : String)
    (hk : keypress = "up" ∨ keypress = "down") :
    ∃ r, Update env m (.Key keypress) = some (r, []) ∧ Frame (getFocusIndex m keypress) r := by
  have h := finish_frame env (getFocusIndex m keypress) (.Key keypress) []
  rcases hk with rfl | rfl <;> simpa [Update] using h

theorem getFocusIndex_frame {a b : Model} (h : Frame a b) (keypress : String)
    (h0 : 0 ≤ a.activeTab) (h5 : a.activeTab ≤ 5) :
    Frame (getFocusIndex a keypress) (getFocusIndex b keypress) := by
  rw [getFocusIndex_eq a keypress h0 h5,
    getFocusIndex_eq b keypress (by rw [h.activeTab]; exact h0) (by rw [h.activeTab]; exact h5),
    h.wrapLow, h.wrapHigh, h.focusInput]
  exact ⟨h.Tabs, h.activeTab, rfl, h.transaction, h.secretKey, h.authorizedKeys,
    h.storageNouncePublicKey, h.url, h.serviceName, h.serviceMode, h.feedback, h.mainInputs,
    h.contentTextAreaInputs, h.ucoInputs, h.tokenInputs, h.ownershipsInputs, h.TabContent⟩

theorem iterate_getFocusIndex_frame (keypress : String) (k : Nat) :
    ∀ a b : Model, Frame a b → 0 ≤ a.activeTab → a.activeTab ≤ 5 →
      Frame ((fun x => getFocusIndex x keypress)^[k] a)
        ((fun x => getFocusIndex x keypress)^[k] b) := by
  induction k with
  | zero => intro a b h _ _; exact h
  | succ k ih =>
    intro a b h h0 h5
    rw [Function.iterate_succ_apply, Function.iterate_succ_apply]
    refine ih _ _ (getFocusIndex_frame h keypress h0 h5) ?_ ?_
    · rw [getFocusIndex_eq a keypress h0 h5]; exact h0
    · rw [getFocusIndex_eq a keypress h0 h5]; exact h5

/-- Pressing `up` or `down` `k` times never panics and moves the cursor `k` steps around the
wrap range of the active tab. -/
theorem press_cursor (env : Env) (keypress : String) (hk : keypress = "up" ∨ keypress = "down")
    (k : Nat) :
    ∀ m : Model, 0 ≤ m.activeTab → m.activeTab ≤ 5 → wrapLow m ≤ m.focusInput →
      m.focusInput ≤ wrapHigh m →
      ∃ r, press env keypress k m = some r ∧
        Frame ((fun x => getFocusIndex x keypress)^[k] m) r := by
  induction k with
  | zero =>
    intro m _ _ _ _
    exact ⟨m, rfl, by constructor <;> rfl⟩
  | succ k ih =>
    intro m h0 h5 h1 h2
    obtain ⟨r, hr, hf⟩ := Update_nav env m keypress hk
    have hg := getFocusIndex_eq m keypress h0 h5
    have hlo : wrapLow m ≤ wrapHigh m := le_trans h1 h2
    have hmem := wrap_mem (wrapLow m) (wrapHigh m) (moved keypress m.focusInput) hlo
    have hga : (getFocusIndex m keypress).activeTab = m.activeTab := by rw [hg]
    have hgl : wrapLow (getFocusIndex m keypress) = wrapLow m := by rw [hg]; rfl
    have hgh : wrapHigh (getFocusIndex m keypress) = wrapHigh m := by rw [hg]; rfl
    have hgf : (getFocusIndex m keypress).focusInput =
        wrap (wrapLow m) (wrapHigh m) (moved keypress m.focusInput) := by rw [hg]
    obtain ⟨r2, hr2, hf2⟩ := ih r (by rw [hf.activeTab, hga]; exact h0)
      (by rw [hf.activeTab, hga]; exact h5)
      (by rw [hf.wrapLow, hf.focusInput, hgl, hgf]; exact hmem.1)
      (by rw [hf.wrapHigh, hf.focusInput, hgh, hgf]; exact hmem.2)
    refine ⟨r2, ?_, ?_⟩
    · simp only [press, hr, hr2]
    · rw [Function.iterate_succ_apply]
      exact (iterate_getFocusIndex_frame keypress k _ _ hf (by rw [hga]; exact h0)
        (by rw [hga]; exact h5)).trans hf2

/-- Pressing `up` or `down` as many times as the wrap range has positions never panics and
leaves everything but the widgets as it was, the cursor included. -/
theorem press_cycle (env : Env) (keypress : String) (hk : keypress = "up" ∨ keypress = "down")
    (m : Model) (h0 : 0 ≤ m.activeTab) (h5 : m.activeTab ≤ 5)
    (h1 : wrapLow m ≤ m.focusInput) (h2 : m.focusInput ≤ wrapHigh m) :
    ∃ r, press env keypress (wrapHigh m - wrapLow m + 1).toNat m = some r ∧ Frame m r := by
  obtain ⟨r, hr, hf⟩ := press_cursor env keypress hk (wrapHigh m - wrapLow m + 1).toNat m h0 h5
    h1 h2
  rw [iterate_getFocusIndex_cycle m keypress h0 h5 h1 h2] at hf
  exact ⟨r, hr, hf⟩

/-- On a tab whose wrap range starts at 0, one navigation step is addition or subtraction of
one modulo the number of positions. -/
theorem getFocusIndex_mod (m : Model) (h0 : 0 ≤ m.activeTab) (h5 : m.activeTab ≤ 5)
    (hlo : wrapLow m = 0) (h1 : 0 ≤ m.focusInput) (h2 : m.focusInput ≤ wrapHigh m) :
    getFocusIndex m "down" = { m with focusInput := (m.focusInput + 1) % (wrapHigh m + 1) } ∧
    getFocusIndex m "up" = { m with focusInput := (m.focusInput - 1) % (wrapHigh m + 1) } := by
  have hd := wrap_step 0 (wrapHigh m) m.focusInput 1 (Or.inl rfl) h1 h2
  have hu := wrap_step 0 (wrapHigh m) m.focusInput (-1) (Or.inr rfl) h1 h2
  simp only [zero_add, sub_zero] at hd hu
  constructor
  · rw [getFocusIndex_eq m "down" h0 h5, hlo]
    have : moved "down" m.focusInput = m.focusInput + 1 := by simp [moved]
    rw [this, hd]
  · rw [getFocusIndex_eq m "up" h0 h5, hlo]
    have : moved "up" m.focusInput = m.focusInput + -1 := by simp [moved]; ring
    rw [this, hu]
    rfl

/-- C2: on the UcoTransfers tab (F = 2 input fields) and the TokenTransfers tab (F = 4), with
n committed transfers and the cursor c in [0, F+n], `getFocusIndex` with "down" yields
(c+1) mod (F+1+n) and with "up" yields (c-1) mod (F+1+n), changing nothing but the cursor;
pressing "down" (or "up") F+1+n times never panics and returns the cursor to c. -/
theorem transfer_tabs_navigation (env : Env) (m : Model) (keypress : String) (F n : Nat)
    (hk : keypress = "up" ∨ keypress = "down")
    (ht : (m.activeTab = 1 ∧ F = 2 ∧ m.ucoInputs.length = F ∧
            m.transaction.Data.Ledger.Uco.Transfers.length = n) ∨
          (m.activeTab = 2 ∧ F = 4 ∧ m.tokenInputs.length = F ∧
            m.transaction.Data.Ledger.Token.Transfers.length = n))
    (h1 : 0 ≤ m.focusInput) (h2 : m.focusInput ≤ (F : Int) + n) :
    getFocusIndex m "down" =
        { m with focusInput := (m.focusInput + 1) % ((F : Int) + 1 + n) } ∧
      getFocusIndex m "up" =
        { m with focusInput := (m.focusInput - 1) % ((F : Int) + 1 + n) } ∧
      ∃ r, press env keypress (F + 1 + n) m = some r ∧ r.focusInput = m.focusInput := by
  have h0 : 0 ≤ m.activeTab := by rcases ht with h | h <;> omega
  have h5 : m.activeTab ≤ 5 := by rcases ht with h | h <;> omega
  have hlo : wrapLow m = 0 := by
    rcases ht with h | h <;> simp [wrapLow, h.1]
  have hhi : wrapHigh m = (F : Int) + n := by
    rcases ht with h | h <;> simp [wrapHigh, h.1, h.2.2.1, h.2.2.2]
  have hmod := getFocusIndex_mod m h0 h5 hlo h1 (by rw [hhi]; exact h2)
  have e : wrapHigh m + 1 = (F : Int) + 1 + n := by rw [hhi]; ring
  rw [e] at hmod
  refine ⟨hmod.1, hmod.2, ?_⟩
  obtain ⟨r, hr, hf⟩ := press_cycle env keypress hk m h0 h5 (by rw [hlo]; exact h1)
    (by rw [hhi]; exact h2)
  have e2 : (wrapHigh m - wrapLow m + 1).toNat = F + 1 + n := by rw [hhi, hlo]; omega
  rw [e2] at hr
  exact ⟨r, hr, hf.focusInput⟩

theorem transfer_tabs_navigation_witness :
    (getFocusIndex ucoSample "down").focusInput = 0 ∧
      (getFocusIndex ucoSample "up").focusInput = 3 ∧
      ∃ r, press sampleEnv "down" 5 ucoSample = some r ∧ r.focusInput = 4 := by
  have h := transfer_tabs_navigation sampleEnv ucoSample "down" 2 2 (Or.inr rfl)
    (Or.inl ⟨by decide, rfl, by decide, by decide⟩) (by decide) (by decide)
  refine ⟨?_, ?_, h.2.2⟩
  · rw [h.1]; decide
  · rw [h.2.1]; decide

/-- C6: on the Main tab `getFocusIndex` keeps a cursor of [lo, 15] inside [lo, 15], where
lo = 6 in service mode (the 9 transaction kinds plus submit) and lo = 0 otherwise; "down"
at 15 yields lo, "up" at lo yields 15, every other step moves by one; and 16 - lo presses
in one direction (10 in service mode, 16 otherwise) never panic and return the cursor. -/
theorem main_tab_navigation (env : Env) (m : Model) (keypress : String) (lo : Int)
    (hk : keypress = "up" ∨ keypress = "down") (ht : m.activeTab = 0)
    (hlo : lo = if m.serviceMode = true then 6 else 0)
    (h1 : lo ≤ m.focusInput) (h2 : m.focusInput ≤ 15) :
    (lo ≤ (getFocusIndex m keypress).focusInput ∧ (getFocusIndex m keypress).focusInput ≤ 15) ∧
      (getFocusIndex m "down").focusInput = (if m.focusInput = 15 then lo else m.focusInput + 1) ∧
      (getFocusIndex m "up").focusInput = (if m.focusInput = lo then 15 else m.focusInput - 1) ∧
      ∃ r, press env keypress (16 - lo).toNat m = some r ∧ r.focusInput = m.focusInput := by
  have h0 : 0 ≤ m.activeTab := by omega
  have h5 : m.activeTab ≤ 5 := by omega
  have hl : wrapLow m = lo := by
    rw [hlo]; simp [wrapLow, ht]
  have hh : wrapHigh m = 15 := by simp [wrapHigh, ht]
  have hle : lo ≤ 15 := le_trans h1 h2
  refine ⟨?_, ?_, ?_, ?_⟩
  · rw [getFocusIndex_eq m keypress h0 h5, hl, hh]
    exact wrap_mem lo 15 _ hle
  · rw [getFocusIndex_eq m "down" h0 h5, hl, hh]
    simp only [moved, wrap]
    split_ifs <;> first | rfl | omega | (exfalso; simp_all)
  · rw [getFocusIndex_eq m "up" h0 h5, hl, hh]
    simp only [moved, wrap]
    split_ifs <;> first | rfl | omega
  · obtain ⟨r, hr, hf⟩ := press_cycle env keypress hk m h0 h5 (by rw [hl]; exact h1)
      (by rw [hh]; exact h2)
    have e2 : (wrapHigh m - wrapLow m + 1).toNat = (16 - lo).toNat := by
      rw [hh, hl]; congr 1; ring
    rw [e2] at hr
    exact ⟨r, hr, hf.focusInput⟩

theorem main_tab_navigation_witness :
    (getFocusIndex serviceSample "down").focusInput = 6 ∧
      (∃ r, press sampleEnv "down" 10 serviceSample = some r ∧ r.focusInput = 15) ∧
      (getFocusIndex (New []) "up").focusInput = 15 ∧
      (∃ r, press sampleEnv "up" 16 (New []) = some r ∧ r.focusInput = 0) := by
  have hs := main_tab_navigation sampleEnv serviceSample "down" 6 (Or.inr rfl) (by decide)
    (by decide) (by decide) (by decide)
  have hn := main_tab_navigation sampleEnv (New []) "up" 0 (Or.inl rfl) (by decide)
    (by decide) (by decide) (by decide)
  refine ⟨?_, hs.2.2.2, ?_, hn.2.2.2⟩
  · rw [hs.2.1]; decide
  · rw [hn.2.2.1]; decide

/-- C1 (evaluation at the failing input): after two pending authorized keys are added and
`enter` is pressed on the commit button of the Ownerships tab, the pending list is empty,
one ownership is committed, the navigation range has 6 positions (0..5) and the cursor is
still 6; the next press of `d` panics. -/
theorem stale_cursor_after_ownership_commit :
    (run sampleEnv (New []) commitOwnershipKeys).map
        (fun m => (m.activeTab, m.authorizedKeys.length, m.transaction.Data.Ownerships.length,
          m.focusInput, VirtualSpace m,
          decide (0 ≤ m.focusInput ∧ m.focusInput < VirtualSpace m))) =
        some (4, 0, 1, 6, 6, false) ∧
      run sampleEnv (New []) (commitOwnershipKeys ++ [.Key "d"]) = none := by
  constructor <;> decide

/-- C3 (evaluation at the failing input): on the Recipients tab without recipients, "down"
at position 1 yields 2 and not 0, "up" at position 0 yields 2 and not 1, and two presses of
"down" from position 0 end at position 2. -/
theorem recipients_navigation_has_extra_position :
    (getFocusIndex { New [] with activeTab := 3, focusInput := 1 } "down").focusInput = 2 ∧
      (getFocusIndex { New [] with activeTab := 3, focusInput := 0 } "up").focusInput = 2 ∧
      (press sampleEnv "down" 2 { New [] with activeTab := 3, focusInput := 0 }).map
        (fun m => (m.focusInput, m.transaction.Data.Recipients.length)) = some (2, 0) := by
  refine ⟨?_, ?_, ?_⟩ <;> decide

/-- C4 (evaluation at the failing input): on the Content tab, which has 2 text areas, "down"
at position 1 yields 2 and not 0, "up" at position 0 yields 2 and not 1, and two presses of
"down" from the initial state of the tab end at position 2, where no text area is
focused. -/
theorem content_navigation_has_extra_position :
    (getFocusIndex { New [] with activeTab := 5, focusInput := 1 } "down").focusInput = 2 ∧
      (getFocusIndex { New [] with activeTab := 5, focusInput := 0 } "up").focusInput = 2 ∧
      (run sampleEnv (New []) contentDownKeys).map
        (fun m => (m.activeTab, m.focusInput, m.contentTextAreaInputs.map (fun t => t.focus))) =
        some (5, 2, [false, false]) := by
  refine ⟨?_, ?_, ?_⟩ <;> decide

/-- C5 (evaluation at the failing input): after the initial message with a service name,
one press of `left` leaves the form on the Main tab in service mode with the cursor at
position 0, inside the endpoint region; `enter` then selects the preset "Local". -/
theorem service_mode_cursor_enters_endpoint_region :
    (run sampleEnv (New []) serviceLeftKeys).map
        (fun m => (m.serviceMode, m.activeTab, m.focusInput)) = some (true, 0, 0) ∧
      (run sampleEnv (New []) (serviceLeftKeys ++ [.Key "enter"])).map
        (fun m => (m.serviceMode, m.url, inputValue m.mainInputs 0)) =
        some (true, "Local", some "http://localhost:4000") := by
  constructor <;> decide

/-- C8 (evaluation at the failing input): on the Recipients tab without recipients the
cursor reaches position 2 by two presses of `down`; pressing `d` there panics (the slice of
recipients is cut out of its bounds) instead of leaving the state alone. -/
theorem delete_on_empty_recipients_panics :
    (run sampleEnv (New []) recipientsDownKeys).map
        (fun m => (m.activeTab, m.focusInput, m.transaction.Data.Recipients)) =
        some (3, 2, []) ∧
      run sampleEnv (New []) (recipientsDownKeys ++ [.Key "d"]) = none ∧
      deleteRecipient { New [] with activeTab := 3, focusInput := 2 } = none := by
  refine ⟨?_, ?_, ?_⟩ <;> decide

/-! ## Deletion -/

theorem sliceDelete_eraseIdx {α : Type} (l : List α) (i : Nat) (h : i < l.length) :
    sliceDelete l (i : Int) = some (l.eraseIdx i) := by
  unfold sliceDelete
  rw [if_pos (by omega), List.eraseIdx_eq_take_drop_succ]
  rfl

theorem Update_d (env : Env) (m r0 : Model) (h : updateDelete m = some r0) :
    ∃ r, Update env m (.Key "d") = some (r, []) ∧ Frame r0 r := by
  have hf := finish_frame env r0 (.Key "d") []
  simpa [Update, h] using hf

/-- C7: pressing "d" with the cursor on the position of entry i of a dynamic list (UCO
transfers: 3 + i, token transfers: 5 + i, recipients: 2 + i, pending authorized keys: 2 + i,
committed ownerships: 5 + k + i with k pending keys) never panics, removes exactly entry i
of that list (the other entries keep their order, the length drops by one), leaves the
other lists as they were and decreases the cursor by one. -/
theorem delete_removes_entry_at_cursor (env : Env) (m : Model) (i : Nat) :
    (m.activeTab = 1 → m.ucoInputs.length = 2 →
      i < m.transaction.Data.Ledger.Uco.Transfers.length → m.focusInput = 3 + (i : Int) →
      ∃ r, Update env m (.Key "d") = some (r, []) ∧
        r.transaction = { m.transaction with
          Data.Ledger.Uco.Transfers := m.transaction.Data.Ledger.Uco.Transfers.eraseIdx i } ∧
        r.transaction.Data.Ledger.Uco.Transfers.length + 1 =
          m.transaction.Data.Ledger.Uco.Transfers.length ∧
        r.authorizedKeys = m.authorizedKeys ∧ r.focusInput = m.focusInput - 1) ∧
    (m.activeTab = 2 → m.tokenInputs.length = 4 →
      i < m.transaction.Data.Ledger.Token.Transfers.length → m.focusInput = 5 + (i : Int) →
      ∃ r, Update env m (.Key "d") = some (r, []) ∧
        r.transaction = { m.transaction with
          Data.Ledger.Token.Transfers := m.transaction.Data.Ledger.Token.Transfers.eraseIdx i } ∧
        r.transaction.Data.Ledger.Token.Transfers.length + 1 =
          m.transaction.Data.Ledger.Token.Transfers.length ∧
        r.authorizedKeys = m.authorizedKeys ∧ r.focusInput = m.focusInput - 1) ∧
    (m.activeTab = 3 →
      i < m.transaction.Data.Recipients.length → m.focusInput = 2 + (i : Int) →
      ∃ r, Update env m (.Key "d") = some (r, []) ∧
        r.transaction = { m.transaction with
          Data.Recipients := m.transaction.Data.Recipients.eraseIdx i } ∧
        r.transaction.Data.Recipients.length + 1 = m.transaction.Data.Recipients.length ∧
        r.authorizedKeys = m.authorizedKeys ∧ r.focusInput = m.focusInput - 1) ∧
    (m.activeTab = 4 → m.ownershipsInputs.length = 2 →
      i < m.authorizedKeys.length → m.focusInput = 2 + (i : Int) →
      ∃ r, Update env m (.Key "d") = some (r, []) ∧
        r.authorizedKeys = m.authorizedKeys.eraseIdx i ∧
        r.authorizedKeys.length + 1 = m.authorizedKeys.length ∧
        r.transaction = m.transaction ∧ r.focusInput = m.focusInput - 1) ∧
    (m.activeTab = 4 → m.ownershipsInputs.length = 2 →
      i < m.transaction.Data.Ownerships.length →
      m.focusInput = 5 + (m.authorizedKeys.length : Int) + (i : Int) →
      ∃ r, Update env m (.Key "d") = some (r, []) ∧
        r.transaction = { m.transaction with
          Data.Ownerships := m.transaction.Data.Ownerships.eraseIdx i } ∧
        r.transaction.Data.Ownerships.length + 1 = m.transaction.Data.Ownerships.length ∧
        r.authorizedKeys = m.authorizedKeys ∧ r.focusInput = m.focusInput - 1) := by
  refine ⟨?_, ?_, ?_, ?_, ?_⟩
  · intro ht hl hi hc
    have hidx : m.focusInput - ((m.ucoInputs.length : Nat) : Int) - 1 = (i : Int) := by
      rw [hl, hc]; push_cast; ring
    have hu : updateDelete m = some
        { m with transaction.Data.Ledger.Uco.Transfers :=
                   m.transaction.Data.Ledger.Uco.Transfers.eraseIdx i,
                 focusInput := m.focusInput - 1 } := by
      have hg : m.focusInput > ((m.ucoInputs.length : Nat) : Int) := by rw [hl, hc]; push_cast; omega
      simp only [updateDelete, ht, if_pos hg, deleteUcoTransfer, hidx,
        sliceDelete_eraseIdx _ _ hi]
      rfl
    obtain ⟨r, hr, hf⟩ := Update_d env m _ hu
    refine ⟨r, hr, hf.transaction, ?_, hf.authorizedKeys, hf.focusInput⟩
    rw [hf.transaction]
    simp only [List.length_eraseIdx, if_pos hi]
    omega
  · intro ht hl hi hc
    have hidx : m.focusInput - ((m.tokenInputs.length : Nat) : Int) - 1 = (i : Int) := by
      rw [hl, hc]; push_cast; ring
    have hu : updateDelete m = some
        { m with transaction.Data.Ledger.Token.Transfers :=
                   m.transaction.Data.Ledger.Token.Transfers.eraseIdx i,
                 focusInput := m.focusInput - 1 } := by
      have hg : m.focusInput > ((m.tokenInputs.length : Nat) : Int) := by
        rw [hl, hc]; push_cast; omega
      simp only [updateDelete, ht, if_pos hg, deleteTokenTransfer, hidx,
        sliceDelete_eraseIdx _ _ hi]
      rfl
    obtain ⟨r, hr, hf⟩ := Update_d env m _ hu
    refine ⟨r, hr, hf.transaction, ?_, hf.authorizedKeys, hf.focusInput⟩
    rw [hf.transaction]
    simp only [List.length_eraseIdx, if_pos hi]
    omega
  · intro ht hi hc
    have hidx : m.focusInput - 1 - 1 = (i : Int) := by rw [hc]; ring
    have hu : updateDelete m = some
        { m with transaction.Data.Recipients := m.transaction.Data.Recipients.eraseIdx i,
                 focusInput := m.focusInput - 1 } := by
      have hg : m.focusInput > 1 := by rw [hc]; omega
      simp only [updateDelete, ht, if_pos hg, deleteRecipient, hidx,
        sliceDelete_eraseIdx _ _ hi]
      rfl
    obtain ⟨r, hr, hf⟩ := Update_d env m _ hu
    refine ⟨r, hr, hf.transaction, ?_, hf.authorizedKeys, hf.focusInput⟩
    rw [hf.transaction]
    simp only [List.length_eraseIdx, if_pos hi]
    omega
  · intro ht hl hi hc
    have hidx : m.focusInput - ((m.ownershipsInputs.length : Nat) : Int) = (i : Int) := by
      rw [hl, hc]; push_cast; ring
    have hu : updateDelete m = some
        { m with authorizedKeys := m.authorizedKeys.eraseIdx i,
                 focusInput := m.focusInput - 1 } := by
      have hg : m.focusInput > ((m.ownershipsInputs.length : Nat) : Int) - 1 ∧
          m.focusInput < ((m.ownershipsInputs.length : Nat) : Int) +
            ((m.authorizedKeys.length : Nat) : Int) := by
        rw [hl, hc]; push_cast; omega
      simp only [updateDelete, ht, if_pos hg, deleteAuthorizedKey, hidx,
        sliceDelete_eraseIdx _ _ hi]
      rfl
    obtain ⟨r, hr, hf⟩ := Update_d env m _ hu
    refine ⟨r, hr, hf.authorizedKeys, ?_, hf.transaction, hf.focusInput⟩
    rw [hf.authorizedKeys]
    simp only [List.length_eraseIdx, if_pos hi]
    omega
  · intro ht hl hi hc
    have hidx : m.focusInput - ((m.ownershipsInputs.length : Nat) : Int) -
        ((m.authorizedKeys.length : Nat) : Int) - 3 = (i : Int) := by
      rw [hl, hc]; push_cast; ring
    have hu : updateDelete m = some
        { m with transaction.Data.Ownerships := m.transaction.Data.Ownerships.eraseIdx i,
                 focusInput := m.focusInput - 1 } := by
      have hg1 : ¬ (m.focusInput > ((m.ownershipsInputs.length : Nat) : Int) - 1 ∧
          m.focusInput < ((m.ownershipsInputs.length : Nat) : Int) +
            ((m.authorizedKeys.length : Nat) : Int)) := by
        rw [hl, hc]; push_cast; omega
      have hg2 : m.focusInput > ((m.ownershipsInputs.length : Nat) : Int) +
            ((m.authorizedKeys.length : Nat) : Int) + 2 := by
        rw [hl, hc]; push_cast; omega
      simp only [updateDelete, ht, if_neg hg1, if_pos hg2, deleteOwnership, hidx,
        sliceDelete_eraseIdx _ _ hi]
      rfl
    obtain ⟨r, hr, hf⟩ := Update_d env m _ hu
    refine ⟨r, hr, hf.transaction, ?_, hf.authorizedKeys, hf.focusInput⟩
    rw [hf.transaction]
    simp only [List.length_eraseIdx, if_pos hi]
    omega

theorem delete_removes_entry_at_cursor_witness :
    (∃ r, Update sampleEnv ucoDeleteSample (.Key "d") = some (r, []) ∧
      r.transaction.Data.Ledger.Uco.Transfers = [{ To := [187], Amount := 7 }] ∧
      r.focusInput = 2) ∧
    (∃ r, Update sampleEnv tokenDeleteSample (.Key "d") = some (r, []) ∧
      r.transaction.Data.Ledger.Token.Transfers =
        [{ To := [170], TokenAddress := [1], Amount := 5, TokenId := 0 }] ∧
      r.focusInput = 5) ∧
    (∃ r, Update sampleEnv recipientsDeleteSample (.Key "d") = some (r, []) ∧
      r.transaction.Data.Recipients = [[187]] ∧ r.focusInput = 1) ∧
    (∃ r, Update sampleEnv pendingKeyDeleteSample (.Key "d") = some (r, []) ∧
      r.authorizedKeys = ["aa"] ∧ r.focusInput = 2) ∧
    (∃ r, Update sampleEnv ownershipDeleteSample (.Key "d") = some (r, []) ∧
      r.transaction.Data.Ownerships = [{ Secret := [2], AuthorizedKeys := [] }] ∧
      r.focusInput = 5) := by
  obtain ⟨r1, h1, t1, _, _, f1⟩ :=
    (delete_removes_entry_at_cursor sampleEnv ucoDeleteSample 0).1
      (by decide) (by decide) (by decide) (by decide)
  obtain ⟨r2, h2, t2, _, _, f2⟩ :=
    (delete_removes_entry_at_cursor sampleEnv tokenDeleteSample 1).2.1
      (by decide) (by decide) (by decide) (by decide)
  obtain ⟨r3, h3, t3, _, _, f3⟩ :=
    (delete_removes_entry_at_cursor sampleEnv recipientsDeleteSample 0).2.2.1
      (by decide) (by decide) (by decide)
  obtain ⟨r4, h4, t4, _, _, f4⟩ :=
    (delete_removes_entry_at_cursor sampleEnv pendingKeyDeleteSample 1).2.2.2.1
      (by decide) (by decide) (by decide) (by decide)
  obtain ⟨r5, h5, t5, _, _, f5⟩ :=
    (delete_removes_entry_at_cursor sampleEnv ownershipDeleteSample 0).2.2.2.2
      (by decide) (by decide) (by decide) (by decide)
  refine ⟨⟨r1, h1, ?_, ?_⟩, ⟨r2, h2, ?_, ?_⟩, ⟨r3, h3, ?_, ?_⟩, ⟨r4, h4, ?_, ?_⟩,
    ⟨r5, h5, ?_, ?_⟩⟩
  · rw [t1]; rfl
  · rw [f1]; rfl
  · rw [t2]; rfl
  · rw [f2]; rfl
  · rw [t3]; rfl
  · rw [f3]; rfl
  · rw [t4]; rfl
  · rw [f4]; rfl
  · rw [t5]; rfl
  · rw [f5]; rfl

/-! ## Addition -/

/-- C9 (counterexample): with an empty amount buffer `addUcoTransfer` panics, also when
reached through `Update` by pressing `enter` on the Add button of the initial form; with an
empty token id `addTokenTransfer` panics; with a recipient that is not hexadecimal
`addRecipient` panics. -/
theorem add_panics_on_bad_input :
    addUcoTransfer (New []) = none ∧
      run sampleEnv (New []) emptyUcoAddKeys = none ∧
      addTokenTransfer
        { validBuffersSample with tokenInputs :=
            [{ value := "AA", focus := false }, { value := "5", focus := false },
             { value := "BB", focus := false }, { value := "", focus := false }] } = none ∧
      addRecipient { New [] with recipientsInput := { value := "zz", focus := false } } =
        none := by
  refine ⟨?_, ?_, ?_, ?_⟩ <;> decide

/-- C9 (amended): `addUcoTransfer`, `addTokenTransfer` and `addRecipient` return a state
exactly when every buffer of their section validates (addresses decode as hexadecimal, the
amount parses as an unsigned 64-bit decimal, the token id parses as an integer); when a
buffer fails validation the call panics and no state is returned. -/
theorem add_returns_iff_buffers_valid (m : Model) (a b p q r s : TextInput)
    (hu : m.ucoInputs = [a, b]) (ht : m.tokenInputs = [p, q, r, s]) :
    ((addUcoTransfer m).isSome = true ↔
        (hexDecodeString a.value).isSome = true ∧ (ParseUint b.value).isSome = true) ∧
      ((addTokenTransfer m).isSome = true ↔
        (hexDecodeString p.value).isSome = true ∧ (ParseUint q.value).isSome = true ∧
          (hexDecodeString r.value).isSome = true ∧ (Atoi s.value).isSome = true) ∧
      ((addRecipient m).isSome = true ↔
        (hexDecodeString m.recipientsInput.value).isSome = true) := by
  refine ⟨?_, ?_, ?_⟩
  · cases h1 : hexDecodeString a.value <;> cases h2 : ParseUint b.value <;>
      simp [addUcoTransfer, hu, inputValue, inputSetValue, h1, h2]
  · cases h1 : hexDecodeString p.value <;> cases h2 : ParseUint q.value <;>
      cases h3 : hexDecodeString r.value <;> cases h4 : Atoi s.value <;>
      simp [addTokenTransfer, ht, inputValue, inputSetValue, h1, h2, h3, h4]
  · cases h1 : hexDecodeString m.recipientsInput.value <;> simp [addRecipient, h1]

theorem add_returns_iff_buffers_valid_witness :
    (addUcoTransfer validBuffersSample).isSome = true ∧
      (addTokenTransfer validBuffersSample).isSome = true ∧
      (addRecipient validBuffersSample).isSome = true := by
  have h := add_returns_iff_buffers_valid validBuffersSample _ _ _ _ _ _ rfl rfl
  exact ⟨h.1.2 (by decide), h.2.1.2 (by decide), h.2.2.2 (by decide)⟩

/-- C10: when the buffers of a section validate, its add function returns the state in which
exactly one entry holding the decoded values is appended at the end of the section's list
and every source buffer of that add is the empty string; nothing else differs from the state
before (earlier entries and the other lists included). -/
theorem add_appends_decoded_entry (m : Model) (a b p q r s : TextInput)
    (hu : m.ucoInputs = [a, b]) (ht : m.tokenInputs = [p, q, r, s]) :
    (∀ toAddr amount, hexDecodeString a.value = some toAddr → ParseUint b.value = some amount →
      addUcoTransfer m = some
        { m with
          transaction.Data.Ledger.Uco.Transfers :=
            m.transaction.Data.Ledger.Uco.Transfers ++ [{ To := toAddr, Amount := amount }],
          ucoInputs := [{ a with value := "" }, { b with value := "" }] }) ∧
    (∀ toAddr amount tokenAddress tokenId, hexDecodeString p.value = some toAddr →
      ParseUint q.value = some amount → hexDecodeString r.value = some tokenAddress →
      Atoi s.value = some tokenId →
      addTokenTransfer m = some
        { m with
          transaction.Data.Ledger.Token.Transfers :=
            m.transaction.Data.Ledger.Token.Transfers ++
              [{ To := toAddr, TokenAddress := tokenAddress, Amount := amount,
                 TokenId := tokenId }],
          tokenInputs := [{ p with value := "" }, { q with value := "" },
            { r with value := "" }, { s with value := "" }] }) ∧
    (∀ recipient, hexDecodeString m.recipientsInput.value = some recipient →
      addRecipient m = some
        { m with
          transaction.Data.Recipients := m.transaction.Data.Recipients ++ [recipient],
          recipientsInput := { m.recipientsInput with value := "" } }) := by
  refine ⟨?_, ?_, ?_⟩
  · intro toAddr amount h1 h2
    simp [addUcoTransfer, hu, inputValue, inputSetValue, h1, h2,
      TransactionBuilder.AddUcoTransfer, TextInput.SetValue]
  · intro toAddr amount tokenAddress tokenId h1 h2 h3 h4
    simp [addTokenTransfer, ht, inputValue, inputSetValue, h1, h2, h3, h4,
      TransactionBuilder.AddTokenTransfer, TextInput.SetValue]
  · intro recipient h1
    simp [addRecipient, h1, TransactionBuilder.AddRecipient, TextInput.SetValue]

theorem add_appends_decoded_entry_witness :
    (addUcoTransfer validBuffersSample).map
        (fun m => (m.transaction.Data.Ledger.Uco.Transfers, m.ucoInputs.map (fun t => t.value))) =
        some ([{ To := [170], Amount := 5 }], ["", ""]) ∧
      (addTokenTransfer validBuffersSample).map
        (fun m => (m.transaction.Data.Ledger.Token.Transfers,
          m.tokenInputs.map (fun t => t.value))) =
        some ([{ To := [170], TokenAddress := [187], Amount := 5, TokenId := -3 }],
          ["", "", "", ""]) ∧
      (addRecipient validBuffersSample).map
        (fun m => (m.transaction.Data.Recipients, m.recipientsInput.value)) =
        some ([[204]], "") := by
  have h := add_appends_decoded_entry validBuffersSample _ _ _ _ _ _ rfl rfl
  refine ⟨?_, ?_, ?_⟩
  · rw [h.1 [170] 5 (by decide) (by decide)]; rfl
  · rw [h.2.1 [170] 5 [187] (-3) (by decide) (by decide) (by decide) (by decide)]; rfl
  · rw [h.2.2 [204] (by decide)]; rfl

/-! ## Add followed by delete -/

theorem eraseIdx_append_singleton {α : Type} (l : List α) (x : α) :
    (l ++ [x]).eraseIdx l.length = l := by
  induction l with
  | nil => rfl
  | cons y ys ih => simp [List.eraseIdx_cons_succ, ih]

theorem sliceDelete_append_singleton {α : Type} (l : List α) (x : α) :
    sliceDelete (l ++ [x]) (l.length : Int) = some l := by
  rw [sliceDelete_eraseIdx _ _ (by simp), eraseIdx_append_singleton]

theorem addUcoTransfer_eq (m : Model) (a b : TextInput) (hu : m.ucoInputs = [a, b])
    (toAddr : List Nat) (amount : Nat) (h1 : hexDecodeString a.value = some toAddr)
    (h2 : ParseUint b.value = some amount) :
    addUcoTransfer m = some
      { m with
        transaction.Data.Ledger.Uco.Transfers :=
          m.transaction.Data.Ledger.Uco.Transfers ++ [{ To := toAddr, Amount := amount }],
        ucoInputs := [{ a with value := "" }, { b with value := "" }] } := by
  simp [addUcoTransfer, hu, inputValue, inputSetValue, h1, h2,
    TransactionBuilder.AddUcoTransfer, TextInput.SetValue]

theorem addTokenTransfer_eq (m : Model) (p q r s : TextInput) (ht : m.tokenInputs = [p, q, r, s])
    (toAddr : List Nat) (amount : Nat) (tokenAddress : List Nat) (tokenId : Int)
    (h1 : hexDecodeString p.value = some toAddr) (h2 : ParseUint q.value = some amount)
    (h3 : hexDecodeString r.value = some tokenAddress) (h4 : Atoi s.value = some tokenId) :
    addTokenTransfer m = some
      { m with
        transaction.Data.Ledger.Token.Transfers :=
          m.transaction.Data.Ledger.Token.Transfers ++
            [{ To := toAddr, TokenAddress := tokenAddress, Amount := amount,
               TokenId := tokenId }],
        tokenInputs := [{ p with value := "" }, { q with value := "" },
          { r with value := "" }, { s with value := "" }] } := by
  simp [addTokenTransfer, ht, inputValue, inputSetValue, h1, h2, h3, h4,
    TransactionBuilder.AddTokenTransfer, TextInput.SetValue]

theorem addRecipient_eq (m : Model) (recipient : List Nat)
    (h1 : hexDecodeString m.recipientsInput.value = some recipient) :
    addRecipient m = some
      { m with
        transaction.Data.Recipients := m.transaction.Data.Recipients ++ [recipient],
        recipientsInput := { m.recipientsInput with value := "" } } := by
  simp [addRecipient, h1, TransactionBuilder.AddRecipient, TextInput.SetValue]

/-- C11: for every committed list L of UCO transfers, token transfers or recipients and every
valid input, the add function returns a state whose list is L followed by the new entry, and
pressing "d" in that state with the cursor on the position of the new entry (3 + length L,
5 + length L, 2 + length L) never panics and gives back exactly the transaction of before
the add: the list is L again, with its length of before, and the entry removed is the one
just added. -/
theorem add_then_delete_round_trip (env : Env) (m : Model) (a b p q r s : TextInput)
    (hu : m.ucoInputs = [a, b]) (ht : m.tokenInputs = [p, q, r, s]) :
    (∀ toAddr amount, hexDecodeString a.value = some toAddr → ParseUint b.value = some amount →
      ∃ m1, addUcoTransfer m = some m1 ∧
        m1.transaction.Data.Ledger.Uco.Transfers =
          m.transaction.Data.Ledger.Uco.Transfers ++ [{ To := toAddr, Amount := amount }] ∧
        ∃ r1, Update env
            { m1 with activeTab := 1,
                      focusInput := 3 + (m.transaction.Data.Ledger.Uco.Transfers.length : Int) }
            (.Key "d") = some (r1, []) ∧
          r1.transaction = m.transaction) ∧
    (∀ toAddr amount tokenAddress tokenId, hexDecodeString p.value = some toAddr →
      ParseUint q.value = some amount → hexDecodeString r.value = some tokenAddress →
      Atoi s.value = some tokenId →
      ∃ m1, addTokenTransfer m = some m1 ∧
        m1.transaction.Data.Ledger.Token.Transfers =
          m.transaction.Data.Ledger.Token.Transfers ++
            [{ To := toAddr, TokenAddress := tokenAddress, Amount := amount,
               TokenId := tokenId }] ∧
        ∃ r1, Update env
            { m1 with activeTab := 2,
                      focusInput := 5 + (m.transaction.Data.Ledger.Token.Transfers.length : Int) }
            (.Key "d") = some (r1, []) ∧
          r1.transaction = m.transaction) ∧
    (∀ recipient, hexDecodeString m.recipientsInput.value = some recipient →
      ∃ m1, addRecipient m = some m1 ∧
        m1.transaction.Data.Recipients = m.transaction.Data.Recipients ++ [recipient] ∧
        ∃ r1, Update env
            { m1 with activeTab := 3,
                      focusInput := 2 + (m.transaction.Data.Recipients.length : Int) }
            (.Key "d") = some (r1, []) ∧
          r1.transaction = m.transaction) := by
  refine ⟨?_, ?_, ?_⟩
  · intro toAddr amount h1 h2
    refine ⟨_, addUcoTransfer_eq m a b hu toAddr amount h1 h2, rfl, ?_⟩
    have hd : updateDelete
        { ({ m with
              transaction.Data.Ledger.Uco.Transfers :=
                m.transaction.Data.Ledger.Uco.Transfers ++ [{ To := toAddr, Amount := amount }],
              ucoInputs := [{ a with value := "" }, { b with value := "" }] } : Model) with
          activeTab := 1,
          focusInput := 3 + (m.transaction.Data.Ledger.Uco.Transfers.length : Int) } =
        some { m with
          ucoInputs := [{ a with value := "" }, { b with value := "" }],
          activeTab := 1,
          focusInput := 3 + (m.transaction.Data.Ledger.Uco.Transfers.length : Int) - 1 } := by
      have hg : (3 : Int) + (m.transaction.Data.Ledger.Uco.Transfers.length : Int) > 2 := by
        omega
      have hi : (3 : Int) + (m.transaction.Data.Ledger.Uco.Transfers.length : Int) - 2 - 1 =
          (m.transaction.Data.Ledger.Uco.Transfers.length : Int) := by ring
      simp [updateDelete, deleteUcoTransfer, hg, hi, sliceDelete_append_singleton]
    obtain ⟨r1, hr, hf⟩ := Update_d env _ _ hd
    exact ⟨r1, hr, hf.transaction⟩
  · intro toAddr amount tokenAddress tokenId h1 h2 h3 h4
    refine ⟨_, addTokenTransfer_eq m p q r s ht toAddr amount tokenAddress tokenId h1 h2 h3 h4,
      rfl, ?_⟩
    have hd : updateDelete
        { ({ m with
              transaction.Data.Ledger.Token.Transfers :=
                m.transaction.Data.Ledger.Token.Transfers ++
                  [{ To := toAddr, TokenAddress := tokenAddress, Amount := amount,
                     TokenId := tokenId }],
              tokenInputs := [{ p with value := "" }, { q with value := "" },
                { r with value := "" }, { s with value := "" }] } : Model) with
          activeTab := 2,
          focusInput := 5 + (m.transaction.Data.Ledger.Token.Transfers.length : Int) } =
        some { m with
          tokenInputs := [{ p with value := "" }, { q with value := "" },
            { r with value := "" }, { s with value := "" }],
          activeTab := 2,
          focusInput := 5 + (m.transaction.Data.Ledger.Token.Transfers.length : Int) - 1 } := by
      have hg : (5 : Int) + (m.transaction.Data.Ledger.Token.Transfers.length : Int) > 4 := by
        omega
      have hi : (5 : Int) + (m.transaction.Data.Ledger.Token.Transfers.length : Int) - 4 - 1 =
          (m.transaction.Data.Ledger.Token.Transfers.length : Int) := by ring
      simp [updateDelete, deleteTokenTransfer, hg, hi, sliceDelete_append_singleton]
    obtain ⟨r1, hr, hf⟩ := Update_d env _ _ hd
    exact ⟨r1, hr, hf.transaction⟩
  · intro recipient h1
    refine ⟨_, addRecipient_eq m recipient h1, rfl, ?_⟩
    have hd : updateDelete
        { ({ m with
              transaction.Data.Recipients := m.transaction.Data.Recipients ++ [recipient],
              recipientsInput := { m.recipientsInput with value := "" } } : Model) with
          activeTab := 3,
          focusInput := 2 + (m.transaction.Data.Recipients.length : Int) } =
        some { m with
          recipientsInput := { m.recipientsInput with value := "" },
          activeTab := 3,
          focusInput := 2 + (m.transaction.Data.Recipients.length : Int) - 1 } := by
      have hg : (2 : Int) + (m.transaction.Data.Recipients.length : Int) > 1 := by omega
      have hi : (2 : Int) + (m.transaction.Data.Recipients.length : Int) - 1 - 1 =
          (m.transaction.Data.Recipients.length : Int) := by ring
      simp [updateDelete, deleteRecipient, hg, hi, sliceDelete_append_singleton]
    obtain ⟨r1, hr, hf⟩ := Update_d env _ _ hd
    exact ⟨r1, hr, hf.transaction⟩

theorem add_then_delete_round_trip_witness :
    (∃ m1, addUcoTransfer roundTripSample = some m1 ∧
      m1.transaction.Data.Ledger.Uco.Transfers =
        [{ To := [1], Amount := 9 }, { To := [170], Amount := 5 }] ∧
      ∃ r1, Update sampleEnv { m1 with activeTab := 1, focusInput := 4 } (.Key "d") =
          some (r1, []) ∧
        r1.transaction.Data.Ledger.Uco.Transfers = [{ To := [1], Amount := 9 }]) ∧
    (∃ m1, addTokenTransfer roundTripSample = some m1 ∧
      m1.transaction.Data.Ledger.Token.Transfers =
        [{ To := [1], TokenAddress := [2], Amount := 9, TokenId := 4 },
         { To := [170], TokenAddress := [187], Amount := 5, TokenId := -3 }] ∧
      ∃ r1, Update sampleEnv { m1 with activeTab := 2, focusInput := 6 } (.Key "d") =
          some (r1, []) ∧
        r1.transaction.Data.Ledger.Token.Transfers =
          [{ To := [1], TokenAddress := [2], Amount := 9, TokenId := 4 }]) ∧
    (∃ m1, addRecipient roundTripSample = some m1 ∧
      m1.transaction.Data.Recipients = [[1], [204]] ∧
      ∃ r1, Update sampleEnv { m1 with activeTab := 3, focusInput := 3 } (.Key "d") =
          some (r1, []) ∧
        r1.transaction.Data.Recipients = [[1]]) := by
  have h := add_then_delete_round_trip sampleEnv roundTripSample _ _ _ _ _ _ rfl rfl
  obtain ⟨m1, a1, l1, r1, u1, t1⟩ := h.1 [170] 5 (by decide) (by decide)
  obtain ⟨m2, a2, l2, r2, u2, t2⟩ :=
    h.2.1 [170] 5 [187] (-3) (by decide) (by decide) (by decide) (by decide)
  obtain ⟨m3, a3, l3, r3, u3, t3⟩ := h.2.2 [204] (by decide)
  exact ⟨⟨m1, a1, l1, r1, u1, by rw [t1]; rfl⟩, ⟨m2, a2, l2, r2, u2, by rw [t2]; rfl⟩,
    ⟨m3, a3, l3, r3, u3, by rw [t3]; rfl⟩⟩

/-! ## Ownerships -/

theorem keyRecord_eq_some (env : Env) (secretKey : List Nat) (key : String)
    (record : AuthorizedKey) :
    keyRecord env secretKey key = some record ↔
      hexDecodeString key = some record.PublicKey ∧
        env.EcEncrypt secretKey record.PublicKey = some record.EncryptedSecretKey := by
  obtain ⟨pk, enc⟩ := record
  unfold keyRecord
  cases hd : hexDecodeString key with
  | none => simp
  | some d =>
    cases he : env.EcEncrypt secretKey d with
    | none =>
      simp only [he]
      constructor
      · intro h
        cases h
      · intro h
        obtain ⟨h1, h2⟩ := h
        cases h1
        rw [he] at h2
        cases h2
    | some e =>
      simp only [he, Option.some.injEq, AuthorizedKey.mk.injEq]
      constructor
      · intro h
        obtain ⟨h1, h2⟩ := h
        subst h1 h2
        exact ⟨rfl, he⟩
      · intro h
        obtain ⟨h1, h2⟩ := h
        cases h1
        rw [he] at h2
        exact ⟨rfl, Option.some.inj h2⟩

theorem keyRecord_isSome (env : Env) (secretKey : List Nat) (key : String) :
    (keyRecord env secretKey key).isSome = true ↔
      ∃ pk, hexDecodeString key = some pk ∧ (env.EcEncrypt secretKey pk).isSome = true := by
  unfold keyRecord
  cases hd : hexDecodeString key with
  | none => simp
  | some d =>
    cases he : env.EcEncrypt secretKey d with
    | none => simp [he]
    | some e => simp [he]

theorem authorizedKeysLoop_eq_some (env : Env) (secretKey : List Nat) (keys : List String) :
    ∀ records : List AuthorizedKey,
      authorizedKeysLoop env secretKey keys = some records ↔
        keys.map (keyRecord env secretKey) = records.map some := by
  induction keys with
  | nil =>
    intro records
    cases records <;> simp [authorizedKeysLoop]
  | cons k ks ih =>
    intro records
    unfold authorizedKeysLoop
    cases hk : keyRecord env secretKey k with
    | none => cases records <;> simp [hk]
    | some record =>
      cases hl : authorizedKeysLoop env secretKey ks with
      | none =>
        cases records with
        | nil => simp
        | cons r rs =>
          have := (ih rs).not.mp (by simp [hl])
          simp [hk]
          intro _
          exact this
      | some l =>
        cases records with
        | nil => simp
        | cons r rs =>
          have := ih rs
          rw [hl] at this
          simp [hk]
          intro _
          simpa using this

theorem authorizedKeysLoop_isSome (env : Env) (secretKey : List Nat) (keys : List String) :
    (authorizedKeysLoop env secretKey keys).isSome = true ↔
      ∀ key ∈ keys, (keyRecord env secretKey key).isSome = true := by
  induction keys with
  | nil => simp [authorizedKeysLoop]
  | cons k ks ih =>
    unfold authorizedKeysLoop
    cases hk : keyRecord env secretKey k with
    | none => simp [hk]
    | some record =>
      cases hl : authorizedKeysLoop env secretKey ks with
      | none =>
        rw [hl] at ih
        simp only [Option.isSome_none, Bool.false_eq_true, false_iff] at ih
        simp only [Option.isSome_none, Bool.false_eq_true, false_iff]
        intro h
        exact ih fun key hm => h key (List.mem_cons_of_mem _ hm)
      | some l =>
        rw [hl] at ih
        simp only [Option.isSome_some, true_iff] at ih
        simp only [Option.isSome_some, true_iff]
        intro key hm
        rcases List.mem_cons.mp hm with rfl | h
        · simp [hk]
        · exact ih key h

/-- The loop over keys that decode to `decoded` and whose encryptions return `encrypted`
gives the records pairing them, in the order of the keys. -/
theorem authorizedKeysLoop_eq (env : Env) (secretKey : List Nat) (keys : List String) :
    ∀ (decoded encrypted : List (List Nat)),
      keys.map hexDecodeString = decoded.map some →
      decoded.map (env.EcEncrypt secretKey) = encrypted.map some →
      authorizedKeysLoop env secretKey keys =
        some (List.zipWith AuthorizedKey.mk decoded encrypted) := by
  induction keys with
  | nil =>
    intro decoded encrypted hd he
    cases decoded with
    | nil => simp [authorizedKeysLoop]
    | cons d ds => simp at hd
  | cons k ks ih =>
    intro decoded encrypted hd he
    cases decoded with
    | nil => simp at hd
    | cons d ds =>
      cases encrypted with
      | nil => simp at he
      | cons e es =>
        simp only [List.map_cons, List.cons.injEq] at hd he
        have hk : keyRecord env secretKey k = some ⟨d, e⟩ :=
          (keyRecord_eq_some env secretKey k ⟨d, e⟩).mpr ⟨hd.1, he.1⟩
        simp [authorizedKeysLoop, hk, ih ds es hd.2 he.2]

theorem authorizedKeysLoop_append (env : Env) (secretKey : List Nat) (keys : List String)
    (key : String) (records : List AuthorizedKey)
    (h : authorizedKeysLoop env secretKey (keys ++ [key]) = some records) :
    ∃ front record, authorizedKeysLoop env secretKey keys = some front ∧
      keyRecord env secretKey key = some record ∧ records = front ++ [record] ∧
      ∀ r ∈ front, ∃ k ∈ keys, hexDecodeString k = some r.PublicKey := by
  induction keys generalizing records with
  | nil =>
    cases hk : keyRecord env secretKey key with
    | none => simp [authorizedKeysLoop, hk] at h
    | some record =>
      simp only [List.nil_append, authorizedKeysLoop, hk, Option.some.injEq] at h
      exact ⟨[], record, rfl, rfl, by simp [← h], by simp⟩
  | cons k ks ih =>
    simp only [List.cons_append] at h
    unfold authorizedKeysLoop at h
    cases hk : keyRecord env secretKey k with
    | none => simp [hk] at h
    | some r0 =>
      cases hl : authorizedKeysLoop env secretKey (ks ++ [key]) with
      | none => simp [hk, hl] at h
      | some l =>
        simp only [hk, hl, Option.some.injEq] at h
        obtain ⟨front, record, h1, h2, h3, h4⟩ := ih l hl
        refine ⟨r0 :: front, record, ?_, h2, ?_, ?_⟩
        · simp [authorizedKeysLoop, hk, h1]
        · simp [← h, h3]
        · intro r hr
          rcases List.mem_cons.mp hr with rfl | hr
          · exact ⟨k, List.mem_cons_self _ _,
              ((keyRecord_eq_some env secretKey k r).mp hk).1⟩
          · obtain ⟨k2, hm, hd⟩ := h4 r hr
            exact ⟨k2, List.mem_cons_of_mem _ hm, hd⟩

/-! ### The filter of `AddOwnership` -/

theorem dedupAuthorizedKeys_of_nodup (records : List AuthorizedKey) :
    ∀ seen : List (List Nat), (∀ r ∈ records, r.PublicKey ∉ seen) →
      (records.map fun r => r.PublicKey).Nodup →
      dedupAuthorizedKeys records seen = records := by
  induction records with
  | nil => intro seen _ _; rfl
  | cons r rs ih =>
    intro seen hs hn
    simp only [List.map_cons, List.nodup_cons, List.mem_map, not_exists, not_and] at hn
    have h0 : r.PublicKey ∉ seen := hs r (List.mem_cons_self _ _)
    simp only [dedupAuthorizedKeys, if_neg h0, List.cons.injEq, true_and]
    apply ih _ _ hn.2
    intro x hx hmem
    rcases List.mem_cons.mp hmem with h | h
    · exact hn.1 x hx h
    · exact hs x (List.mem_cons_of_mem _ hx) h

theorem dedupAuthorizedKeys_covers (records : List AuthorizedKey) :
    ∀ (seen : List (List Nat)) (r : AuthorizedKey), r ∈ records →
      r.PublicKey ∈ seen ∨
        r.PublicKey ∈ (dedupAuthorizedKeys records seen).map fun x => x.PublicKey := by
  induction records with
  | nil => intro seen r hr; simp at hr
  | cons x xs ih =>
    intro seen r hr
    by_cases hx : x.PublicKey ∈ seen
    · simp only [dedupAuthorizedKeys, if_pos hx]
      rcases List.mem_cons.mp hr with rfl | h
      · exact Or.inl hx
      · exact ih seen r h
    · simp only [dedupAuthorizedKeys, if_neg hx, List.map_cons, List.mem_cons]
      rcases List.mem_cons.mp hr with rfl | h
      · exact Or.inr (Or.inl rfl)
      · rcases ih (x.PublicKey :: seen) r h with h1 | h1
        · rcases List.mem_cons.mp h1 with h2 | h2
          · exact Or.inr (Or.inl h2)
          · exact Or.inl h2
        · exact Or.inr (Or.inr h1)

theorem dedupAuthorizedKeys_append_new (records : List AuthorizedKey) (x : AuthorizedKey) :
    ∀ seen : List (List Nat), x.PublicKey ∉ seen →
      (∀ r ∈ records, r.PublicKey ≠ x.PublicKey) →
      dedupAuthorizedKeys (records ++ [x]) seen = dedupAuthorizedKeys records seen ++ [x] := by
  induction records with
  | nil =>
    intro seen hs _
    simp [dedupAuthorizedKeys, hs]
  | cons r rs ih =>
    intro seen hs hr
    have hne : r.PublicKey ≠ x.PublicKey := hr r (List.mem_cons_self _ _)
    have hrs : ∀ y ∈ rs, y.PublicKey ≠ x.PublicKey :=
      fun y hy => hr y (List.mem_cons_of_mem _ hy)
    by_cases h0 : r.PublicKey ∈ seen
    · simp only [List.cons_append, dedupAuthorizedKeys, if_pos h0]
      exact ih seen hs hrs
    · simp only [List.cons_append, dedupAuthorizedKeys, if_neg h0, List.cons.injEq, true_and]
      apply ih _ _ hrs
      intro hmem
      rcases List.mem_cons.mp hmem with h | h
      · exact hne h.symm
      · exact hs h

theorem dedupAuthorizedKeys_append_seen (records : List AuthorizedKey) (x : AuthorizedKey) :
    ∀ seen : List (List Nat),
      (x.PublicKey ∈ seen ∨ ∃ r ∈ records, r.PublicKey = x.PublicKey) →
      dedupAuthorizedKeys (records ++ [x]) seen = dedupAuthorizedKeys records seen := by
  induction records with
  | nil =>
    intro seen h
    rcases h with h | ⟨r, hr, _⟩
    · simp [dedupAuthorizedKeys, h]
    · simp at hr
  | cons r rs ih =>
    intro seen h
    by_cases h0 : r.PublicKey ∈ seen
    · simp only [List.cons_append, dedupAuthorizedKeys, if_pos h0]
      apply ih seen
      rcases h with h | ⟨y, hy, hyx⟩
      · exact Or.inl h
      · rcases List.mem_cons.mp hy with rfl | hy
        · exact Or.inl (hyx ▸ h0)
        · exact Or.inr ⟨y, hy, hyx⟩
    · simp only [List.cons_append, dedupAuthorizedKeys, if_neg h0, List.cons.injEq, true_and]
      apply ih
      rcases h with h | ⟨y, hy, hyx⟩
      · exact Or.inl (List.mem_cons_of_mem _ h)
      · rcases List.mem_cons.mp hy with rfl | hy
        · exact Or.inl (hyx ▸ List.mem_cons_self _ _)
        · exact Or.inr ⟨y, hy, hyx⟩

theorem addAuthorizedKey_eq (m : Model) (a b : TextInput) (hi : m.ownershipsInputs = [a, b]) :
    addAuthorizedKey m = some
      { m with authorizedKeys := m.authorizedKeys ++ [b.value],
               ownershipsInputs := [a, { b with value := "" }] } := by
  simp [addAuthorizedKey, hi, inputValue, inputSetValue, TextInput.SetValue]

theorem addOwnership_eq (env : Env) (m : Model) (a b : TextInput)
    (hi : m.ownershipsInputs = [a, b]) :
    addOwnership env m =
      (env.AesEncrypt (stringBytes a.value) m.secretKey).bind fun cipher =>
        (authorizedKeysLoop env m.secretKey (keysAtCommit m b.value)).map fun records =>
          { m with
            transaction.Data.Ownerships := m.transaction.Data.Ownerships ++
              [{ Secret := cipher, AuthorizedKeys := dedupAuthorizedKeys records [] }],
            authorizedKeys := [],
            ownershipsInputs := [{ a with value := "" }, { b with value := "" }] } := by
  by_cases hb : b.value = ""
  · cases ha : env.AesEncrypt (stringBytes a.value) m.secretKey <;>
    cases hl : authorizedKeysLoop env m.secretKey m.authorizedKeys <;>
      simp [addOwnership, hi, inputValue, inputSetValue, hb, keysAtCommit, hl, ha,
        TransactionBuilder.AddOwnership, TextInput.SetValue]
  · cases ha : env.AesEncrypt (stringBytes a.value) m.secretKey <;>
    cases hl : authorizedKeysLoop env m.secretKey (m.authorizedKeys ++ [b.value]) <;>
      simp [addOwnership, addAuthorizedKey, hi, inputValue, inputSetValue, hb, keysAtCommit, hl,
        ha, TransactionBuilder.AddOwnership, TextInput.SetValue]

theorem authorizedKeysLoop_mem (env : Env) (secretKey : List Nat) (keys : List String) :
    ∀ records : List AuthorizedKey, authorizedKeysLoop env secretKey keys = some records →
      ∀ key ∈ keys, ∃ r ∈ records, hexDecodeString key = some r.PublicKey := by
  induction keys with
  | nil => intro records _ key hm; simp at hm
  | cons k ks ih =>
    intro records h key hm
    unfold authorizedKeysLoop at h
    cases hk : keyRecord env secretKey k with
    | none => simp [hk] at h
    | some r0 =>
      cases hl : authorizedKeysLoop env secretKey ks with
      | none => simp [hk, hl] at h
      | some l =>
        simp only [hk, hl, Option.some.injEq] at h
        subst h
        rcases List.mem_cons.mp hm with rfl | hm
        · exact ⟨r0, List.mem_cons_self _ _, ((keyRecord_eq_some env secretKey _ r0).mp hk).1⟩
        · obtain ⟨r, hr, hd⟩ := ih l hl key hm
          exact ⟨r, List.mem_cons_of_mem _ hr, hd⟩

theorem map_PublicKey_zipWith (decoded encrypted : List (List Nat))
    (h : encrypted.length = decoded.length) :
    (List.zipWith AuthorizedKey.mk decoded encrypted).map (fun r => r.PublicKey) = decoded := by
  induction decoded generalizing encrypted with
  | nil => simp
  | cons d ds ih =>
    cases encrypted with
    | nil => simp at h
    | cons e es =>
      simp only [List.length_cons, add_left_inj] at h
      simp [ih es h]

/-- C12 (counterexample): with a non-empty key buffer that is not hexadecimal ("zz"), or
that is hexadecimal but not a public key ("aa"), `addOwnership` panics, also when reached by
pressing `enter` on the commit button: no ownership is appended.  With the pending keys
`keyA`, `keyB` and the buffer holding `keyA` again, the ownership has two authorized keys and
the last one is the record of `keyB`, not of the buffer's key. -/
theorem commit_with_bad_pending_key_panics :
    (inputValue badKeySample.ownershipsInputs 1 = some "zz" ∧
      addOwnership sampleEnv badKeySample = none ∧
      Update sampleEnv badKeySample (.Key "enter") = none) ∧
    (inputValue notAKeySample.ownershipsInputs 1 = some "aa" ∧
      hexDecodeString "aa" = some [170] ∧
      addOwnership sampleEnv notAKeySample = none) ∧
    (duplicateBufferSample.authorizedKeys = [keyA, keyB] ∧
      inputValue duplicateBufferSample.ownershipsInputs 1 = some keyA ∧
      (addOwnership sampleEnv duplicateBufferSample).map
          (fun m => m.transaction.Data.Ownerships.map
            (fun o => o.AuthorizedKeys.map (fun k => k.PublicKey))) =
        some [[keyABytes, keyBBytes]]) := by
  refine ⟨⟨?_, ?_, ?_⟩, ⟨?_, ?_, ?_⟩, ⟨?_, ?_, ?_⟩⟩ <;> decide

/-- C12 (amended): with a non-empty authorization-key buffer, `addOwnership` returns
exactly when the symmetric encryption of the secret returns and the buffer's text and every
pending key decode as hexadecimal to bytes the asymmetric encryption accepts; otherwise it
panics.  When it returns, whether or not `addAuthorizedKey` ran before, it appends one
ownership whose authorized keys are the records of the pending keys followed by the record
of the buffer's key, only the first record of each public key being kept: the buffer's
public key is among them, its record is the last authorized key when no pending key decodes
to the same public key, and is dropped in favour of the earlier record otherwise. -/
theorem commit_flushes_pending_key (env : Env) (m : Model) (a b : TextInput)
    (hi : m.ownershipsInputs = [a, b]) (hb : b.value ≠ "") :
    ((addOwnership env m).isSome = true ↔
      (env.AesEncrypt (stringBytes a.value) m.secretKey).isSome = true ∧
        ∀ key ∈ m.authorizedKeys ++ [b.value], ∃ pk, hexDecodeString key = some pk ∧
          (env.EcEncrypt m.secretKey pk).isSome = true) ∧
    (∀ r, addOwnership env m = some r →
      ∃ cipher front pk enc o,
        env.AesEncrypt (stringBytes a.value) m.secretKey = some cipher ∧
        authorizedKeysLoop env m.secretKey m.authorizedKeys = some front ∧
        hexDecodeString b.value = some pk ∧ env.EcEncrypt m.secretKey pk = some enc ∧
        r.transaction.Data.Ownerships = m.transaction.Data.Ownerships ++ [o] ∧
        o.Secret = cipher ∧
        o.AuthorizedKeys =
          dedupAuthorizedKeys (front ++ [{ PublicKey := pk, EncryptedSecretKey := enc }]) [] ∧
        pk ∈ o.AuthorizedKeys.map (fun k => k.PublicKey) ∧
        ((∀ key ∈ m.authorizedKeys, hexDecodeString key ≠ some pk) →
          o.AuthorizedKeys =
              dedupAuthorizedKeys front [] ++ [{ PublicKey := pk, EncryptedSecretKey := enc }] ∧
            o.AuthorizedKeys.getLast? =
              some { PublicKey := pk, EncryptedSecretKey := enc }) ∧
        ((∃ key ∈ m.authorizedKeys, hexDecodeString key = some pk) →
          o.AuthorizedKeys = dedupAuthorizedKeys front [])) := by
  have h := addOwnership_eq env m a b hi
  have hkeys : keysAtCommit m b.value = m.authorizedKeys ++ [b.value] := by
    simp [keysAtCommit, hb]
  rw [hkeys] at h
  constructor
  · rw [h]
    cases ha : env.AesEncrypt (stringBytes a.value) m.secretKey with
    | none => simp
    | some cipher =>
      have e : ((some cipher).bind fun cipher =>
          (authorizedKeysLoop env m.secretKey (m.authorizedKeys ++ [b.value])).map fun records =>
            ({ m with
              transaction.Data.Ownerships := m.transaction.Data.Ownerships ++
                [{ Secret := cipher, AuthorizedKeys := dedupAuthorizedKeys records [] }],
              authorizedKeys := [],
              ownershipsInputs := [{ a with value := "" }, { b with value := "" }] } :
              Model)).isSome =
          (authorizedKeysLoop env m.secretKey (m.authorizedKeys ++ [b.value])).isSome := by
        cases authorizedKeysLoop env m.secretKey (m.authorizedKeys ++ [b.value]) <;> rfl
      rw [e, authorizedKeysLoop_isSome]
      simp only [Option.isSome_some, true_and]
      constructor
      · intro hall key hm
        exact (keyRecord_isSome env m.secretKey key).mp (hall key hm)
      · intro hall key hm
        exact (keyRecord_isSome env m.secretKey key).mpr (hall key hm)
  · intro r hr
    rw [h] at hr
    cases ha : env.AesEncrypt (stringBytes a.value) m.secretKey with
    | none => simp [ha] at hr
    | some cipher =>
      cases hl : authorizedKeysLoop env m.secretKey (m.authorizedKeys ++ [b.value]) with
      | none => simp [ha, hl] at hr
      | some records =>
        simp only [ha, hl, Option.some_bind, Option.map_some', Option.some.injEq] at hr
        obtain ⟨front, record, h1, h2, h3, h4⟩ :=
          authorizedKeysLoop_append env m.secretKey m.authorizedKeys b.value records hl
        obtain ⟨pk, enc⟩ := record
        obtain ⟨hd, he⟩ := (keyRecord_eq_some env m.secretKey b.value ⟨pk, enc⟩).mp h2
        simp only at hd he
        subst h3
        refine ⟨cipher, front, pk, enc,
          { Secret := cipher,
            AuthorizedKeys := dedupAuthorizedKeys (front ++ [⟨pk, enc⟩]) [] },
          rfl, h1, hd, he, ?_, rfl, rfl, ?_, ?_, ?_⟩
        · rw [← hr]
        · have hc := dedupAuthorizedKeys_covers (front ++ [⟨pk, enc⟩]) [] ⟨pk, enc⟩ (by simp)
          rcases hc with hc | hc
          · simp at hc
          · exact hc
        · intro hfresh
          have hnew : ∀ x ∈ front, x.PublicKey ≠ pk := by
            intro x hx hpk
            obtain ⟨k, hk, hdk⟩ := h4 x hx
            exact hfresh k hk (hpk ▸ hdk)
          have hq := dedupAuthorizedKeys_append_new front ⟨pk, enc⟩ [] (by simp) hnew
          exact ⟨hq, by rw [hq]; simp⟩
        · intro hold
          obtain ⟨key, hk, hdk⟩ := hold
          obtain ⟨x, hx, hdx⟩ := authorizedKeysLoop_mem env m.secretKey m.authorizedKeys front h1
            key hk
          apply dedupAuthorizedKeys_append_seen front ⟨pk, enc⟩ []
          refine Or.inr ⟨x, hx, ?_⟩
          rw [hdk] at hdx
          exact (Option.some.inj hdx).symm

theorem commit_flushes_pending_key_witness :
    ∃ r o, addOwnership sampleEnv commitSample = some r ∧
      r.transaction.Data.Ownerships = commitSample.transaction.Data.Ownerships ++ [o] ∧
      keyBBytes ∈ o.AuthorizedKeys.map (fun k => k.PublicKey) ∧
      o.AuthorizedKeys.getLast? =
        some { PublicKey := keyBBytes, EncryptedSecretKey := keyBBytes ++ sampleSecretKey } := by
  have h := commit_flushes_pending_key sampleEnv commitSample
    { value := "s", focus := false } { value := keyB, focus := false } rfl (by decide)
  have hs : (addOwnership sampleEnv commitSample).isSome = true := by decide
  obtain ⟨r, hr⟩ := Option.isSome_iff_exists.mp hs
  obtain ⟨cipher, front, pk, enc, o, _, _, h3, h4, h5, _, _, h8, h9, _⟩ := h.2 r hr
  have hpk : pk = keyBBytes := by
    have : hexDecodeString keyB = some keyBBytes := by decide
    rw [this] at h3
    exact (Option.some.inj h3).symm
  subst hpk
  have henc : enc = keyBBytes ++ sampleSecretKey := by
    have : sampleEnv.EcEncrypt commitSample.secretKey keyBBytes =
        some (keyBBytes ++ sampleSecretKey) := by decide
    rw [this] at h4
    exact (Option.some.inj h4).symm
  subst henc
  refine ⟨r, o, hr, h5, h8, (h9 ?_).2⟩
  intro key hk
  have : key = keyA := by simpa [commitSample] using hk
  subst this
  decide

/-- C13 (evaluation at the failing input): with the authorization-key buffer empty,
`addAuthorizedKey` appends the empty string to the pending list, directly and when reached
by pressing `enter` on the control "Add authorization key" of the initial Ownerships
tab. -/
theorem add_authorized_key_appends_empty_buffer :
    (addAuthorizedKey (New [])).map (fun m => m.authorizedKeys) = some [""] ∧
      (run sampleEnv (New []) emptyKeyAddKeys).map
        (fun m => (m.activeTab, m.focusInput, m.authorizedKeys)) = some (4, 2, [""]) := by
  constructor <;> decide

/-- C19 (counterexample): with one pending key and the key buffer holding another key,
`addOwnership` appends an ownership with two authorized keys, the second one being the
record of the buffer's key; with three pending keys of which the third spells the first in
capital letters, the ownership has two authorized keys; and with the pending key "aa", which
is hexadecimal but not a public key, `addOwnership` panics. -/
theorem commit_adds_record_of_key_buffer :
    (commitSample.authorizedKeys = [keyA] ∧
      (addOwnership sampleEnv commitSample).map
          (fun m => m.transaction.Data.Ownerships.map
            (fun o => o.AuthorizedKeys.map (fun k => k.PublicKey))) =
        some [[keyABytes, keyBBytes]]) ∧
    (repeatedKeySample.authorizedKeys = [keyA, keyB, keyAUpper] ∧
      repeatedKeySample.authorizedKeys.map hexDecodeString =
        [some keyABytes, some keyBBytes, some keyABytes] ∧
      (addOwnership sampleEnv repeatedKeySample).map
          (fun m => m.transaction.Data.Ownerships.map
            (fun o => o.AuthorizedKeys.map (fun k => k.PublicKey))) =
        some [[keyABytes, keyBBytes]]) ∧
    (notAKeyPendingSample.authorizedKeys = ["aa"] ∧
      inputValue notAKeyPendingSample.ownershipsInputs 1 = some "" ∧
      hexDecodeString "aa" = some [170] ∧
      addOwnership sampleEnv notAKeyPendingSample = none) := by
  refine ⟨⟨?_, ?_⟩, ⟨?_, ?_, ?_⟩, ⟨?_, ?_, ?_, ?_⟩⟩ <;> decide

/-- C19 (amended): when the symmetric encryption of the secret buffer under the session key
returns and the pending keys, followed by the authorization-key buffer if it is not empty,
all decode as hexadecimal to bytes for which the asymmetric encryption of the session key
returns, `addOwnership` returns the state in which exactly one ownership is appended,
holding the encrypted secret and, in the order of those keys, their records (decoded key,
session key encrypted for that key), only the first record of each public key being kept;
the pending list and both buffers are empty and nothing else differs.  When the decoded
keys are distinct the records are kept one per key, and with an empty buffer the keys are
those of the pending list alone. -/
theorem commit_ownership_records (env : Env) (m : Model) (a b : TextInput)
    (decoded encrypted : List (List Nat)) (cipher : List Nat)
    (hi : m.ownershipsInputs = [a, b])
    (ha : env.AesEncrypt (stringBytes a.value) m.secretKey = some cipher)
    (hd : (keysAtCommit m b.value).map hexDecodeString = decoded.map some)
    (he : decoded.map (env.EcEncrypt m.secretKey) = encrypted.map some) :
    addOwnership env m = some
        { m with
          transaction.Data.Ownerships := m.transaction.Data.Ownerships ++
            [{ Secret := cipher,
               AuthorizedKeys :=
                 dedupAuthorizedKeys (List.zipWith AuthorizedKey.mk decoded encrypted) [] }],
          authorizedKeys := [],
          ownershipsInputs := [{ a with value := "" }, { b with value := "" }] } ∧
      decoded.length = (keysAtCommit m b.value).length ∧
      encrypted.length = decoded.length ∧
      (decoded.Nodup →
        dedupAuthorizedKeys (List.zipWith AuthorizedKey.mk decoded encrypted) [] =
          List.zipWith AuthorizedKey.mk decoded encrypted) ∧
      (b.value = "" → keysAtCommit m b.value = m.authorizedKeys) ∧
      (b.value ≠ "" → keysAtCommit m b.value = m.authorizedKeys ++ [b.value]) := by
  have hl := authorizedKeysLoop_eq env m.secretKey _ _ _ hd he
  have h := addOwnership_eq env m a b hi
  rw [hl, ha] at h
  have hlen : encrypted.length = decoded.length := by
    have := congrArg List.length he
    simpa using this.symm
  refine ⟨h, ?_, hlen, ?_, ?_, ?_⟩
  · have := congrArg List.length hd
    simpa using this.symm
  · intro hn
    apply dedupAuthorizedKeys_of_nodup _ [] (by simp)
    rw [map_PublicKey_zipWith decoded encrypted hlen]
    exact hn
  · intro hb; simp [keysAtCommit, hb]
  · intro hb; simp [keysAtCommit, hb]

theorem commit_ownership_records_witness :
    (addOwnership sampleEnv commitSample).map
        (fun m => (m.transaction.Data.Ownerships, m.authorizedKeys,
          m.ownershipsInputs.map (fun t => t.value))) =
      some ([{ Secret := 115 :: sampleSecretKey,
               AuthorizedKeys :=
                 [{ PublicKey := keyABytes, EncryptedSecretKey := keyABytes ++ sampleSecretKey },
                  { PublicKey := keyBBytes,
                    EncryptedSecretKey := keyBBytes ++ sampleSecretKey }] }],
        [], ["", ""]) := by
  have h := commit_ownership_records sampleEnv commitSample
    { value := "s", focus := false } { value := keyB, focus := false }
    [keyABytes, keyBBytes] [keyABytes ++ sampleSecretKey, keyBBytes ++ sampleSecretKey]
    (115 :: sampleSecretKey) rfl (by decide) (by decide) (by decide)
  rw [h.1, h.2.2.2.1 (by decide)]
  rfl

/-! ## What the handler never changes -/

theorem Static.same (m : Model) : Static m m := ⟨rfl, rfl, rfl, rfl⟩

theorem Static.chain {a b c : Model} (h1 : Static a b) (h2 : Static b c) : Static a c :=
  ⟨h2.Tabs.trans h1.Tabs, h2.TabContent.trans h1.TabContent, h2.activeTab.trans h1.activeTab,
    h2.secretKey.trans h1.secretKey⟩

theorem Frame.static {a b : Model} (h : Frame a b) : Static a b :=
  ⟨h.Tabs, h.TabContent, h.activeTab, h.secretKey⟩

theorem addUcoTransfer_static (m r : Model) (h : addUcoTransfer m = some r) : Static m r := by
  simp only [addUcoTransfer, Option.bind_eq_bind, Option.bind_eq_some, Option.pure_def,
    Option.some.injEq] at h
  obtain ⟨_, _, _, _, _, _, _, _, _, _, _, _, rfl⟩ := h
  exact ⟨rfl, rfl, rfl, rfl⟩

theorem addTokenTransfer_static (m r : Model) (h : addTokenTransfer m = some r) :
    Static m r := by
  simp only [addTokenTransfer, Option.bind_eq_bind, Option.bind_eq_some, Option.pure_def,
    Option.some.injEq] at h
  obtain ⟨_, _, _, _, _, _, _, _, _, _, _, _, _, _, _, _, _, _, _, _, _, _, _, _, rfl⟩ := h
  exact ⟨rfl, rfl, rfl, rfl⟩

theorem addRecipient_static (m r : Model) (h : addRecipient m = some r) : Static m r := by
  simp only [addRecipient, Option.bind_eq_bind, Option.bind_eq_some, Option.pure_def,
    Option.some.injEq] at h
  obtain ⟨_, _, rfl⟩ := h
  exact ⟨rfl, rfl, rfl, rfl⟩

theorem addAuthorizedKey_static (m r : Model) (h : addAuthorizedKey m = some r) :
    Static m r := by
  simp only [addAuthorizedKey, Option.bind_eq_bind, Option.bind_eq_some, Option.pure_def,
    Option.some.injEq] at h
  obtain ⟨_, _, _, _, rfl⟩ := h
  exact ⟨rfl, rfl, rfl, rfl⟩

theorem addOwnership_static (env : Env) (m r : Model) (h : addOwnership env m = some r) :
    Static m r := by
  simp only [addOwnership, Option.bind_eq_bind, Option.bind_eq_some, Option.pure_def,
    Option.some.injEq] at h
  obtain ⟨_, _, _, _, h⟩ := h
  split at h
  · simp only [Option.bind_eq_bind, Option.bind_eq_some, Option.pure_def,
      Option.some.injEq] at h
    obtain ⟨p, hp, _, _, _, _, _, _, _, _, rfl⟩ := h
    have hs := addAuthorizedKey_static m p hp
    exact ⟨hs.Tabs, hs.TabContent, hs.activeTab, hs.secretKey⟩
  · simp only [Option.bind_eq_bind, Option.bind_eq_some, Option.pure_def,
      Option.some.injEq] at h
    obtain ⟨p, hp, _, _, _, _, _, _, _, _, rfl⟩ := h
    cases hp
    exact ⟨rfl, rfl, rfl, rfl⟩

theorem loadStorageNouncePublicKey_static (env : Env) (m r : Model) (e : List Effect)
    (h : loadStorageNouncePublicKey env m = some (r, e)) : Static m r := by
  unfold loadStorageNouncePublicKey at h
  split_ifs at h <;>
    simp only [Option.bind_eq_bind, Option.bind_eq_some, Option.pure_def, Option.some.injEq,
      Prod.mk.injEq] at h <;>
    obtain ⟨_, _, rfl, _⟩ := h <;>
    exact ⟨rfl, rfl, rfl, rfl⟩

theorem deleteUcoTransfer_static (m r : Model) (h : deleteUcoTransfer m = some r) :
    Static m r := by
  simp only [deleteUcoTransfer, Option.bind_eq_bind, Option.bind_eq_some, Option.pure_def,
    Option.some.injEq] at h
  obtain ⟨_, _, rfl⟩ := h
  exact ⟨rfl, rfl, rfl, rfl⟩

theorem deleteTokenTransfer_static (m r : Model) (h : deleteTokenTransfer m = some r) :
    Static m r := by
  simp only [deleteTokenTransfer, Option.bind_eq_bind, Option.bind_eq_some, Option.pure_def,
    Option.some.injEq] at h
  obtain ⟨_, _, rfl⟩ := h
  exact ⟨rfl, rfl, rfl, rfl⟩

theorem deleteRecipient_static (m r : Model) (h : deleteRecipient m = some r) :
    Static m r := by
  simp only [deleteRecipient, Option.bind_eq_bind, Option.bind_eq_some, Option.pure_def,
    Option.some.injEq] at h
  obtain ⟨_, _, rfl⟩ := h
  exact ⟨rfl, rfl, rfl, rfl⟩

theorem deleteAuthorizedKey_static (m r : Model) (h : deleteAuthorizedKey m = some r) :
    Static m r := by
  simp only [deleteAuthorizedKey, Option.bind_eq_bind, Option.bind_eq_some, Option.pure_def,
    Option.some.injEq] at h
  obtain ⟨_, _, rfl⟩ := h
  exact ⟨rfl, rfl, rfl, rfl⟩

theorem deleteOwnership_static (m r : Model) (h : deleteOwnership m = some r) :
    Static m r := by
  simp only [deleteOwnership, Option.bind_eq_bind, Option.bind_eq_some, Option.pure_def,
    Option.some.injEq] at h
  obtain ⟨_, _, rfl⟩ := h
  exact ⟨rfl, rfl, rfl, rfl⟩

theorem updateDelete_static (m r : Model) (h : updateDelete m = some r) : Static m r := by
  unfold updateDelete at h
  split_ifs at h
  · exact deleteUcoTransfer_static m r h
  · cases h; exact Static.same m
  · exact deleteTokenTransfer_static m r h
  · cases h; exact Static.same m
  · exact deleteRecipient_static m r h
  · cases h; exact Static.same m
  · exact deleteAuthorizedKey_static m r h
  · exact deleteOwnership_static m r h
  · cases h; exact Static.same m
  · cases h; exact Static.same m

theorem map_pair_eq_some {α β : Type} (o : Option α) (b : β) (r : α) (e : β)
    (h : o.map (fun x => (x, b)) = some (r, e)) : o = some r := by
  cases o with
  | none => simp at h
  | some x => simp at h; rw [h.1]

theorem updateEnter_static (env : Env) (m r : Model) (e : List Effect)
    (h : updateEnter env m = some (r, e)) : Static m r := by
  unfold updateEnter at h
  split_ifs at h
  · simp only [Option.bind_eq_bind, Option.bind_eq_some, Option.pure_def, Option.some.injEq,
      Prod.mk.injEq] at h
    obtain ⟨_, _, _, _, rfl, _⟩ := h
    exact ⟨rfl, rfl, rfl, rfl⟩
  · simp only [Option.bind_eq_bind, Option.bind_eq_some, Option.pure_def, Option.some.injEq,
      Prod.mk.injEq] at h
    obtain ⟨_, _, rfl, _⟩ := h
    exact ⟨rfl, rfl, rfl, rfl⟩
  · simp only [Option.bind_eq_bind, Option.bind_eq_some, Option.pure_def, Option.some.injEq,
      Prod.mk.injEq] at h
    obtain ⟨_, _, _, _, rfl, _⟩ := h
    exact ⟨rfl, rfl, rfl, rfl⟩
  · cases h; exact Static.same m
  · exact addUcoTransfer_static m r (map_pair_eq_some _ _ _ _ h)
  · cases h; exact Static.same m
  · exact addTokenTransfer_static m r (map_pair_eq_some _ _ _ _ h)
  · cases h; exact Static.same m
  · exact addRecipient_static m r (map_pair_eq_some _ _ _ _ h)
  · cases h; exact Static.same m
  · exact addAuthorizedKey_static m r (map_pair_eq_some _ _ _ _ h)
  · exact loadStorageNouncePublicKey_static env m r e h
  · exact addOwnership_static env m r (map_pair_eq_some _ _ _ _ h)
  · cases h; exact Static.same m
  · cases h; exact Static.same m

theorem getFocusIndex_static (m : Model) (keypress : String) :
    Static m (getFocusIndex m keypress) := by
  by_cases h : 0 ≤ m.activeTab ∧ m.activeTab ≤ 5
  · rw [getFocusIndex_eq m keypress h.1 h.2]
    exact ⟨rfl, rfl, rfl, rfl⟩
  · obtain ⟨Tabs, TabContent, activeTab, focusInput, mainInputs, contentTextAreaInputs,
      ucoInputs, tokenInputs, recipientsInput, ownershipsInputs, transaction, secretKey,
      authorizedKeys, storageNouncePublicKey, url, serviceName, serviceMode, feedback⟩ := m
    simp only at h
    have h0 : activeTab ≠ 0 := by omega
    have h1 : activeTab ≠ 1 := by omega
    have h2 : activeTab ≠ 2 := by omega
    have h3 : activeTab ≠ 3 := by omega
    have h4 : activeTab ≠ 4 := by omega
    have h5 : activeTab ≠ 5 := by omega
    by_cases hk : keypress = "up" <;>
      simp only [getFocusIndex, hk, h0, h1, h2, h3, h4, h5, if_true, if_false] <;>
      exact ⟨rfl, rfl, rfl, rfl⟩

theorem finish_static (env : Env) (m r : Model) (msg : Msg) (e e2 : List Effect)
    (h : finish env m msg e = some (r, e2)) : Static m r := by
  obtain ⟨r0, h0, hf⟩ := finish_frame env m msg e
  rw [h0] at h
  cases h
  exact hf.static

/-- Every message leaves the tab table and the session key alone, and every message that is
not a tab-switching key leaves the active tab alone. -/
theorem Update_static (env : Env) (m r : Model) (msg : Msg) (e : List Effect)
    (h : Update env m msg = some (r, e)) :
    r.Tabs = m.Tabs ∧ r.TabContent = m.TabContent ∧ r.secretKey = m.secretKey ∧
      (r.activeTab = m.activeTab ∨
        r.activeTab = min (m.activeTab + 1) ((m.Tabs.length : Int) - 1) ∨
        r.activeTab = max (m.activeTab - 1) 0) := by
  have key : ∀ p : Model, Static m p → ∀ e1, finish env p msg e1 = some (r, e) →
      r.Tabs = m.Tabs ∧ r.TabContent = m.TabContent ∧ r.secretKey = m.secretKey ∧
        (r.activeTab = m.activeTab ∨
          r.activeTab = min (m.activeTab + 1) ((m.Tabs.length : Int) - 1) ∨
          r.activeTab = max (m.activeTab - 1) 0) := by
    intro p hp e1 hf
    have hs := hp.chain (finish_static env p r msg e1 e hf)
    exact ⟨hs.Tabs, hs.TabContent, hs.secretKey, Or.inl hs.activeTab⟩
  cases msg with
  | CreateTransaction initParams =>
    simp only [Update, Option.bind_eq_bind, Option.bind_eq_some] at h
    obtain ⟨_, _, _, _, hf⟩ := h
    refine key _ ?_ _ hf
    split_ifs <;> exact ⟨rfl, rfl, rfl, rfl⟩
  | Key keypress =>
    simp only [Update] at h
    split_ifs at h
    · cases h; exact ⟨rfl, rfl, rfl, Or.inl rfl⟩
    · cases h; exact ⟨rfl, rfl, rfl, Or.inl rfl⟩
    · cases h; exact ⟨rfl, rfl, rfl, Or.inr (Or.inl rfl)⟩
    · cases h; exact ⟨rfl, rfl, rfl, Or.inr (Or.inr rfl)⟩
    · exact key _ (getFocusIndex_static m keypress) _ h
    · cases hu : updateEnter env m with
      | none => rw [hu] at h; simp at h
      | some p =>
        obtain ⟨p1, e1⟩ := p
        rw [hu] at h
        exact key p1 (updateEnter_static env m p1 e1 hu) _ h
    · cases hu : updateDelete m with
      | none => rw [hu] at h; simp at h
      | some p =>
        rw [hu] at h
        exact key p (updateDelete_static m p hu) _ h
    · exact key m (Static.same m) _ h


/-! ## Section switching -/

theorem run_invariant (env : Env) (P : Model → Prop)
    (hstep : ∀ m msg r e, P m → Update env m msg = some (r, e) → P r) (msgs : List Msg) :
    ∀ m r, P m → run env m msgs = some r → P r := by
  induction msgs with
  | nil =>
    intro m r hm h
    simp only [run, Option.some.injEq] at h
    rw [← h]; exact hm
  | cons msg rest ih =>
    intro m r hm h
    simp only [run] at h
    cases hu : Update env m msg with
    | none => rw [hu] at h; simp at h
    | some p =>
      obtain ⟨p1, e1⟩ := p
      rw [hu] at h
      exact ih p1 r (hstep m msg p1 e1 hm hu) h

theorem ValidTab_step (env : Env) (m : Model) (msg : Msg) (r : Model) (e : List Effect)
    (hm : ValidTab m) (h : Update env m msg = some (r, e)) : ValidTab r := by
  obtain ⟨h0, h5, hT, hC⟩ := hm
  obtain ⟨s1, s2, _, s5⟩ := Update_static env m r msg e h
  refine ⟨?_, ?_, by rw [s1]; exact hT, by rw [s2]; exact hC⟩
  · rcases s5 with s | s | s <;> rw [s]
    · exact h0
    · rw [hT]; unfold min; split_ifs <;> omega
    · unfold max; split_ifs <;> omega
  · rcases s5 with s | s | s <;> rw [s]
    · exact h5
    · rw [hT]; unfold min; split_ifs <;> omega
    · unfold max; split_ifs <;> omega

theorem sliceIndex_isSome {α : Type} (s : List α) (i : Int) (h0 : 0 ≤ i)
    (h1 : i < (s.length : Int)) : (sliceIndex s i).isSome = true := by
  unfold sliceIndex
  rw [if_pos h0]
  have : i.toNat < s.length := by omega
  simp [List.getElem?_eq_getElem this]

/-- C17: "tab"/"right" set the active tab to min(activeTab + 1, 5) and "shift+tab"/"left"
set it to max(activeTab - 1, 0); both reset the cursor to 0, change nothing else (every list
and buffer stays as it was) and make no call.  Hence a valid active tab stays valid under
every message, and in every state reached from `New` the active tab is an index of the 6
entries of `Tabs` and of `TabContent`. -/
theorem section_switching (env : Env) (m : Model) (keypress : String)
    (hT : m.Tabs.length = 6) :
    (keypress = "tab" ∨ keypress = "right" →
      Update env m (.Key keypress) =
        some ({ m with activeTab := min (m.activeTab + 1) 5, focusInput := 0 }, [])) ∧
    (keypress = "shift+tab" ∨ keypress = "left" →
      Update env m (.Key keypress) =
        some ({ m with activeTab := max (m.activeTab - 1) 0, focusInput := 0 }, [])) ∧
    (ValidTab m → ∀ msg r e, Update env m msg = some (r, e) → ValidTab r) ∧
    (∀ key msgs r, run env (New key) msgs = some r →
      ValidTab r ∧ (sliceIndex r.Tabs r.activeTab).isSome = true ∧
        (activeTabContent r).isSome = true) := by
  refine ⟨?_, ?_, ?_, ?_⟩
  · intro hk
    rcases hk with rfl | rfl <;> simp [Update, hT]
  · intro hk
    rcases hk with rfl | rfl <;> simp [Update]
  · intro hm msg r e h
    exact ValidTab_step env m msg r e hm h
  · intro key msgs r h
    have hv : ValidTab r :=
      run_invariant env ValidTab (fun m msg r e hm hu => ValidTab_step env m msg r e hm hu)
        msgs (New key) r ⟨le_refl 0, by show (0 : Int) < 6; omega, rfl, rfl⟩ h
    obtain ⟨h0, h5, hT2, hC⟩ := hv
    refine ⟨⟨h0, h5, hT2, hC⟩, ?_, ?_⟩
    · exact sliceIndex_isSome _ _ h0 (by rw [hT2]; exact h5)
    · exact sliceIndex_isSome _ _ h0 (by rw [hC]; exact h5)

theorem section_switching_witness :
    Update sampleEnv lastTabSample (.Key "tab") =
        some ({ lastTabSample with activeTab := 5, focusInput := 0 }, []) ∧
      Update sampleEnv lastTabSample (.Key "left") =
        some ({ lastTabSample with activeTab := 4, focusInput := 0 }, []) := by
  constructor
  · rw [(section_switching sampleEnv lastTabSample "tab" rfl).1 (Or.inl rfl)]; rfl
  · rw [(section_switching sampleEnv lastTabSample "left" rfl).2.1 (Or.inr rfl)]; rfl

/-! ## The Main tab: presets and submit -/

theorem Update_enter (env : Env) (m p : Model) (e : List Effect)
    (h : updateEnter env m = some (p, e)) :
    ∃ r, Update env m (.Key "enter") = some (r, e) ∧ Frame p r := by
  have hf := finish_frame env p (.Key "enter") e
  simpa [Update, h] using hf

theorem Update_enter_none (env : Env) (m : Model) (h : updateEnter env m = none) :
    Update env m (.Key "enter") = none := by
  simp [Update, h]

/-- C14 (counterexample): on the initial form, `enter` on "Testnet" puts the Testnet URL
into the endpoint field; `enter` on "Custom" afterwards puts the empty string there, so the
field does not hold its prior value any more. -/
theorem custom_preset_clears_endpoint_field :
    (run sampleEnv (New []) testnetKeys).map
        (fun m => (m.focusInput, m.url, inputValue m.mainInputs 0)) =
        some (4, "Testnet", some "https://testnet.archethic.net") ∧
      (run sampleEnv (New []) testnetCustomKeys).map
        (fun m => (m.focusInput, m.url, inputValue m.mainInputs 0)) =
        some (4, "Custom", some "") := by
  constructor <;> decide

/-- C14 (amended): on the Main tab, with text widgets that ignore the key `enter`, pressing
`enter` on "Testnet" (position 1) sets the endpoint field to
"https://testnet.archethic.net", and pressing `enter` on "Custom" (position 3) sets the
endpoint field to the empty string, whatever it held before; both move the cursor to the
endpoint field (position 4). -/
theorem preset_enter_sets_endpoint_field (env : Env) (m : Model) (a b c : TextInput)
    (ht : m.activeTab = 0) (hi : m.mainInputs = [a, b, c])
    (hw : ∀ v, env.inputKey "enter" v = v) :
    (m.focusInput = 1 →
      ∃ r, Update env m (.Key "enter") = some (r, []) ∧
        inputValue r.mainInputs 0 = some "https://testnet.archethic.net" ∧
        r.url = "Testnet" ∧ r.focusInput = 4) ∧
    (m.focusInput = 3 →
      ∃ r, Update env m (.Key "enter") = some (r, []) ∧
        inputValue r.mainInputs 0 = some "" ∧ r.url = "Custom" ∧ r.focusInput = 4) := by
  constructor
  · intro hc
    have hu : updateEnter env m = some
        ({ m with mainInputs := [a.SetValue "https://testnet.archethic.net", b, c],
                  url := "Testnet", focusInput := 4 }, []) := by
      simp [updateEnter, ht, hc, hi, sliceIndex, urlType, inputSetValue, urls]
    refine ⟨updateInputs env (updateFocus
      { m with mainInputs := [a.SetValue "https://testnet.archethic.net", b, c],
               url := "Testnet", focusInput := 4 }) (.Key "enter"), ?_, ?_, ?_, ?_⟩
    · simp [Update, hu, finish]
    · simp [updateInputs, updateFocus, ht, focusLoop, widgetUpdate, TextInput.Focus,
        TextInput.Blur, TextInput.SetValue, inputValue, hw]
    · simp [updateInputs, updateFocus, ht]
    · simp [updateInputs, updateFocus, ht]
  · intro hc
    have hu : updateEnter env m = some
        ({ m with mainInputs := [a.SetValue "", b, c], url := "Custom", focusInput := 4 },
          []) := by
      simp [updateEnter, ht, hc, hi, sliceIndex, urlType, inputSetValue, urls]
    refine ⟨updateInputs env (updateFocus
      { m with mainInputs := [a.SetValue "", b, c], url := "Custom", focusInput := 4 })
      (.Key "enter"), ?_, ?_, ?_, ?_⟩
    · simp [Update, hu, finish]
    · simp [updateInputs, updateFocus, ht, focusLoop, widgetUpdate, TextInput.Focus,
        TextInput.Blur, TextInput.SetValue, inputValue, hw]
    · simp [updateInputs, updateFocus, ht]
    · simp [updateInputs, updateFocus, ht]

theorem preset_enter_sets_endpoint_field_witness :
    (∃ r, Update sampleEnv { New [] with focusInput := 1 } (.Key "enter") = some (r, []) ∧
      inputValue r.mainInputs 0 = some "https://testnet.archethic.net" ∧
      r.url = "Testnet" ∧ r.focusInput = 4) ∧
    (∃ r, Update sampleEnv
        { New [] with
          focusInput := 3,
          mainInputs := [{ value := "https://testnet.archethic.net", focus := false },
            TextInput.New, TextInput.New] } (.Key "enter") = some (r, []) ∧
      inputValue r.mainInputs 0 = some "" ∧ r.url = "Custom" ∧ r.focusInput = 4) :=
  ⟨(preset_enter_sets_endpoint_field sampleEnv { New [] with focusInput := 1 } _ _ _ rfl rfl
      (by intro v; rfl)).1 rfl,
   (preset_enter_sets_endpoint_field sampleEnv _ _ _ _ rfl rfl (by intro v; rfl)).2 rfl⟩


theorem senderFeedback_sent (rest : List SenderEvent) (feedback : String) :
    senderFeedback feedback (rest ++ [SenderEvent.Sent]) = "Transaction sent" := by
  induction rest generalizing feedback with
  | nil => rfl
  | cons e es ih => cases e <;> exact ih _

theorem senderFeedback_error (rest : List SenderEvent) (sender message feedback : String) :
    senderFeedback feedback (rest ++ [SenderEvent.Error sender message]) =
      "Transaction error" ++ sender ++ message := by
  induction rest generalizing feedback with
  | nil => rfl
  | cons e es ih => cases e <;> exact ih _

theorem updateEnter_submit (env : Env) (m : Model) (a b c : TextInput) (kc : Keychain)
    (index : Int) (ht : m.activeTab = 0) (hc : m.focusInput = 15) (hi : m.mainInputs = [a, b, c])
    (hk : env.GetKeychain (env.MaybeConvertToHex b.value) m.url = some kc)
    (hx : env.GetLastTransactionIndex m.url
      (hexEncodeToString (kc.DeriveAddress m.serviceName 0)) = some index) :
    updateEnter env m = some
      ({ m with
          transaction :=
            (env.OriginSign
              (kc.BuildTransaction { m.transaction with Version := kc.Version % 2 ^ 32 }
                m.serviceName (index % 256).toNat) originPrivateKey),
          feedback :=
            senderFeedback m.feedback (env.SendTransaction m.url
              (env.OriginSign
                (kc.BuildTransaction { m.transaction with Version := kc.Version % 2 ^ 32 }
                  m.serviceName (index % 256).toNat) originPrivateKey) 1 1000) },
       [Effect.NewAPIClient m.url, Effect.GetKeychain (env.MaybeConvertToHex b.value),
        Effect.GetLastTransactionIndex (hexEncodeToString (kc.DeriveAddress m.serviceName 0)),
        Effect.BuildTransaction m.serviceName (index % 256).toNat,
        Effect.SendTransaction
          (env.OriginSign
            (kc.BuildTransaction { m.transaction with Version := kc.Version % 2 ^ 32 }
              m.serviceName (index % 256).toNat) originPrivateKey) 1 1000]) := by
  simp [updateEnter, ht, hc, hi, inputValue, hk, hx, lastTransactionIndex]

theorem updateEnter_submit_lookup_fails (env : Env) (m : Model) (a b c : TextInput)
    (kc : Keychain) (ht : m.activeTab = 0) (hc : m.focusInput = 15)
    (hi : m.mainInputs = [a, b, c])
    (hk : env.GetKeychain (env.MaybeConvertToHex b.value) m.url = some kc)
    (hx : env.GetLastTransactionIndex m.url
      (hexEncodeToString (kc.DeriveAddress m.serviceName 0)) = none) :
    updateEnter env m = some
      ({ m with
          transaction :=
            (env.OriginSign
              (kc.BuildTransaction { m.transaction with Version := kc.Version % 2 ^ 32 }
                m.serviceName 0) originPrivateKey),
          feedback :=
            senderFeedback m.feedback (env.SendTransaction m.url
              (env.OriginSign
                (kc.BuildTransaction { m.transaction with Version := kc.Version % 2 ^ 32 }
                  m.serviceName 0) originPrivateKey) 1 1000) },
       [Effect.NewAPIClient m.url, Effect.GetKeychain (env.MaybeConvertToHex b.value),
        Effect.GetLastTransactionIndex (hexEncodeToString (kc.DeriveAddress m.serviceName 0)),
        Effect.BuildTransaction m.serviceName 0,
        Effect.SendTransaction
          (env.OriginSign
            (kc.BuildTransaction { m.transaction with Version := kc.Version % 2 ^ 32 }
              m.serviceName 0) originPrivateKey) 1 1000]) := by
  simp [updateEnter, ht, hc, hi, inputValue, hk, hx, lastTransactionIndex]

/-- C15 (evaluation at the failing input): after `enter` on the preset "Testnet" the
endpoint field holds the Testnet URL but `m.url` holds the preset name; `enter` on the
submit control then constructs the client with the string "Testnet". -/
theorem submit_connects_to_preset_name :
    (run (ledgerEnv 0) (New []) testnetSubmitKeys).map
        (fun m => (m.focusInput, m.url, inputValue m.mainInputs 0)) =
        some (15, "Testnet", some "https://testnet.archethic.net") ∧
      ((run (ledgerEnv 0) (New []) testnetSubmitKeys).bind
          (fun m => Update (ledgerEnv 0) m (.Key "enter"))).map (fun p => p.2.head?) =
        some (some (Effect.NewAPIClient "Testnet")) := by
  constructor <;> decide

/-- C16 (counterexample): when the last-index lookup returns 300, the submit workflow asks
the keychain to build the transaction at index 44. -/
theorem submit_truncates_index :
    (Update (ledgerEnv 300) submitSample (.Key "enter")).map
        (fun p => (p.1.transaction.Sealed, p.2.get? 3)) =
      some ([44], some (Effect.BuildTransaction "" 44)) := by
  decide

/-- C16 (amended): the submit workflow asks the keychain to build the transaction at the
fetched index reduced modulo 256 (the conversion to `uint8`), which is the fetched index
itself exactly when that index lies in 0..255. -/
theorem submit_builds_at_index_mod_256 (env : Env) (m : Model) (a b c : TextInput)
    (kc : Keychain) (index : Int) (ht : m.activeTab = 0) (hc : m.focusInput = 15)
    (hi : m.mainInputs = [a, b, c])
    (hk : env.GetKeychain (env.MaybeConvertToHex b.value) m.url = some kc)
    (hx : env.GetLastTransactionIndex m.url
      (hexEncodeToString (kc.DeriveAddress m.serviceName 0)) = some index) :
    ∃ r effects, Update env m (.Key "enter") = some (r, effects) ∧
      r.transaction =
        env.OriginSign
          (kc.BuildTransaction { m.transaction with Version := kc.Version % 2 ^ 32 }
            m.serviceName (index % 256).toNat) originPrivateKey ∧
      effects.get? 3 = some (Effect.BuildTransaction m.serviceName (index % 256).toNat) ∧
      (((index % 256).toNat : Int) = index ↔ 0 ≤ index ∧ index < 256) := by
  obtain ⟨r, hr, hf⟩ := Update_enter env m _ _ (updateEnter_submit env m a b c kc index ht hc hi
    hk hx)
  refine ⟨r, _, hr, hf.transaction, rfl, ?_⟩
  omega

theorem submit_builds_at_index_mod_256_witness :
    ∃ r effects, Update (ledgerEnv 7) submitSample (.Key "enter") = some (r, effects) ∧
      r.transaction.Sealed = [7] ∧
      effects.get? 3 = some (Effect.BuildTransaction "" 7) := by
  obtain ⟨r, effects, h1, h2, h3, _⟩ :=
    submit_builds_at_index_mod_256 (ledgerEnv 7) submitSample _ _ _ sampleKeychain 7 rfl rfl rfl
      rfl rfl
  exact ⟨r, effects, h1, by rw [h2]; rfl, h3⟩

/-- C18 (counterexample): with a client that fails at the index lookup and then sends the
transaction, `enter` on the submit control returns a state whose feedback text is
"Transaction sent", with the transaction built at index 0 and handed to `SendTransaction`. -/
theorem failed_index_lookup_still_dispatches :
    failingIndexEnv.GetLastTransactionIndex submitSample.url
        (hexEncodeToString (sampleKeychain.DeriveAddress submitSample.serviceName 0)) = none ∧
      (Update failingIndexEnv submitSample (.Key "enter")).map
        (fun p => (p.1.feedback, p.2.get? 3, (p.2.get? 4).map (fun e =>
          match e with
          | Effect.SendTransaction tx retries timeout => (tx.Sealed, retries, timeout)
          | _ => ([], 0, 0)))) =
        some ("Transaction sent", some (Effect.BuildTransaction "" 0), some ([0], 1, 1000)) := by
  constructor <;> decide

/-- C18 (amended): when the index lookup of the submit workflow fails, the handler does not
notice: the lookup yields index 0, `Update` returns, the transaction is built at index 0,
signed and handed to `SendTransaction`, and the feedback text of the result is the one the
handlers of the sender write ("Transaction sent", or "Transaction error" followed by the
sender and the message), the text before the key press when the sender reports nothing; no
text names the lookup. -/
theorem failed_index_lookup_goes_unnoticed (env : Env) (m : Model) (a b c : TextInput)
    (kc : Keychain) (ht : m.activeTab = 0) (hc : m.focusInput = 15)
    (hi : m.mainInputs = [a, b, c])
    (hk : env.GetKeychain (env.MaybeConvertToHex b.value) m.url = some kc)
    (hx : env.GetLastTransactionIndex m.url
      (hexEncodeToString (kc.DeriveAddress m.serviceName 0)) = none) :
    ∃ r, Update env m (.Key "enter") = some (r,
        [Effect.NewAPIClient m.url, Effect.GetKeychain (env.MaybeConvertToHex b.value),
         Effect.GetLastTransactionIndex (hexEncodeToString (kc.DeriveAddress m.serviceName 0)),
         Effect.BuildTransaction m.serviceName 0,
         Effect.SendTransaction r.transaction 1 1000]) ∧
      r.transaction =
        env.OriginSign
          (kc.BuildTransaction { m.transaction with Version := kc.Version % 2 ^ 32 }
            m.serviceName 0) originPrivateKey ∧
      r.feedback = senderFeedback m.feedback (env.SendTransaction m.url r.transaction 1 1000) ∧
      (env.SendTransaction m.url r.transaction 1 1000 = [] → r.feedback = m.feedback) ∧
      (∀ rest, env.SendTransaction m.url r.transaction 1 1000 = rest ++ [SenderEvent.Sent] →
        r.feedback = "Transaction sent") ∧
      (∀ rest sender message,
        env.SendTransaction m.url r.transaction 1 1000 =
          rest ++ [SenderEvent.Error sender message] →
        r.feedback = "Transaction error" ++ sender ++ message) := by
  obtain ⟨r, hr, hf⟩ := Update_enter env m _ _
    (updateEnter_submit_lookup_fails env m a b c kc ht hc hi hk hx)
  have htx : r.transaction =
      env.OriginSign
        (kc.BuildTransaction { m.transaction with Version := kc.Version % 2 ^ 32 }
          m.serviceName 0) originPrivateKey := hf.transaction
  have hfb : r.feedback =
      senderFeedback m.feedback (env.SendTransaction m.url r.transaction 1 1000) := by
    rw [htx]; exact hf.feedback
  refine ⟨r, ?_, htx, hfb, ?_, ?_, ?_⟩
  · rw [htx]; exact hr
  · intro h0
    rw [hfb, h0]; rfl
  · intro rest h0
    rw [hfb, h0]; exact senderFeedback_sent _ _
  · intro rest sender message h0
    rw [hfb, h0]; exact senderFeedback_error _ _ _ _

theorem failed_index_lookup_goes_unnoticed_witness :
    ∃ r, Update failingIndexEnv submitSample (.Key "enter") = some (r,
        [Effect.NewAPIClient "", Effect.GetKeychain [],
         Effect.GetLastTransactionIndex "00", Effect.BuildTransaction "" 0,
         Effect.SendTransaction r.transaction 1 1000]) ∧
      r.transaction.Sealed = [0] ∧ r.feedback = "Transaction sent" := by
  obtain ⟨r, h1, h2, _, _, h5, _⟩ :=
    failed_index_lookup_goes_unnoticed failingIndexEnv submitSample _ _ _ sampleKeychain rfl rfl
      rfl rfl rfl
  refine ⟨r, h1, by rw [h2]; rfl, h5 [] ?_⟩
  rw [h2]; rfl

/-! ## Addressing of the Ownerships tab -/

theorem highlightLoop_getElem? (n : Nat) (startCount focusInput : Int) (i : Nat) (h : i < n) :
    (highlightLoop n startCount focusInput)[i]? =
      some (decide (focusInput = startCount + (i : Int))) := by
  unfold highlightLoop
  rw [List.getElem?_map, List.getElem?_range h]
  rfl

/-- C20: on the Ownerships tab with its 2 input fields, k pending keys and o committed
ownerships, the cursor c addresses: the input fields at 0 and 1 (the widget focused), the
pending key c - 2 for c in [2, 2+k) (highlighted, and removed by "d"), the controls "add
authorized key", "load public key" and "commit ownership" at 2+k, 3+k and 4+k (highlighted,
and `enter` runs exactly `addAuthorizedKey`, `loadStorageNouncePublicKey` and
`addOwnership`, and at every other position changes nothing), and the committed ownership
c - 5 - k for c in [5+k, 4+k+o] (highlighted, and removed by "d"); "d" changes nothing at
the two fields and the three controls; "up" and "down" are subtraction and addition of one
modulo k+o+5 on [0, k+o+4], so k+o+5 presses return the cursor. -/
theorem ownerships_addressing (env : Env) (m : Model) (a b : TextInput) (k o : Nat)
    (ht : m.activeTab = 4) (hi : m.ownershipsInputs = [a, b])
    (hk : m.authorizedKeys.length = k) (ho : m.transaction.Data.Ownerships.length = o) :
    ((updateFocus m).ownershipsInputs.map (fun t => t.focus) =
        [decide (m.focusInput = 0), decide (m.focusInput = 1)]) ∧
    (∀ i, i < k →
      (ownerships m).authorizedKeys[i]? = some (decide (m.focusInput = 2 + (i : Int)))) ∧
    ((ownerships m).buttonAddAuthKey = decide (m.focusInput = 2 + (k : Int)) ∧
      (ownerships m).buttonLoadStorageNouncePK = decide (m.focusInput = 3 + (k : Int)) ∧
      (ownerships m).button = decide (m.focusInput = 4 + (k : Int))) ∧
    (∀ i, i < o →
      (ownerships m).ownerships[i]? =
        some (decide (m.focusInput = 5 + (k : Int) + (i : Int)))) ∧
    ((m.focusInput = 2 + (k : Int) →
        updateEnter env m = (addAuthorizedKey m).map (fun r => (r, []))) ∧
      (m.focusInput = 3 + (k : Int) → updateEnter env m = loadStorageNouncePublicKey env m) ∧
      (m.focusInput = 4 + (k : Int) →
        updateEnter env m = (addOwnership env m).map (fun r => (r, []))) ∧
      (m.focusInput ≠ 2 + (k : Int) → m.focusInput ≠ 3 + (k : Int) →
        m.focusInput ≠ 4 + (k : Int) → updateEnter env m = some (m, []))) ∧
    ((∀ i, i < k → m.focusInput = 2 + (i : Int) →
        updateDelete m = some
          { m with authorizedKeys := m.authorizedKeys.eraseIdx i,
                   focusInput := m.focusInput - 1 }) ∧
      (∀ i, i < o → m.focusInput = 5 + (k : Int) + (i : Int) →
        updateDelete m = some
          { m with transaction.Data.Ownerships := m.transaction.Data.Ownerships.eraseIdx i,
                   focusInput := m.focusInput - 1 }) ∧
      (m.focusInput < 2 ∨ (2 + (k : Int) ≤ m.focusInput ∧ m.focusInput ≤ 4 + (k : Int)) →
        updateDelete m = some m)) ∧
    (0 ≤ m.focusInput → m.focusInput ≤ (k : Int) + o + 4 →
      getFocusIndex m "down" =
          { m with focusInput := (m.focusInput + 1) % ((k : Int) + o + 5) } ∧
        getFocusIndex m "up" =
          { m with focusInput := (m.focusInput - 1) % ((k : Int) + o + 5) } ∧
        ∀ keypress, keypress = "up" ∨ keypress = "down" →
          ∃ r, press env keypress (k + o + 5) m = some r ∧ r.focusInput = m.focusInput) := by
  have hl : m.ownershipsInputs.length = 2 := by rw [hi]; rfl
  refine ⟨?_, ?_, ?_, ?_, ⟨?_, ?_, ?_, ?_⟩, ⟨?_, ?_, ?_⟩, ?_⟩
  · simp [updateFocus, ht, hi, focusLoop, TextInput.Focus, TextInput.Blur]
    constructor <;> split_ifs <;> simp_all <;> omega
  · intro i h
    simp only [ownerships, hk, hl]
    rw [highlightLoop_getElem? _ _ _ _ h]
    rfl
  · simp only [ownerships, hk, hl]
    refine ⟨?_, ?_, ?_⟩ <;> congr 1 <;> apply propext <;> constructor <;> intro h <;>
      push_cast at h ⊢ <;> omega
  · intro i h
    simp only [ownerships, hk, ho, hl]
    rw [highlightLoop_getElem? _ _ _ _ h]
    congr 2
    apply propext
    constructor <;> intro h <;> push_cast at h ⊢ <;> omega
  · intro hc
    simp only [updateEnter, ht, hl, hk]
    simp only [Nat.cast_ofNat]
    split_ifs <;> first | rfl | omega
  · intro hc
    simp only [updateEnter, ht, hl, hk]
    simp only [Nat.cast_ofNat]
    split_ifs <;> first | rfl | omega
  · intro hc
    simp only [updateEnter, ht, hl, hk]
    simp only [Nat.cast_ofNat]
    split_ifs <;> first | rfl | omega
  · intro h1 h2 h3
    simp only [updateEnter, ht, hl, hk]
    simp only [Nat.cast_ofNat]
    split_ifs <;> first | rfl | omega
  · intro i h hc
    have hidx : m.focusInput - ((m.ownershipsInputs.length : Nat) : Int) = (i : Int) := by
      rw [hl, hc]; push_cast; ring
    have hg : m.focusInput > ((m.ownershipsInputs.length : Nat) : Int) - 1 ∧
        m.focusInput < ((m.ownershipsInputs.length : Nat) : Int) +
          ((m.authorizedKeys.length : Nat) : Int) := by
      rw [hl, hk, hc]; push_cast; omega
    simp only [updateDelete, ht, if_pos hg, deleteAuthorizedKey, hidx,
      sliceDelete_eraseIdx _ _ (hk ▸ h)]
    rfl
  · intro i h hc
    have hidx : m.focusInput - ((m.ownershipsInputs.length : Nat) : Int) -
        ((m.authorizedKeys.length : Nat) : Int) - 3 = (i : Int) := by
      rw [hl, hk, hc]; push_cast; ring
    have hg1 : ¬ (m.focusInput > ((m.ownershipsInputs.length : Nat) : Int) - 1 ∧
        m.focusInput < ((m.ownershipsInputs.length : Nat) : Int) +
          ((m.authorizedKeys.length : Nat) : Int)) := by
      rw [hl, hk, hc]; push_cast; omega
    have hg2 : m.focusInput > ((m.ownershipsInputs.length : Nat) : Int) +
          ((m.authorizedKeys.length : Nat) : Int) + 2 := by
      rw [hl, hk, hc]; push_cast; omega
    simp only [updateDelete, ht, if_neg hg1, if_pos hg2, deleteOwnership, hidx,
      sliceDelete_eraseIdx _ _ (ho ▸ h)]
    rfl
  · intro hc
    have hg1 : ¬ (m.focusInput > ((m.ownershipsInputs.length : Nat) : Int) - 1 ∧
        m.focusInput < ((m.ownershipsInputs.length : Nat) : Int) +
          ((m.authorizedKeys.length : Nat) : Int)) := by
      rw [hl, hk]; push_cast; omega
    have hg2 : ¬ m.focusInput > ((m.ownershipsInputs.length : Nat) : Int) +
          ((m.authorizedKeys.length : Nat) : Int) + 2 := by
      rw [hl, hk]; push_cast; omega
    simp only [updateDelete, ht, if_neg hg1, if_neg hg2]
    rfl
  · intro h1 h2
    have h0 : 0 ≤ m.activeTab := by omega
    have h5 : m.activeTab ≤ 5 := by omega
    have hlo : wrapLow m = 0 := by simp [wrapLow, ht]
    have hhi : wrapHigh m = (k : Int) + o + 4 := by
      simp [wrapHigh, ht, hl, hk, ho]; ring
    have hmod := getFocusIndex_mod m h0 h5 hlo h1 (by rw [hhi]; exact h2)
    have e : wrapHigh m + 1 = (k : Int) + o + 5 := by rw [hhi]; ring
    rw [e] at hmod
    refine ⟨hmod.1, hmod.2, ?_⟩
    intro keypress hkp
    obtain ⟨r, hr, hf⟩ := press_cycle env keypress hkp m h0 h5 (by rw [hlo]; exact h1)
      (by rw [hhi]; exact h2)
    have e2 : (wrapHigh m - wrapLow m + 1).toNat = k + o + 5 := by rw [hhi, hlo]; omega
    rw [e2] at hr
    exact ⟨r, hr, hf.focusInput⟩


theorem ownerships_addressing_witness :
    (ownerships ownershipsSample).ownerships[1]? = some true ∧
      updateEnter sampleEnv ownershipsSample = some (ownershipsSample, []) ∧
      updateDelete ownershipsSample = some
        { ownershipsSample with
          transaction.Data.Ownerships := [{ Secret := [1], AuthorizedKeys := [] }],
          focusInput := 7 } ∧
      getFocusIndex ownershipsSample "down" = { ownershipsSample with focusInput := 0 } ∧
      ∃ r, press sampleEnv "down" 9 ownershipsSample = some r ∧ r.focusInput = 8 := by
  obtain ⟨_, _, _, h4, ⟨_, _, _, h5⟩, ⟨_, h6, _⟩, h7⟩ :=
    ownerships_addressing sampleEnv ownershipsSample _ _ 2 2 rfl rfl rfl rfl
  obtain ⟨h8, _, h9⟩ := h7 (by decide) (by decide)
  refine ⟨?_, ?_, ?_, ?_, ?_⟩
  · rw [h4 1 (by decide)]; rfl
  · exact h5 (by decide) (by decide) (by decide)
  · rw [h6 1 (by decide) (by decide)]; rfl
  · rw [h8]; rfl
  · exact h9 "down" (Or.inr rfl)

/-! ## Navigation from any cursor -/

theorem wrapLow_le_wrapHigh (m : Model) : wrapLow m ≤ wrapHigh m := by
  unfold wrapLow wrapHigh
  split_ifs <;> omega

/-- C23: on every tab (0..5), for all list lengths and every cursor value, one step of
`getFocusIndex` in either direction gives a cursor inside [lo, hi], where lo is 6 on the Main
tab in service mode and 0 otherwise and hi is the wrap bound of the tab; the step changes
nothing but the cursor.  The clamp is applied to the moved cursor whatever its value, so the
result is in range also when the increment overflows the 64-bit `int`.  Pressing "up" or
"down" never panics and leaves the cursor inside the range of the resulting state. -/
theorem navigation_self_heals (env : Env) (m : Model) (keypress : String)
    (h0 : 0 ≤ m.activeTab) (h5 : m.activeTab ≤ 5) :
    wrapLow m = (if m.activeTab = 0 ∧ m.serviceMode = true then 6 else 0) ∧
      (wrapLow m ≤ (getFocusIndex m keypress).focusInput ∧
        (getFocusIndex m keypress).focusInput ≤ wrapHigh m) ∧
      getFocusIndex m keypress =
        { m with focusInput := (getFocusIndex m keypress).focusInput } ∧
      (wrapLow m ≤ wrap (wrapLow m) (wrapHigh m) (toInt64 (moved keypress m.focusInput)) ∧
        wrap (wrapLow m) (wrapHigh m) (toInt64 (moved keypress m.focusInput)) ≤ wrapHigh m) ∧
      (keypress = "up" ∨ keypress = "down" →
        ∃ r, Update env m (.Key keypress) = some (r, []) ∧
          wrapLow r ≤ r.focusInput ∧ r.focusInput ≤ wrapHigh r ∧
          wrapLow r = wrapLow m ∧ wrapHigh r = wrapHigh m) := by
  have hle := wrapLow_le_wrapHigh m
  have hg := getFocusIndex_eq m keypress h0 h5
  have hmem := wrap_mem (wrapLow m) (wrapHigh m) (moved keypress m.focusInput) hle
  have hf : (getFocusIndex m keypress).focusInput =
      wrap (wrapLow m) (wrapHigh m) (moved keypress m.focusInput) := by rw [hg]
  refine ⟨rfl, ?_, ?_, wrap_mem _ _ _ hle, ?_⟩
  · rw [hf]; exact hmem
  · rw [hf]; exact hg
  · intro hk
    obtain ⟨r, hr, hfr⟩ := Update_nav env m keypress hk
    have hl : wrapLow (getFocusIndex m keypress) = wrapLow m := by rw [hg]; rfl
    have hh : wrapHigh (getFocusIndex m keypress) = wrapHigh m := by rw [hg]; rfl
    refine ⟨r, hr, ?_, ?_, ?_, ?_⟩
    · rw [hfr.wrapLow, hfr.focusInput, hl, hf]; exact hmem.1
    · rw [hfr.wrapHigh, hfr.focusInput, hh, hf]; exact hmem.2
    · rw [hfr.wrapLow, hl]
    · rw [hfr.wrapHigh, hh]

theorem navigation_self_heals_witness :
    ((0 : Int) ≤ (getFocusIndex staleHighSample "down").focusInput ∧
        (getFocusIndex staleHighSample "down").focusInput ≤ 5) ∧
      ((6 : Int) ≤ (getFocusIndex staleLowSample "up").focusInput ∧
        (getFocusIndex staleLowSample "up").focusInput ≤ 15) ∧
      (∃ r, Update sampleEnv staleHighSample (.Key "up") = some (r, []) ∧
        wrapLow r ≤ r.focusInput ∧ r.focusInput ≤ wrapHigh r ∧
        wrapLow r = 0 ∧ wrapHigh r = 5) := by
  obtain ⟨_, e1, _, _, _⟩ := navigation_self_heals sampleEnv staleHighSample "down"
    (by decide) (by decide)
  obtain ⟨_, _, _, _, u2⟩ := navigation_self_heals sampleEnv staleHighSample "up"
    (by decide) (by decide)
  obtain ⟨_, e3, _, _, _⟩ := navigation_self_heals sampleEnv staleLowSample "up"
    (by decide) (by decide)
  obtain ⟨r, hr, a, b, c, d⟩ := u2 (Or.inl rfl)
  refine ⟨e1, e3, r, hr, a, b, ?_, ?_⟩
  · rw [c]; decide
  · rw [d]; decide

/-! ## Enter on the list-editing tabs -/

theorem addUcoTransfer_appends (m r : Model) (h : addUcoTransfer m = some r) :
    ∃ x, r.transaction.Data.Ledger.Uco.Transfers =
      m.transaction.Data.Ledger.Uco.Transfers ++ [x] := by
  simp only [addUcoTransfer, Option.bind_eq_bind, Option.bind_eq_some, Option.pure_def,
    Option.some.injEq] at h
  obtain ⟨_, _, toAddr, _, _, _, amount, _, _, _, _, _, rfl⟩ := h
  exact ⟨{ To := toAddr, Amount := amount }, rfl⟩

theorem addTokenTransfer_appends (m r : Model) (h : addTokenTransfer m = some r) :
    ∃ x, r.transaction.Data.Ledger.Token.Transfers =
      m.transaction.Data.Ledger.Token.Transfers ++ [x] := by
  simp only [addTokenTransfer, Option.bind_eq_bind, Option.bind_eq_some, Option.pure_def,
    Option.some.injEq] at h
  obtain ⟨_, _, toAddr, _, _, _, amount, _, _, _, tokenAddress, _, _, _, tokenId, _, _, _, _, _,
    _, _, _, _, rfl⟩ := h
  exact ⟨{ To := toAddr, TokenAddress := tokenAddress, Amount := amount, TokenId := tokenId },
    rfl⟩

theorem addRecipient_appends (m r : Model) (h : addRecipient m = some r) :
    ∃ x, r.transaction.Data.Recipients = m.transaction.Data.Recipients ++ [x] := by
  simp only [addRecipient, Option.bind_eq_bind, Option.bind_eq_some, Option.pure_def,
    Option.some.injEq] at h
  obtain ⟨recipient, _, rfl⟩ := h
  exact ⟨recipient, rfl⟩

theorem Update_enter_add (env : Env) (m : Model) (add : Option Model)
    (h : updateEnter env m = add.map (fun r => (r, []))) :
    (add = none → Update env m (.Key "enter") = none) ∧
      (∀ m1, add = some m1 →
        ∃ r, Update env m (.Key "enter") = some (r, []) ∧ r.transaction = m1.transaction) := by
  constructor
  · intro ha
    rw [ha] at h
    exact Update_enter_none env m h
  · intro m1 ha
    rw [ha] at h
    obtain ⟨r, hr, hf⟩ := Update_enter env m m1 [] h
    exact ⟨r, hr, hf.transaction⟩

theorem Update_enter_same (env : Env) (m : Model) (h : updateEnter env m = some (m, [])) :
    ∃ r, Update env m (.Key "enter") = some (r, []) ∧ r.transaction = m.transaction := by
  obtain ⟨r, hr, hf⟩ := Update_enter env m m [] h
  exact ⟨r, hr, hf.transaction⟩

/-- C21 (counterexample): on the Recipients tab, `enter` with the cursor on the recipient
field (position 0, not the Add control) and "CC" typed into it commits the recipient CC. -/
theorem enter_on_recipient_field_commits :
    (run sampleEnv (New []) recipientFieldEnterKeys).map
        (fun m => (m.activeTab, m.focusInput, m.transaction.Data.Recipients)) =
      some (3, 0, [[204]]) := by
  decide

/-- C21 (amended): on the UcoTransfers and TokenTransfers tabs `enter` runs the add function
exactly when the cursor is on the Add control (position 2, position 4), and on the
Recipients tab exactly when the cursor is on the Add control (position 1) or on the
recipient field (position 0).  There `enter` panics when the add function does, and
otherwise returns with the transaction the add function produced, whose list is the old one
followed by one new entry; at every other position `enter` returns and leaves the
transaction, hence every committed list, unchanged. -/
theorem enter_commits_at_add_positions (env : Env) (m : Model)
    (hu : m.ucoInputs.length = 2) (ht : m.tokenInputs.length = 4) :
    (m.activeTab = 1 →
      (m.focusInput = 2 →
        (addUcoTransfer m = none → Update env m (.Key "enter") = none) ∧
        (∀ m1, addUcoTransfer m = some m1 →
          ∃ r x, Update env m (.Key "enter") = some (r, []) ∧
            r.transaction = m1.transaction ∧
            r.transaction.Data.Ledger.Uco.Transfers =
              m.transaction.Data.Ledger.Uco.Transfers ++ [x])) ∧
      (m.focusInput ≠ 2 →
        ∃ r, Update env m (.Key "enter") = some (r, []) ∧ r.transaction = m.transaction)) ∧
    (m.activeTab = 2 →
      (m.focusInput = 4 →
        (addTokenTransfer m = none → Update env m (.Key "enter") = none) ∧
        (∀ m1, addTokenTransfer m = some m1 →
          ∃ r x, Update env m (.Key "enter") = some (r, []) ∧
            r.transaction = m1.transaction ∧
            r.transaction.Data.Ledger.Token.Transfers =
              m.transaction.Data.Ledger.Token.Transfers ++ [x])) ∧
      (m.focusInput ≠ 4 →
        ∃ r, Update env m (.Key "enter") = some (r, []) ∧ r.transaction = m.transaction)) ∧
    (m.activeTab = 3 →
      (m.focusInput = 1 ∨ m.focusInput = 0 →
        (addRecipient m = none → Update env m (.Key "enter") = none) ∧
        (∀ m1, addRecipient m = some m1 →
          ∃ r x, Update env m (.Key "enter") = some (r, []) ∧
            r.transaction = m1.transaction ∧
            r.transaction.Data.Recipients = m.transaction.Data.Recipients ++ [x])) ∧
      (m.focusInput ≠ 1 → m.focusInput ≠ 0 →
        ∃ r, Update env m (.Key "enter") = some (r, []) ∧ r.transaction = m.transaction)) := by
  refine ⟨?_, ?_, ?_⟩
  · intro hta
    constructor
    · intro hc
      have he : updateEnter env m = (addUcoTransfer m).map (fun r => (r, [])) := by
        simp [updateEnter, hta, hc, hu]
      obtain ⟨h1, h2⟩ := Update_enter_add env m _ he
      refine ⟨h1, ?_⟩
      intro m1 hm1
      obtain ⟨r, hr, htx⟩ := h2 m1 hm1
      obtain ⟨x, hx⟩ := addUcoTransfer_appends m m1 hm1
      exact ⟨r, x, hr, htx, by rw [htx]; exact hx⟩
    · intro hc
      have he : updateEnter env m = some (m, []) := by
        simp [updateEnter, hta, hc, hu]
      exact Update_enter_same env m he
  · intro hta
    constructor
    · intro hc
      have he : updateEnter env m = (addTokenTransfer m).map (fun r => (r, [])) := by
        simp [updateEnter, hta, hc, ht]
      obtain ⟨h1, h2⟩ := Update_enter_add env m _ he
      refine ⟨h1, ?_⟩
      intro m1 hm1
      obtain ⟨r, hr, htx⟩ := h2 m1 hm1
      obtain ⟨x, hx⟩ := addTokenTransfer_appends m m1 hm1
      exact ⟨r, x, hr, htx, by rw [htx]; exact hx⟩
    · intro hc
      have he : updateEnter env m = some (m, []) := by
        simp [updateEnter, hta, hc, ht]
      exact Update_enter_same env m he
  · intro hta
    constructor
    · intro hc
      have he : updateEnter env m = (addRecipient m).map (fun r => (r, [])) := by
        simp [updateEnter, hta, hc]
      obtain ⟨h1, h2⟩ := Update_enter_add env m _ he
      refine ⟨h1, ?_⟩
      intro m1 hm1
      obtain ⟨r, hr, htx⟩ := h2 m1 hm1
      obtain ⟨x, hx⟩ := addRecipient_appends m m1 hm1
      exact ⟨r, x, hr, htx, by rw [htx]; exact hx⟩
    · intro hc1 hc0
      have he : updateEnter env m = some (m, []) := by
        simp [updateEnter, hta, hc1, hc0]
      exact Update_enter_same env m he


theorem enter_commits_at_add_positions_witness :
    (∃ r x, Update sampleEnv { validBuffersSample with activeTab := 1, focusInput := 2 }
        (.Key "enter") = some (r, []) ∧
      r.transaction.Data.Ledger.Uco.Transfers = [] ++ [x]) ∧
    (∃ r, Update sampleEnv { validBuffersSample with activeTab := 1, focusInput := 0 }
        (.Key "enter") = some (r, []) ∧
      r.transaction = validBuffersSample.transaction) ∧
    (∃ r x, Update sampleEnv { validBuffersSample with activeTab := 2, focusInput := 4 }
        (.Key "enter") = some (r, []) ∧
      r.transaction.Data.Ledger.Token.Transfers = [] ++ [x]) ∧
    (∃ r x, Update sampleEnv { validBuffersSample with activeTab := 3, focusInput := 0 }
        (.Key "enter") = some (r, []) ∧
      r.transaction.Data.Recipients = [] ++ [x]) ∧
    (∃ r, Update sampleEnv { validBuffersSample with activeTab := 3, focusInput := 2 }
        (.Key "enter") = some (r, []) ∧
      r.transaction = validBuffersSample.transaction) := by
  refine ⟨?_, ?_, ?_, ?_, ?_⟩
  · obtain ⟨r, x, h1, _, h3⟩ :=
      ((enter_commits_at_add_positions sampleEnv
        { validBuffersSample with activeTab := 1, focusInput := 2 } rfl rfl).1 rfl).1 rfl |>.2 _
        (addUcoTransfer_eq _ _ _ rfl [170] 5 (by decide) (by decide))
    exact ⟨r, x, h1, h3⟩
  · exact ((enter_commits_at_add_positions sampleEnv
      { validBuffersSample with activeTab := 1, focusInput := 0 } rfl rfl).1 rfl).2 (by decide)
  · obtain ⟨r, x, h1, _, h3⟩ :=
      ((enter_commits_at_add_positions sampleEnv
        { validBuffersSample with activeTab := 2, focusInput := 4 } rfl rfl).2.1 rfl).1 rfl
        |>.2 _
        (addTokenTransfer_eq _ _ _ _ _ rfl [170] 5 [187] (-3) (by decide) (by decide)
          (by decide) (by decide))
    exact ⟨r, x, h1, h3⟩
  · obtain ⟨r, x, h1, _, h3⟩ :=
      ((enter_commits_at_add_positions sampleEnv
        { validBuffersSample with activeTab := 3, focusInput := 0 } rfl rfl).2.2 rfl).1
        (Or.inr rfl) |>.2 _ (addRecipient_eq _ [204] (by decide))
    exact ⟨r, x, h1, h3⟩
  · exact ((enter_commits_at_add_positions sampleEnv
      { validBuffersSample with activeTab := 3, focusInput := 2 } rfl rfl).2.2 rfl).2
      (by decide) (by decide)

/-! ## Highlighting and deletion -/

theorem sliceDelete_some {α : Type} (l l2 : List α) (idx : Int)
    (h : sliceDelete l idx = some l2) :
    ∃ i : Nat, (i : Int) = idx ∧ i < l.length ∧ l2 = l.eraseIdx i := by
  unfold sliceDelete at h
  split_ifs at h with hc
  simp only [Option.some.injEq] at h
  refine ⟨idx.toNat, by omega, by omega, ?_⟩
  rw [← h, List.eraseIdx_eq_take_drop_succ]

theorem highlightLoop_only (n : Nat) (startCount focusInput : Int) (i : Nat) (hi : i < n)
    (hc : focusInput = startCount + (i : Int)) :
    HighlightsOnly (highlightLoop n startCount focusInput) i := by
  constructor
  · rw [highlightLoop_getElem? _ _ _ _ hi]
    simp [hc]
  · intro j hj
    by_cases hjn : j < n
    · rw [highlightLoop_getElem? _ _ _ _ hjn] at hj
      simp only [Option.some.injEq, decide_eq_true_eq] at hj
      omega
    · have hlen : (highlightLoop n startCount focusInput).length = n := by
        simp [highlightLoop]
      rw [List.getElem?_eq_none (by omega)] at hj
      simp at hj

theorem Update_d_inv (env : Env) (m r : Model) (e : List Effect)
    (h : Update env m (.Key "d") = some (r, e)) :
    ∃ r0, updateDelete m = some r0 ∧ Frame r0 r := by
  cases hu : updateDelete m with
  | none => simp [Update, hu] at h
  | some r0 =>
    obtain ⟨r1, h1, hf⟩ := Update_d env m r0 hu
    rw [h1] at h
    simp only [Option.some.injEq, Prod.mk.injEq] at h
    exact ⟨r0, rfl, h.1 ▸ hf⟩

theorem addAuthorizedKey_appends (m r : Model) (h : addAuthorizedKey m = some r) :
    (∃ x, r.authorizedKeys = m.authorizedKeys ++ [x]) ∧ r.transaction = m.transaction := by
  simp only [addAuthorizedKey, Option.bind_eq_bind, Option.bind_eq_some, Option.pure_def,
    Option.some.injEq] at h
  obtain ⟨x, _, _, _, rfl⟩ := h
  exact ⟨⟨x, rfl⟩, rfl⟩

theorem addOwnership_appends (env : Env) (m r : Model) (h : addOwnership env m = some r) :
    ∃ x, r.transaction.Data.Ownerships = m.transaction.Data.Ownerships ++ [x] := by
  simp only [addOwnership, Option.bind_eq_bind, Option.bind_eq_some, Option.pure_def,
    Option.some.injEq] at h
  obtain ⟨secret, _, _, _, h⟩ := h
  split at h
  · simp only [Option.bind_eq_bind, Option.bind_eq_some, Option.pure_def,
      Option.some.injEq] at h
    obtain ⟨p, hp, cipher, _, recs, _, _, _, _, _, rfl⟩ := h
    have ht := (addAuthorizedKey_appends m p hp).2
    exact ⟨{ Secret := cipher, AuthorizedKeys := dedupAuthorizedKeys recs [] },
      by simp [TransactionBuilder.AddOwnership, ht]⟩
  · simp only [Option.bind_eq_bind, Option.bind_eq_some, Option.pure_def,
      Option.some.injEq] at h
    obtain ⟨p, hp, cipher, _, recs, _, _, _, _, _, rfl⟩ := h
    cases hp
    exact ⟨{ Secret := cipher, AuthorizedKeys := dedupAuthorizedKeys recs [] }, rfl⟩

theorem updateDelete_uco_inv (m r0 : Model) (ht : m.activeTab = 1)
    (h : updateDelete m = some r0)
    (hne : r0.transaction.Data.Ledger.Uco.Transfers ≠ m.transaction.Data.Ledger.Uco.Transfers) :
    ∃ i : Nat, (i : Int) = m.focusInput - (m.ucoInputs.length : Int) - 1 ∧
      i < m.transaction.Data.Ledger.Uco.Transfers.length ∧
      r0.transaction.Data.Ledger.Uco.Transfers =
        m.transaction.Data.Ledger.Uco.Transfers.eraseIdx i := by
  unfold updateDelete at h
  rw [if_pos ht] at h
  split_ifs at h
  · simp only [deleteUcoTransfer, Option.bind_eq_bind, Option.bind_eq_some, Option.pure_def,
      Option.some.injEq] at h
    obtain ⟨l2, hl, rfl⟩ := h
    exact sliceDelete_some _ _ _ hl
  · cases h; exact absurd rfl hne

theorem updateDelete_token_inv (m r0 : Model) (ht : m.activeTab = 2)
    (h : updateDelete m = some r0)
    (hne : r0.transaction.Data.Ledger.Token.Transfers ≠
      m.transaction.Data.Ledger.Token.Transfers) :
    ∃ i : Nat, (i : Int) = m.focusInput - (m.tokenInputs.length : Int) - 1 ∧
      i < m.transaction.Data.Ledger.Token.Transfers.length ∧
      r0.transaction.Data.Ledger.Token.Transfers =
        m.transaction.Data.Ledger.Token.Transfers.eraseIdx i := by
  unfold updateDelete at h
  rw [if_neg (by omega), if_pos ht] at h
  split_ifs at h
  · simp only [deleteTokenTransfer, Option.bind_eq_bind, Option.bind_eq_some, Option.pure_def,
      Option.some.injEq] at h
    obtain ⟨l2, hl, rfl⟩ := h
    exact sliceDelete_some _ _ _ hl
  · cases h; exact absurd rfl hne

theorem updateDelete_recipients_inv (m r0 : Model) (ht : m.activeTab = 3)
    (h : updateDelete m = some r0)
    (hne : r0.transaction.Data.Recipients ≠ m.transaction.Data.Recipients) :
    ∃ i : Nat, (i : Int) = m.focusInput - 1 - 1 ∧
      i < m.transaction.Data.Recipients.length ∧
      r0.transaction.Data.Recipients = m.transaction.Data.Recipients.eraseIdx i := by
  unfold updateDelete at h
  rw [if_neg (by omega), if_neg (by omega), if_pos ht] at h
  split_ifs at h
  · simp only [deleteRecipient, Option.bind_eq_bind, Option.bind_eq_some, Option.pure_def,
      Option.some.injEq] at h
    obtain ⟨l2, hl, rfl⟩ := h
    exact sliceDelete_some _ _ _ hl
  · cases h; exact absurd rfl hne

theorem updateDelete_pendingKey_inv (m r0 : Model) (ht : m.activeTab = 4)
    (h : updateDelete m = some r0) (hne : r0.authorizedKeys ≠ m.authorizedKeys) :
    ∃ i : Nat, (i : Int) = m.focusInput - (m.ownershipsInputs.length : Int) ∧
      i < m.authorizedKeys.length ∧ r0.authorizedKeys = m.authorizedKeys.eraseIdx i := by
  unfold updateDelete at h
  rw [if_neg (by omega), if_neg (by omega), if_neg (by omega),
    if_pos ht] at h
  split_ifs at h
  · simp only [deleteAuthorizedKey, Option.bind_eq_bind, Option.bind_eq_some, Option.pure_def,
      Option.some.injEq] at h
    obtain ⟨l2, hl, rfl⟩ := h
    exact sliceDelete_some _ _ _ hl
  · simp only [deleteOwnership, Option.bind_eq_bind, Option.bind_eq_some, Option.pure_def,
      Option.some.injEq] at h
    obtain ⟨l2, hl, rfl⟩ := h
    exact absurd rfl hne
  · cases h; exact absurd rfl hne

theorem updateDelete_ownership_inv (m r0 : Model) (ht : m.activeTab = 4)
    (h : updateDelete m = some r0)
    (hne : r0.transaction.Data.Ownerships ≠ m.transaction.Data.Ownerships) :
    ∃ i : Nat,
      (i : Int) = m.focusInput - (m.ownershipsInputs.length : Int) -
        (m.authorizedKeys.length : Int) - 3 ∧
      i < m.transaction.Data.Ownerships.length ∧
      r0.transaction.Data.Ownerships = m.transaction.Data.Ownerships.eraseIdx i := by
  unfold updateDelete at h
  rw [if_neg (by omega), if_neg (by omega), if_neg (by omega),
    if_pos ht] at h
  split_ifs at h
  · simp only [deleteAuthorizedKey, Option.bind_eq_bind, Option.bind_eq_some, Option.pure_def,
      Option.some.injEq] at h
    obtain ⟨l2, hl, rfl⟩ := h
    exact absurd rfl hne
  · simp only [deleteOwnership, Option.bind_eq_bind, Option.bind_eq_some, Option.pure_def,
      Option.some.injEq] at h
    obtain ⟨l2, hl, rfl⟩ := h
    exact sliceDelete_some _ _ _ hl
  · cases h; exact absurd rfl hne

/-- C22: whenever pressing "d" removes an entry from a list (the list after the press
differs from the list before), the index removed is the index of the one entry the tab's
renderer highlights at that cursor c: c - 2 - 1 for UCO transfers, c - 4 - 1 for token
transfers, c - 2 for recipients, c - 2 for pending keys and c - 5 - k for ownerships (k
pending keys).  Every add function appends at the end of its list, so list indices, and
with them highlighting and deletion, follow the order of insertion. -/
theorem delete_removes_highlighted_entry (env : Env) (m r : Model) (e : List Effect)
    (hu : m.ucoInputs.length = 2) (ht : m.tokenInputs.length = 4)
    (ho : m.ownershipsInputs.length = 2)
    (hd : Update env m (.Key "d") = some (r, e)) :
    (m.activeTab = 1 →
      r.transaction.Data.Ledger.Uco.Transfers ≠ m.transaction.Data.Ledger.Uco.Transfers →
      ∃ i : Nat, (i : Int) = m.focusInput - 2 - 1 ∧
        r.transaction.Data.Ledger.Uco.Transfers =
          m.transaction.Data.Ledger.Uco.Transfers.eraseIdx i ∧
        HighlightsOnly (ucoTransfer m).entries i) ∧
    (m.activeTab = 2 →
      r.transaction.Data.Ledger.Token.Transfers ≠ m.transaction.Data.Ledger.Token.Transfers →
      ∃ i : Nat, (i : Int) = m.focusInput - 4 - 1 ∧
        r.transaction.Data.Ledger.Token.Transfers =
          m.transaction.Data.Ledger.Token.Transfers.eraseIdx i ∧
        HighlightsOnly (tokenTransfer m).entries i) ∧
    (m.activeTab = 3 →
      r.transaction.Data.Recipients ≠ m.transaction.Data.Recipients →
      ∃ i : Nat, (i : Int) = m.focusInput - 2 ∧
        r.transaction.Data.Recipients = m.transaction.Data.Recipients.eraseIdx i ∧
        HighlightsOnly (recipients m).entries i) ∧
    (m.activeTab = 4 → r.authorizedKeys ≠ m.authorizedKeys →
      ∃ i : Nat, (i : Int) = m.focusInput - 2 ∧
        r.authorizedKeys = m.authorizedKeys.eraseIdx i ∧
        HighlightsOnly (ownerships m).authorizedKeys i) ∧
    (m.activeTab = 4 →
      r.transaction.Data.Ownerships ≠ m.transaction.Data.Ownerships →
      ∃ i : Nat, (i : Int) = m.focusInput - 5 - (m.authorizedKeys.length : Int) ∧
        r.transaction.Data.Ownerships = m.transaction.Data.Ownerships.eraseIdx i ∧
        HighlightsOnly (ownerships m).ownerships i) ∧
    ((∀ m1, addUcoTransfer m = some m1 →
        ∃ x, m1.transaction.Data.Ledger.Uco.Transfers =
          m.transaction.Data.Ledger.Uco.Transfers ++ [x]) ∧
      (∀ m1, addTokenTransfer m = some m1 →
        ∃ x, m1.transaction.Data.Ledger.Token.Transfers =
          m.transaction.Data.Ledger.Token.Transfers ++ [x]) ∧
      (∀ m1, addRecipient m = some m1 →
        ∃ x, m1.transaction.Data.Recipients = m.transaction.Data.Recipients ++ [x]) ∧
      (∀ m1, addAuthorizedKey m = some m1 →
        ∃ x, m1.authorizedKeys = m.authorizedKeys ++ [x]) ∧
      (∀ m1, addOwnership env m = some m1 →
        ∃ x, m1.transaction.Data.Ownerships = m.transaction.Data.Ownerships ++ [x])) := by
  obtain ⟨r0, h0, hf⟩ := Update_d_inv env m r e hd
  refine ⟨?_, ?_, ?_, ?_, ?_, ?_⟩
  · intro hta hne
    rw [hf.transaction] at hne ⊢
    obtain ⟨i, hi, hlt, her⟩ := updateDelete_uco_inv m r0 hta h0 hne
    refine ⟨i, by rw [hi, hu]; rfl, her, ?_⟩
    exact highlightLoop_only _ _ _ i hlt (by rw [hu] at hi ⊢; push_cast at hi ⊢; omega)
  · intro hta hne
    rw [hf.transaction] at hne ⊢
    obtain ⟨i, hi, hlt, her⟩ := updateDelete_token_inv m r0 hta h0 hne
    refine ⟨i, by rw [hi, ht]; rfl, her, ?_⟩
    exact highlightLoop_only _ _ _ i hlt (by rw [ht] at hi ⊢; push_cast at hi ⊢; omega)
  · intro hta hne
    rw [hf.transaction] at hne ⊢
    obtain ⟨i, hi, hlt, her⟩ := updateDelete_recipients_inv m r0 hta h0 hne
    refine ⟨i, by rw [hi]; ring, her, ?_⟩
    exact highlightLoop_only _ _ _ i hlt (by omega)
  · intro hta hne
    rw [hf.authorizedKeys] at hne ⊢
    obtain ⟨i, hi, hlt, her⟩ := updateDelete_pendingKey_inv m r0 hta h0 hne
    refine ⟨i, by rw [hi, ho]; rfl, her, ?_⟩
    exact highlightLoop_only _ _ _ i hlt (by rw [ho] at hi ⊢; push_cast at hi ⊢; omega)
  · intro hta hne
    rw [hf.transaction] at hne ⊢
    obtain ⟨i, hi, hlt, her⟩ := updateDelete_ownership_inv m r0 hta h0 hne
    refine ⟨i, by rw [hi, ho]; push_cast; ring, her, ?_⟩
    exact highlightLoop_only _ _ _ i hlt (by rw [ho] at hi ⊢; push_cast at hi ⊢; omega)
  · exact ⟨fun m1 h => addUcoTransfer_appends m m1 h,
      fun m1 h => addTokenTransfer_appends m m1 h,
      fun m1 h => addRecipient_appends m m1 h,
      fun m1 h => (addAuthorizedKey_appends m m1 h).1,
      fun m1 h => addOwnership_appends env m m1 h⟩

theorem delete_removes_highlighted_entry_witness :
    Update sampleEnv recipientsHighlightSample (.Key "d") =
        some ({ recipientsHighlightSample with
                transaction.Data.Recipients := [[170], [204]], focusInput := 2 }, []) ∧
      (recipients recipientsHighlightSample).entries = [false, true, false] ∧
      ∃ i : Nat, (i : Int) = 3 - 2 ∧
        [[170], [204]] = ([[170], [187], [204]] : List (List Nat)).eraseIdx i ∧
        HighlightsOnly (recipients recipientsHighlightSample).entries i := by
  have hU : Update sampleEnv recipientsHighlightSample (.Key "d") =
      some ({ recipientsHighlightSample with
              transaction.Data.Recipients := [[170], [204]], focusInput := 2 }, []) := by
    decide
  refine ⟨hU, by decide, ?_⟩
  exact (delete_removes_highlighted_entry sampleEnv recipientsHighlightSample _ _ rfl rfl rfl
    hU).2.2.1 (by decide) (by decide)

end KeychainCreateTransactionUI
